import Mathlib

/-!
Reviewer karma: scoring heuristics, accumulator, store and leaderboard.

A shallow embedding of `internal/karma/karma.go`, `internal/storage/storage.go`,
`internal/config/config.go` and `cmd/reviewer-karma/main.go`.

Modelling conventions.

* A Go `string` that reaches the program is valid UTF-8 (logins and bodies are decoded
  from JSON, environment values and literals are text), so it is a Lean `String` and the
  functions of package `strings` work on its list of runes.  For valid UTF-8 a byte-level
  substring test or replacement with a valid needle coincides with the rune-level one.
* The case tables of package `unicode` are not part of the program: the lower-case form of
  a rune above ASCII is the parameter `tbl`.
* Go `int` is the 64-bit two's complement integer: values are `Int`, and every `+=`
  goes through `wrapInt`.
* A Go `map[string]int` is an association list; the order of the list is one order in
  which a `range` loop may visit the map, and a list that stands for a map has each key
  once.
* The outside world (the GitHub API, the clock, the file system) enters as data: the
  result of each fetch, the readings of `time.Now()`, the state of the store file and the
  outcome of each write.
* String literals are taken rune for rune from the files.  Where `karma.go` was meant to
  hold emoji it holds other runs of runes (the UTF-8 bytes of each emoji read in a
  single-byte code page); those runs are written here with `\u` escapes, and a real emoji
  appears only in inputs.
-/

namespace GoStrings

/-- The ASCII branch of Go's `unicode.ToLower`; above `MaxASCII` the function consults the
case tables of the standard library, which enter as the parameter `tbl`. -/
def toLowerRune (tbl : Char → Char) (r : Char) : Char :=
  if r.toNat ≤ 0x7F then
    if 'A'.toNat ≤ r.toNat ∧ r.toNat ≤ 'Z'.toNat then Char.ofNat (r.toNat + ('a'.toNat - 'A'.toNat))
    else r
  else tbl r

/-- Go's `strings.ToLower` on the runes of a string. -/
def ToLower (tbl : Char → Char) (s : List Char) : List Char :=
  s.map (toLowerRune tbl)

/-- Go's `strings.HasPrefix`. -/
def HasPrefix : List Char → List Char → Bool
  | _, [] => true
  | [], _ :: _ => false
  | c :: s, p :: ps => c == p && HasPrefix s ps

/-- Go's `strings.Contains`: `substr` occurs in `s` at some offset. -/
def Contains : List Char → List Char → Bool
  | [], substr => substr.isEmpty
  | c :: s, substr => HasPrefix (c :: s) substr || Contains s substr

/-- The scanning loop of `strings.ReplaceAll` for a non-empty `old`: `skip` counts the
runes of the current match that are still to be dropped. -/
def replaceScan (old new : List Char) : Nat → List Char → List Char
  | _, [] => []
  | skip + 1, _ :: s => replaceScan old new skip s
  | 0, c :: s =>
    if HasPrefix (c :: s) old then new ++ replaceScan old new (old.length - 1) s
    else c :: replaceScan old new 0 s

/-- Go's `strings.ReplaceAll`: non-overlapping occurrences of `old`, found left to right,
are replaced by `new`; an empty `old` matches before every rune and at the end. -/
def ReplaceAll (s old new : List Char) : List Char :=
  if old.isEmpty then new ++ s.flatMap (fun c => c :: new)
  else replaceScan old new 0 s

/-- Go's `unicode.IsSpace`. -/
def isSpace (r : Char) : Bool :=
  let n := r.toNat
  (0x09 ≤ n && n ≤ 0x0D) || n == 0x20 || n == 0x85 || n == 0xA0 || n == 0x1680 ||
    (0x2000 ≤ n && n ≤ 0x200A) || n == 0x2028 || n == 0x2029 || n == 0x202F ||
    n == 0x205F || n == 0x3000

/-- The loop of `strings.Fields`; `cur` is the word being read, reversed. -/
def fieldsScan : List Char → List Char → List (List Char)
  | cur, [] => if cur.isEmpty then [] else [cur.reverse]
  | cur, c :: s =>
    if isSpace c then
      if cur.isEmpty then fieldsScan [] s else cur.reverse :: fieldsScan [] s
    else fieldsScan (c :: cur) s

/-- Go's `strings.Fields`: the maximal runs of non-space runes. -/
def Fields (s : List Char) : List (List Char) :=
  fieldsScan [] s

end GoStrings

namespace Karma

open GoStrings

/-- The keys of the map literal `positiveEmojis` (karma.go:23-26), in the order of the
literal and rune for rune as the file holds them.  The file does not hold emoji: each key
is the run of runes that the UTF-8 bytes of an emoji give when read in a single-byte code
page, for instance U+011F U+0178 U+2018 where a thumbs up U+1F44D was meant.  The first
and the tenth key are the same string, so the map has nine keys. -/
def positiveEmojis : List String :=
  ["\u011f\u0178\u2018", "\u011f\u0178\u201d\u00a5", "\u011f\u0178\u02dc\u201e",
   "\u011f\u0178\u2030", "\u011f\u0178\u0161\u20ac", "\u011f\u0178\u2019\u00af",
   "\u00e2\u0153\u2026", "\u00e2\u00ad", "\u00e2\u00a4\u00ef\u00b8",
   "\u011f\u0178\u2018"]

/-- The list `botSuffixes` of `IsBot`. -/
def botSuffixes : List String :=
  ["[bot]", "-bot", "bot-", "github-actions[bot]", "dependabot[bot]"]

/-- `IsBot` (karma.go): some marker, lower-cased, occurs in the lower-cased username. -/
def IsBot (tbl : Char → Char) (username : String) : Bool :=
  let usernameLower := ToLower tbl username.data
  botSuffixes.any (fun suffix => Contains usernameLower (ToLower tbl suffix.data))

/-- `HasPositiveEmoji` (karma.go). -/
def HasPositiveEmoji (text : String) : Bool :=
  if text = "" then false
  else positiveEmojis.any (fun emoji => Contains text.data emoji.data)

/-- The list `nonConstructive` of `IsConstructiveComment` (karma.go:65-67): four phrases,
then the ten strings of the literal `positiveEmojis` in the same order, rune for rune as the
file holds them. -/
def nonConstructive : List String :=
  ["lgtm", "looks good", "good", "nice",
   "\u011f\u0178\u2018", "\u011f\u0178\u201d\u00a5", "\u011f\u0178\u02dc\u201e",
   "\u011f\u0178\u2030", "\u011f\u0178\u0161\u20ac", "\u011f\u0178\u2019\u00af",
   "\u00e2\u0153\u2026", "\u00e2\u00ad", "\u00e2\u00a4\u00ef\u00b8",
   "\u011f\u0178\u2018"]

/-- The body of the loop over `nonConstructive`: the four `ReplaceAll` calls for one phrase. -/
def stripPhrase (text : List Char) (phrase : String) : List Char :=
  let text := ReplaceAll text (' ' :: phrase.data ++ [' ']) [' ']
  let text := ReplaceAll text (phrase.data ++ [' ']) [' ']
  let text := ReplaceAll text (' ' :: phrase.data) [' ']
  ReplaceAll text phrase.data []

/-- `IsConstructiveComment` (karma.go). -/
def IsConstructiveComment (tbl : Char → Char) (text : String) : Bool :=
  if text = "" then false
  else
    let text := ToLower tbl text.data
    let text := nonConstructive.foldl stripPhrase text
    let words := Fields text
    decide (words.length > 10)

end Karma


/-! ## Go `int` and `map[string]int` -/

/-- Two's complement wrap-around of a 64-bit Go `int`: the representative of `x` modulo
`2^64` in `[-2^63, 2^63)`. -/
def wrapInt (x : Int) : Int :=
  (x + 2 ^ 63) % 2 ^ 64 - 2 ^ 63

/-- The smallest value of a Go `int`. -/
def minInt : Int := -(2 ^ 63)

/-- The largest value of a Go `int`. -/
def maxInt : Int := 2 ^ 63 - 1

/-- A Go `map[string]int`, as the list of its entries in one iteration order. -/
abbrev KarmaMap := List (String × Int)

namespace KarmaMap

/-- The expression `m[k]`: the stored value, or the zero value when `k` has no entry. -/
def get (m : KarmaMap) (k : String) : Int :=
  match m.lookup k with
  | some v => v
  | none => 0

/-- Whether `k` has an entry in `m`. -/
def has (m : KarmaMap) (k : String) : Bool :=
  (m.lookup k).isSome

/-- The statement `m[k] += v`: the entry of `k` is updated in place, or created. -/
def add : KarmaMap → String → Int → KarmaMap
  | [], k, v => [(k, wrapInt (0 + v))]
  | (k', v') :: m, k, v =>
    if k' = k then (k', wrapInt (v' + v)) :: m else (k', v') :: add m k v

/-- The keys of the map. -/
def keys (m : KarmaMap) : List String :=
  m.map Prod.fst

/-- The loop `for username, points := range delta { m[username] += points }`. -/
def merge (m delta : KarmaMap) : KarmaMap :=
  delta.foldl (fun acc entry => add acc entry.1 entry.2) m

end KarmaMap

/-! ## internal/config -/

namespace GoStrconv

/-- The digits loop of `strconv.Atoi`: the value of a run of decimal digits. -/
def parseDigits : List Char → Nat → Option Nat
  | [], acc => some acc
  | ch :: s, acc =>
    if '0'.toNat ≤ ch.toNat ∧ ch.toNat ≤ '9'.toNat then
      parseDigits s (acc * 10 + (ch.toNat - '0'.toNat))
    else none

/-- Go's `strconv.Atoi`: an optional sign, then at least one decimal digit; `none` stands for
a non-nil error (syntax, or a value outside the range of `int`). -/
def Atoi (s : String) : Option Int :=
  let body : List Char × Bool :=
    match s.data with
    | '+' :: rest => (rest, false)
    | '-' :: rest => (rest, true)
    | all => (all, false)
  if body.1.isEmpty then none
  else
    match parseDigits body.1 0 with
    | none => none
    | some n =>
      let v : Int := if body.2 then -(n : Int) else (n : Int)
      if minInt ≤ v ∧ v ≤ maxInt then some v else none

end GoStrconv

/-- The struct `Config` (config.go). -/
structure Config where
  ReviewPoint : Int
  PositiveEmojiPoint : Int
  ConstructiveCommentPoint : Int
  IncrementalUpdate : Bool
  deriving DecidableEq

namespace Config

open GoStrconv

/-- The variable `defaultConfig`. -/
def defaultConfig : Config :=
  { ReviewPoint := 1, PositiveEmojiPoint := 2, ConstructiveCommentPoint := 1,
    IncrementalUpdate := false }

/-- `Load` (config.go); `getenv` is `os.Getenv`, which yields `""` for an unset variable. -/
def Load (tbl : Char → Char) (getenv : String → String) : Config :=
  let config := defaultConfig
  let config :=
    if getenv "REVIEW_POINT" ≠ "" then
      match Atoi (getenv "REVIEW_POINT") with
      | some points => { config with ReviewPoint := points }
      | none => config
    else config
  let config :=
    if getenv "POSITIVE_EMOJI_POINT" ≠ "" then
      match Atoi (getenv "POSITIVE_EMOJI_POINT") with
      | some points => { config with PositiveEmojiPoint := points }
      | none => config
    else config
  let config :=
    if getenv "CONSTRUCTIVE_COMMENT_POINT" ≠ "" then
      match Atoi (getenv "CONSTRUCTIVE_COMMENT_POINT") with
      | some points => { config with ConstructiveCommentPoint := points }
      | none => config
    else config
  let config :=
    if getenv "INCREMENTAL_UPDATE" ≠ "" then
      { config with
        IncrementalUpdate :=
          decide (GoStrings.ToLower tbl (getenv "INCREMENTAL_UPDATE").data = "true".data) }
    else config
  config

end Config

/-! ## internal/karma: the leaderboard -/

namespace Karma

/-- The struct `Reviewer` (karma.go). -/
structure Reviewer where
  Username : String
  Points : Int
  deriving DecidableEq

/-- The struct `Leaderboard` (karma.go). -/
structure Leaderboard where
  Reviewers : List Reviewer
  deriving DecidableEq

/-- Insertion of `x` into a list sorted by `less`: `x` goes behind the elements that are
`less` than it and in front of the first element that is not. -/
def insertSlice {α : Type} (less : α → α → Bool) (x : α) : List α → List α
  | [] => [x]
  | y :: ys => if less y x then y :: insertSlice less x ys else x :: y :: ys

/-- Go's `sort.Slice`, which belongs to the standard library: it permutes the slice so
that no element is `less` than an element before it, and promises no order among elements
that are not `less` than each other.  On a slice of at most 12 elements the library runs an
insertion sort, which keeps such elements in the order they had; the model is that
insertion sort, on every length. -/
def sortSlice {α : Type} (less : α → α → Bool) : List α → List α
  | [] => []
  | x :: xs => insertSlice less x (sortSlice less xs)

/-- `GenerateLeaderboard` (karma.go): the entries of the map, in the order the `range` loop
visits them, are appended to `reviewers`, which is then sorted by descending points. -/
def GenerateLeaderboard (reviewerKarma : KarmaMap) : Leaderboard :=
  let reviewers : List Reviewer :=
    reviewerKarma.foldl
      (fun reviewers entry => reviewers ++ [{ Username := entry.1, Points := entry.2 }]) []
  { Reviewers := sortSlice (fun a b => decide (a.Points > b.Points)) reviewers }

end Karma

/-! ## internal/storage -/

/-- A `time.Time`, as an instant counted from the zero value `time.Time{}`. -/
abbrev Time := Nat

namespace Storage

/-- The struct `KarmaData` (storage.go). -/
structure KarmaData where
  Reviewers : KarmaMap
  LastUpdated : Time
  ProcessedPRs : List (Int × Time)
  deriving DecidableEq

/-- The backing file of a `Storage`, as `os.ReadFile` and `json.Unmarshal` see it: missing,
present but unreadable, of length 0, not decodable into a `KarmaData`, or a JSON object
whose `reviewers` and `processed_prs` members may be absent or `null`. -/
inductive StoreFile where
  | notExist
  | unreadable
  | empty
  | malformed
  | json (reviewers : Option KarmaMap) (lastUpdated : Time)
      (processedPRs : Option (List (Int × Time)))
  deriving DecidableEq

/-- What a call of `os.WriteFile` does: it succeeds, or it fails having left the file as it
was, truncated to length 0, holding a proper prefix of the new text, or holding the whole
new text (an error on close). -/
inductive WriteOutcome where
  | ok
  | failUnchanged
  | failTruncated
  | failPartial
  | failWritten
  deriving DecidableEq

/-- The pair a mutating operation leaves: the backing file and the returned `error`. -/
structure StoreResult where
  file : StoreFile
  err : Option String
  deriving DecidableEq

/-- `Load` (storage.go). -/
def Load (file : StoreFile) : Except String KarmaData :=
  match file with
  | .notExist => .ok { Reviewers := [], LastUpdated := 0, ProcessedPRs := [] }
  | .unreadable => .error "failed to read karma data"
  | .empty => .ok { Reviewers := [], LastUpdated := 0, ProcessedPRs := [] }
  | .malformed => .error "failed to unmarshal karma data"
  | .json reviewers lastUpdated processedPRs =>
    .ok { Reviewers := match reviewers with
                       | some m => m
                       | none => []
          LastUpdated := lastUpdated
          ProcessedPRs := match processedPRs with
                          | some m => m
                          | none => [] }

/-- `Save` (storage.go): `now` is the value of `time.Now()`; marshalling a `KarmaData`
whose times were read by `Load` or by `time.Now()` does not fail. -/
def Save (file : StoreFile) (data : KarmaData) (now : Time) (write : WriteOutcome) :
    StoreResult :=
  let data := { data with LastUpdated := now }
  let jsonData := StoreFile.json (some data.Reviewers) data.LastUpdated (some data.ProcessedPRs)
  match write with
  | .ok => { file := jsonData, err := none }
  | .failUnchanged => { file := file, err := some "failed to write karma data" }
  | .failTruncated => { file := .empty, err := some "failed to write karma data" }
  | .failPartial => { file := .malformed, err := some "failed to write karma data" }
  | .failWritten => { file := jsonData, err := some "failed to write karma data" }

/-- The statement `m[k] = t` on a `map[int]time.Time`. -/
def setTime : List (Int × Time) → Int → Time → List (Int × Time)
  | [], k, t => [(k, t)]
  | (k', t') :: m, k, t => if k' = k then (k', t) :: m else (k', t') :: setTime m k t

/-- `UpdateKarma` (storage.go); `markTime` and `saveTime` are the two readings of
`time.Now()`. -/
def UpdateKarma (file : StoreFile) (prNumber : Int) (reviewerKarma : KarmaMap)
    (markTime saveTime : Time) (write : WriteOutcome) : StoreResult :=
  match Load file with
  | .error err => { file := file, err := some err }
  | .ok data =>
    let data := { data with Reviewers := data.Reviewers.merge reviewerKarma }
    let data := { data with ProcessedPRs := setTime data.ProcessedPRs prNumber markTime }
    Save file data saveTime write

/-- `GetProcessedPRs` (storage.go): the returned `map[int]bool` holds `true` for every key
of `ProcessedPRs`; it is given as the list of its keys. -/
def GetProcessedPRs (file : StoreFile) : Except String (List Int) :=
  match Load file with
  | .error err => .error err
  | .ok data =>
    .ok (data.ProcessedPRs.foldl
      (fun processed entry => if entry.1 ∈ processed then processed else processed ++ [entry.1])
      [])

/-- `GetKarmaData` (storage.go). -/
def GetKarmaData (file : StoreFile) : Except String KarmaData :=
  Load file

/-- `Clear` (storage.go). -/
def Clear (file : StoreFile) (now saveTime : Time) (write : WriteOutcome) : StoreResult :=
  let data : KarmaData := { Reviewers := [], LastUpdated := now, ProcessedPRs := [] }
  Save file data saveTime write

end Storage

/-! ## cmd/reviewer-karma -/

/-- What the program reads of a pull-request review or review comment:
`GetUser().GetLogin()` and `GetBody()`, each `""` when absent. -/
structure Event where
  Login : String
  Body : String
  deriving DecidableEq

/-- The result of `FetchPullRequestReviews` or `FetchPullRequestComments`. -/
abbrev FetchResult := Except String (List Event)

/-- One element of the fetched pull-request list, with the answers of the outside world
while the loop body runs for it: the two fetches and, in incremental mode, the clock
readings and the file write of `UpdateKarma`. -/
structure WorkUnit where
  Number : Int
  reviews : FetchResult
  comments : FetchResult
  markTime : Time
  saveTime : Time
  write : Storage.WriteOutcome

namespace Main

open Karma Storage

/-- The body of the loop `for _, review := range reviews` (main.go, in both
`runFullRecreation` and `calculatePRKarma`). -/
def scoreReview (tbl : Char → Char) (cfg : Config) (reviewerKarma : KarmaMap)
    (review : Event) : KarmaMap :=
  let username := review.Login
  if IsBot tbl username then reviewerKarma
  else
    let reviewerKarma := reviewerKarma.add username cfg.ReviewPoint
    let reviewerKarma :=
      if HasPositiveEmoji review.Body then reviewerKarma.add username cfg.PositiveEmojiPoint
      else reviewerKarma
    if IsConstructiveComment tbl review.Body then
      reviewerKarma.add username cfg.ConstructiveCommentPoint
    else reviewerKarma

/-- The body of the loop `for _, comment := range comments` (main.go). -/
def scoreComment (tbl : Char → Char) (cfg : Config) (reviewerKarma : KarmaMap)
    (comment : Event) : KarmaMap :=
  let username := comment.Login
  if IsBot tbl username then reviewerKarma
  else
    let reviewerKarma :=
      if HasPositiveEmoji comment.Body then reviewerKarma.add username cfg.PositiveEmojiPoint
      else reviewerKarma
    if IsConstructiveComment tbl comment.Body then
      reviewerKarma.add username cfg.ConstructiveCommentPoint
    else reviewerKarma

/-- `calculatePRKarma` (main.go); the comments are fetched only when the reviews were. -/
def calculatePRKarma (tbl : Char → Char) (cfg : Config) (reviews comments : FetchResult) :
    KarmaMap :=
  let reviewerKarma : KarmaMap := []
  match reviews with
  | .error _ => reviewerKarma
  | .ok reviews =>
    let reviewerKarma := reviews.foldl (scoreReview tbl cfg) reviewerKarma
    match comments with
    | .error _ => reviewerKarma
    | .ok comments => comments.foldl (scoreComment tbl cfg) reviewerKarma

/-- The body of the loop `for _, pr := range prs` of `runFullRecreation`. -/
def fullStep (tbl : Char → Char) (cfg : Config) (reviewerKarma : KarmaMap) (pr : WorkUnit) :
    KarmaMap :=
  match pr.reviews with
  | .error _ => reviewerKarma
  | .ok reviews =>
    let reviewerKarma := reviews.foldl (scoreReview tbl cfg) reviewerKarma
    match pr.comments with
    | .error _ => reviewerKarma
    | .ok comments => comments.foldl (scoreComment tbl cfg) reviewerKarma

/-- The map `reviewerKarma` of `runFullRecreation` when its loop over `prs` ends. -/
def fullTotals (tbl : Char → Char) (cfg : Config) (prs : List WorkUnit) : KarmaMap :=
  prs.foldl (fullStep tbl cfg) []

/-- `runFullRecreation` (main.go): `Except.error 1` stands for `os.Exit(1)`; `reportWritten`
tells whether writing the report file succeeds. -/
def runFullRecreation (tbl : Char → Char) (cfg : Config)
    (fetched : Except String (List WorkUnit)) (reportWritten : Bool) : Except Nat Leaderboard :=
  match fetched with
  | .error _ => .error 1
  | .ok prs =>
    let reviewerKarma := fullTotals tbl cfg prs
    let leaderboard := GenerateLeaderboard reviewerKarma
    if reportWritten then .ok leaderboard else .error 1

/-- The variables the loop of `runIncrementalUpdate` changes: the in-memory
`karmaData.Reviewers`, the backing file of the store, and `newPRsCount`. -/
structure IncrState where
  Reviewers : KarmaMap
  file : StoreFile
  newPRsCount : Nat
  deriving DecidableEq

/-- The body of the loop `for _, pr := range prs` of `runIncrementalUpdate`; `processedPRs`
is the map obtained from `GetProcessedPRs` before the loop. -/
def incrStep (tbl : Char → Char) (cfg : Config) (processedPRs : List Int) (s : IncrState)
    (pr : WorkUnit) : IncrState :=
  if pr.Number ∈ processedPRs then s
  else
    let s := { s with newPRsCount := s.newPRsCount + 1 }
    let prKarma := calculatePRKarma tbl cfg pr.reviews pr.comments
    let res := UpdateKarma s.file pr.Number prKarma pr.markTime pr.saveTime pr.write
    match res.err with
    | some _ => { s with file := res.file }
    | none => { s with file := res.file, Reviewers := s.Reviewers.merge prKarma }

/-- The loop of `runIncrementalUpdate` over `prs`, from state `s`. -/
def incrLoop (tbl : Char → Char) (cfg : Config) (processedPRs : List Int) (s : IncrState)
    (prs : List WorkUnit) : IncrState :=
  prs.foldl (incrStep tbl cfg processedPRs) s

/-- The value of `processedPRs` when the loop of `runIncrementalUpdate` starts. -/
def initialProcessed (file : StoreFile) : List Int :=
  match GetProcessedPRs file with
  | .ok processedPRs => processedPRs
  | .error _ => []

/-- What `runIncrementalUpdate` leaves: the map handed to `GenerateLeaderboard`, the
leaderboard, and the backing file of the store. -/
structure IncrResult where
  Reviewers : KarmaMap
  leaderboard : Leaderboard
  file : StoreFile
  deriving DecidableEq

/-- `runIncrementalUpdate` (main.go): `Except.error 1` stands for `os.Exit(1)`; the store
file is read and written by this run only. -/
def runIncrementalUpdate (tbl : Char → Char) (cfg : Config) (file : StoreFile)
    (fetched : Except String (List WorkUnit)) (reportWritten : Bool) :
    Except Nat IncrResult :=
  let loaded : Except Nat KarmaData :=
    match GetKarmaData file with
    | .ok karmaData => .ok karmaData
    | .error _ =>
      match Load file with
      | .ok karmaData => .ok karmaData
      | .error _ => .error 1
  match loaded with
  | .error code => .error code
  | .ok karmaData =>
    match fetched with
    | .error _ => .error 1
    | .ok prs =>
      let processedPRs := initialProcessed file
      let s := incrLoop tbl cfg processedPRs
        { Reviewers := karmaData.Reviewers, file := file, newPRsCount := 0 } prs
      let leaderboard := GenerateLeaderboard s.Reviewers
      if reportWritten then
        .ok { Reviewers := s.Reviewers, leaderboard := leaderboard, file := s.file }
      else .error 1

end Main

/-! ## internal/karma: the report -/

namespace Karma

/-- The verb `%d` of `fmt.Sprintf` on an `int`: the decimal digits, after a minus sign for
a negative value. -/
def formatInt (n : Int) : String :=
  if n < 0 then "-" ++ Nat.repr n.natAbs else Nat.repr n.toNat

/-- The slice `medals` of `generateLeaderboardMarkdownWithConfig` (karma.go:146), rune for
rune as the file holds it: U+011F U+0178 U+00A5 followed by U+2021, U+02C6 and U+2030. -/
def medals : List String :=
  ["\u011f\u0178\u00a5\u2021", "\u011f\u0178\u00a5\u02c6", "\u011f\u0178\u00a5\u2030"]

/-- The body of the loop `for i, reviewer := range leaderboard.Reviewers`: the row written
for index `i`; `none` stands for the run-time panic of an index outside `medals`. -/
def renderRow (i : Nat) (reviewer : Reviewer) : Option String :=
  let rank := i + 1
  let medal : Option String :=
    if rank ≤ 3 then
      match medals[rank - 1]? with
      | some m => some (m ++ " ")
      | none => none
    else some ""
  match medal with
  | none => none
  | some medal =>
    some ("| " ++ Nat.repr rank ++ " | " ++ medal ++ "@" ++ reviewer.Username ++ " | "
      ++ formatInt reviewer.Points ++ " |\n")

/-- The loop over `leaderboard.Reviewers`, from index `i`, writing to the builder `sb`. -/
def renderRows : Nat → List Reviewer → String → Option String
  | _, [], sb => some sb
  | i, reviewer :: rest, sb =>
    match renderRow i reviewer with
    | none => none
    | some row => renderRows (i + 1) rest (sb ++ row)

/-- `generateLeaderboardMarkdownWithConfig` (karma.go); `stamp` is what
`time.Now().Format("2006-01-02 15:04:05 UTC")` returns, and `none` stands for a run-time
panic. -/
def generateLeaderboardMarkdownWithConfig (leaderboard : Leaderboard)
    (reviewPoint emojiPoint commentPoint : Int) (stamp : String) : Option String :=
  let sb := ""
  let sb := sb ++ "# Reviewer Karma Leaderboard\n\n"
  let sb := sb ++
    "This leaderboard tracks reviewer engagement and contributions to the repository.\n\n"
  let sb := sb ++ "## Scoring System\n\n"
  let sb := sb ++ ("- \u00e2\u0153\u2026 Giving a code review: +"
    ++ formatInt reviewPoint ++ " point(s)\n")
  let sb := sb ++
    ("- \u00e2\u0153\u2026 Review includes a positive emoji (\u011f\u0178\u2018, \u011f\u0178\u201d\u00a5, \u011f\u0178\u02dc\u201e, etc.): +"
      ++ formatInt emojiPoint ++ " point(s)\n")
  let sb := sb ++
    ("- \u00e2\u0153\u2026 Review comment contains a constructive message (>10 words): +"
      ++ formatInt commentPoint ++ " point(s)\n\n")
  let sb := sb ++ "## Current Rankings\n\n"
  let sb := sb ++ "| Rank | Reviewer | Points |\n"
  let sb := sb ++ "|------|----------|--------|\n"
  match renderRows 0 leaderboard.Reviewers sb with
  | none => none
  | some sb =>
    let sb := sb ++ "\n---\n"
    let sb := sb ++ ("*Last updated: " ++ stamp ++ "*\n")
    some sb

end Karma

/-! ## Notions used to state the properties -/

/-- The word `v` spells `m` up to the case of its letters: rune by rune, `v` has the rune
of `m` or its upper-case form. -/
def CasingOf (v m : List Char) : Prop :=
  List.Forall₂ (fun a b => a = b ∨ a = b.toUpper) v m

/-- The phrases stripped by the constructiveness heuristic, as the specification lists
them: four words, then the positive-emoji set, which is the list `positiveEmojis` of the
code with its ten entries in order. -/
def specPhrases : List String :=
  ["lgtm", "looks good", "good", "nice"] ++ Karma.positiveEmojis

/-- The four replacements the specification applies for a phrase `p`, in order:
`" p " -> " "`, `"p " -> " "`, `" p" -> " "`, `"p" -> ""`. -/
def specReplacements (p : List Char) : List (List Char × List Char) :=
  [(" ".data ++ p ++ " ".data, " ".data), (p ++ " ".data, " ".data),
   (" ".data ++ p, " ".data), (p, "".data)]

/-- The text left after lower-casing and stripping, following the specification. -/
def specStripped (tbl : Char → Char) (text : String) : List Char :=
  specPhrases.foldl
    (fun t p => (specReplacements p.data).foldl (fun t r => GoStrings.ReplaceAll t r.1 r.2) t)
    (GoStrings.ToLower tbl text.data)

/-- The number of events of `events` whose author is `u` and whose body satisfies `p`. -/
def countBy (u : String) (p : String → Bool) (events : List Event) : Nat :=
  events.countP (fun ev => decide (ev.Login = u) && p ev.Body)

/-- The karma the specification credits to `u` for the reviews and comments of one pull
request: the review points for each review, the emoji points and the constructive-comment
points for each review or comment whose body qualifies. -/
def specKarma (tbl : Char → Char) (cfg : Config) (reviews comments : List Event)
    (u : String) : Int :=
  cfg.ReviewPoint * (countBy u (fun _ => true) reviews : Nat)
    + cfg.PositiveEmojiPoint * (countBy u Karma.HasPositiveEmoji (reviews ++ comments) : Nat)
    + cfg.ConstructiveCommentPoint *
        (countBy u (Karma.IsConstructiveComment tbl) (reviews ++ comments) : Nat)

/-- A review event of the specification: a review, or a review comment. -/
inductive ReviewEvent where
  | Review (ev : Event)
  | Comment (ev : Event)
  deriving DecidableEq

/-- The reviews of a list of events, in order. -/
def reviewsOf (events : List ReviewEvent) : List Event :=
  events.filterMap (fun e => match e with
    | .Review ev => some ev
    | .Comment _ => none)

/-- The comments of a list of events, in order. -/
def commentsOf (events : List ReviewEvent) : List Event :=
  events.filterMap (fun e => match e with
    | .Review _ => none
    | .Comment ev => some ev)

/-- The totals scored for a list of events: `calculatePRKarma` on its reviews and its
comments, both fetched. -/
def scoreEvents (tbl : Char → Char) (cfg : Config) (events : List ReviewEvent) : KarmaMap :=
  Main.calculatePRKarma tbl cfg (.ok (reviewsOf events)) (.ok (commentsOf events))

/-- Two maps are equal as maps: the same keys, and the same value for every key. -/
def SameTotals (a b : KarmaMap) : Prop :=
  ∀ k, a.has k = b.has k ∧ a.get k = b.get k

/-- The number of words that start in `s`, when the rune before `s` is part of a word
(`inWord`) or is white space or missing (`inWord = false`). -/
def wordStarts (inWord : Bool) : List Char → Nat
  | [] => 0
  | c :: s =>
    if GoStrings.isSpace c then wordStarts false s
    else (if inWord then 0 else 1) + wordStarts true s

/-- Whether the last rune read is part of a word, after `s` has been read. -/
def inWordAfter (inWord : Bool) : List Char → Bool
  | [] => inWord
  | c :: s => inWordAfter (!GoStrings.isSpace c) s

/-- The marker that decorates a rank in the report: for ranks 1, 2 and 3 the first, second
and third string of the slice `medals` of karma.go, rune for rune as the file holds them,
each followed by a blank; nothing from rank 4 on. -/
def specMedal (rank : Nat) : String :=
  if rank = 1 then "\u011f\u0178\u00a5\u2021 "
  else if rank = 2 then "\u011f\u0178\u00a5\u02c6 "
  else if rank = 3 then "\u011f\u0178\u00a5\u2030 "
  else ""

/-- The table row of the specification for the entry of rank `rank`: the rank, the medal
marker followed by `@` and the username, and the points. -/
def specRow (rank : Nat) (reviewer : Karma.Reviewer) : String :=
  "| " ++ Nat.repr rank ++ " | " ++ specMedal rank ++ "@" ++ reviewer.Username ++ " | "
    ++ Karma.formatInt reviewer.Points ++ " |\n"

/-- The rows of the table for the entries `entries`, the first of which has rank `rank`. -/
def specRows : Nat → List Karma.Reviewer → List String
  | _, [] => []
  | rank, reviewer :: rest => specRow rank reviewer :: specRows (rank + 1) rest

/-- The pieces of a text, one after the other. -/
def concatAll : List String → String
  | [] => ""
  | piece :: rest => piece ++ concatAll rest

/-- The lines of the report above the table rows, showing the three point values. -/
def specHeader (reviewPoint emojiPoint commentPoint : Int) : String :=
  concatAll
    ["# Reviewer Karma Leaderboard\n", "\n",
     "This leaderboard tracks reviewer engagement and contributions to the repository.\n",
     "\n",
     "## Scoring System\n", "\n",
     "- \u00e2\u0153\u2026 Giving a code review: +",
     Karma.formatInt reviewPoint, " point(s)\n",
     "- \u00e2\u0153\u2026 Review includes a positive emoji (\u011f\u0178\u2018, \u011f\u0178\u201d\u00a5, \u011f\u0178\u02dc\u201e, etc.): +",
     Karma.formatInt emojiPoint, " point(s)\n",
     "- \u00e2\u0153\u2026 Review comment contains a constructive message (>10 words): +",
     Karma.formatInt commentPoint, " point(s)\n", "\n",
     "## Current Rankings\n", "\n",
     "| Rank | Reviewer | Points |\n",
     "|------|----------|--------|\n"]

/-- The lines of the report below the table rows. -/
def specFooter (stamp : String) : String :=
  concatAll ["\n", "---\n", "*Last updated: ", stamp, "*\n"]

/-! ## Inputs used in the examples -/

/-- The first key of `positiveEmojis`: the three runes U+011F U+0178 U+2018 that karma.go
holds where a thumbs up was meant. -/
def thumbsUpKey : String :=
  "\u011f\u0178\u2018"

/-- The second key of `positiveEmojis`: the four runes U+011F U+0178 U+201D U+00A5 that
karma.go holds where a fire emoji was meant. -/
def fireKey : String :=
  "\u011f\u0178\u201d\u00a5"

/-- The store of `TestStorage_UpdateKarma` after its first update. -/
def testStore : Storage.StoreFile :=
  .json (some [("alice", 5), ("bob", 3)]) 7 (some [(1, 7)])

/-- The second delta of `TestStorage_UpdateKarma`. -/
def testDelta : KarmaMap :=
  [("alice", 2), ("carol", 4)]

/-- Pull request `number` with one review by `alice` with an empty body and no comments;
both fetches and the write of the store succeed. -/
def aliceUnit (number : Int) : WorkUnit :=
  { Number := number, reviews := .ok [⟨"alice", ""⟩], comments := .ok [],
    markTime := 1, saveTime := 2, write := .ok }

/-- The state in which the loop of `runIncrementalUpdate` starts on a missing store file. -/
def freshState : Main.IncrState :=
  { Reviewers := [], file := .notExist, newPRsCount := 0 }

/-- An environment in which only `REVIEW_POINT` is set, to `value`. -/
def reviewPointEnv (value : String) : String → String :=
  fun name => if name = "REVIEW_POINT" then value else ""

/-- Pull request 1 with one review by `alice`; fetching its comments fails. -/
def commentsFailUnit : WorkUnit :=
  { Number := 1, reviews := .ok [⟨"alice", ""⟩], comments := .error "comments unavailable",
    markTime := 1, saveTime := 2, write := .ok }

/-- Pull request 1 with one comment by `alice` whose body is the first key of
`positiveEmojis`; fetching its reviews fails. -/
def reviewsFailUnit : WorkUnit :=
  { Number := 1, reviews := .error "reviews unavailable",
    comments := .ok [⟨"alice", thumbsUpKey⟩],
    markTime := 1, saveTime := 2, write := .ok }

/-- Pull request 1 with one review by `alice`; the write of the store file fails and leaves
the file as it was. -/
def writeFailUnit : WorkUnit :=
  { Number := 1, reviews := .ok [⟨"alice", ""⟩], comments := .ok [],
    markTime := 1, saveTime := 2, write := .failUnchanged }

/-- The record `testData` of `TestStorage_LoadSave`, with the clock readings 3 and 4. -/
def testData : Storage.KarmaData :=
  { Reviewers := [("alice", 10), ("bob", 5)], LastUpdated := 0,
    ProcessedPRs := [(1, 3), (2, 4)] }

/-- Pull request 2 with one review by `alice`; the write of the store file fails after the
file has been truncated to length 0. -/
def truncatingUnit : WorkUnit :=
  { Number := 2, reviews := .ok [⟨"alice", ""⟩], comments := .ok [],
    markTime := 1, saveTime := 2, write := .failTruncated }

/-- Pull request 1 with one review by `alice` whose body is the thumbs-up emoji U+1F44D, and
no comments; both fetches and the write of the store succeed. -/
def thumbsUpUnit : WorkUnit :=
  { Number := 1, reviews := .ok [⟨"alice", "👍"⟩], comments := .ok [],
    markTime := 1, saveTime := 2, write := .ok }

/-- An environment in which `REVIEW_POINT`, `POSITIVE_EMOJI_POINT` and
`CONSTRUCTIVE_COMMENT_POINT` have the values `r`, `e` and `c`, and nothing else is set. -/
def scheduleEnv (r e c : String) : String → String :=
  fun name =>
    if name = "REVIEW_POINT" then r
    else if name = "POSITIVE_EMOJI_POINT" then e
    else if name = "CONSTRUCTIVE_COMMENT_POINT" then c
    else ""

/-- Pull request 4 with a review by `alice` that the later run could fetch. -/
def laterUnit : WorkUnit :=
  { Number := 4, reviews := .ok [⟨"alice", "👍"⟩], comments := .ok [],
    markTime := 5, saveTime := 6, write := .ok }

/-- Pull request 4 at a moment when fetching its reviews fails; the write of the store
succeeds. -/
def unfetchedUnit : WorkUnit :=
  { Number := 4, reviews := .error "reviews unavailable", comments := .ok [],
    markTime := 3, saveTime := 4, write := .ok }

/-- A leaderboard of four entries, so that one rank is past the medals. -/
def medalBoard : Karma.Leaderboard :=
  ⟨[⟨"alice", 18⟩, ⟨"bob", 12⟩, ⟨"carol", 10⟩, ⟨"dave", 8⟩]⟩

/-- Pull request 2 with one review by `bob` whose body is the first key of `positiveEmojis`,
and no comments; both fetches and the write of the store succeed. -/
def keyedUnit : WorkUnit :=
  { Number := 2, reviews := .ok [⟨"bob", thumbsUpKey⟩], comments := .ok [],
    markTime := 3, saveTime := 4, write := .ok }

/-- Pull request 5 with one review by `alice`; the write of the store file fails after the
file has been truncated to length 0. -/
def laterTruncatingUnit : WorkUnit :=
  { Number := 5, reviews := .ok [⟨"alice", ""⟩], comments := .ok [],
    markTime := 5, saveTime := 6, write := .failTruncated }

/-! # Theorems -/

/-! ## Properties of the string functions -/

namespace GoStrings

theorem HasPrefix_iff (s p : List Char) : HasPrefix s p = true ↔ p <+: s := by
  induction s generalizing p with
  | nil => cases p <;> simp [HasPrefix]
  | cons c s ih =>
    cases p with
    | nil => simp [HasPrefix]
    | cons q ps =>
      simp only [HasPrefix, Bool.and_eq_true, beq_iff_eq, ih, List.cons_prefix_cons]
      constructor
      · rintro ⟨h1, h2⟩; exact ⟨h1.symm, h2⟩
      · rintro ⟨h1, h2⟩; exact ⟨h1.symm, h2⟩

theorem Contains_iff (s substr : List Char) : Contains s substr = true ↔ substr <:+: s := by
  induction s with
  | nil => simp [Contains]
  | cons c s ih =>
    simp only [Contains, Bool.or_eq_true, HasPrefix_iff, ih, List.infix_cons_iff]

theorem ToLower_infix (tbl : Char → Char) {v s : List Char} (h : v <:+: s) :
    ToLower tbl v <:+: ToLower tbl s := by
  obtain ⟨a, b, rfl⟩ := h
  exact ⟨ToLower tbl a, ToLower tbl b, by simp [ToLower]⟩

end GoStrings

/-! ## Scoring heuristics -/

namespace Karma

open GoStrings

theorem toLowerRune_marker (tbl : Char → Char) {a b : Char} (hb : b ∈ "[bot]-".data)
    (h : a = b ∨ a = b.toUpper) : toLowerRune tbl a = b := by
  simp only [List.mem_cons, List.mem_singleton, List.not_mem_nil, or_false] at hb
  rcases hb with rfl | rfl | rfl | rfl | rfl | rfl <;> rcases h with rfl | rfl <;> rfl

theorem ToLower_casing (tbl : Char → Char) {v m : List Char} (hm : ∀ b ∈ m, b ∈ "[bot]-".data)
    (h : CasingOf v m) : ToLower tbl v = m := by
  induction h with
  | nil => rfl
  | cons hab _ ih =>
    simp only [ToLower, List.map_cons, List.cons.injEq]
    exact ⟨toLowerRune_marker tbl (hm _ (List.mem_cons_self _ _)) hab,
      ih (fun b hb => hm b (List.mem_cons_of_mem _ hb))⟩

theorem IsBot_eq_true_iff (tbl : Char → Char) (username : String) :
    IsBot tbl username = true ↔
      ∃ marker ∈ botSuffixes, marker.data <:+: ToLower tbl username.data := by
  have hl : ∀ marker ∈ botSuffixes, ToLower tbl marker.data = marker.data := by
    intro marker hmem
    simp only [botSuffixes, List.mem_cons, List.mem_singleton, List.not_mem_nil, or_false] at hmem
    rcases hmem with rfl | rfl | rfl | rfl | rfl <;> rfl
  simp only [IsBot, List.any_eq_true, Contains_iff]
  constructor
  · rintro ⟨marker, hmem, h⟩
    exact ⟨marker, hmem, by rw [← hl marker hmem]; exact h⟩
  · rintro ⟨marker, hmem, h⟩
    exact ⟨marker, hmem, by rw [hl marker hmem]; exact h⟩

/-- C3: `IsBot` holds exactly when the lower-cased username contains one of the five
markers; so a username containing `[bot]`, `-bot` or `bot-` in any letter casing is a bot,
and `alice`, `bob`, `normaluser` are not. -/
theorem IsBot_spec (tbl : Char → Char) :
    (∀ username : String, IsBot tbl username = true ↔
      ∃ marker ∈ ["[bot]", "-bot", "bot-", "github-actions[bot]", "dependabot[bot]"],
        marker.data <:+: ToLower tbl username.data) ∧
    (∀ (username : String) (v : List Char), ∀ marker ∈ ["[bot]", "-bot", "bot-"],
      CasingOf v marker.data → v <:+: username.data → IsBot tbl username = true) ∧
    IsBot tbl "alice" = false ∧ IsBot tbl "bob" = false ∧ IsBot tbl "normaluser" = false := by
  refine ⟨fun username => IsBot_eq_true_iff tbl username, ?_, rfl, rfl, rfl⟩
  intro username v marker hmem hv hinf
  rw [IsBot_eq_true_iff]
  have hchars : ∀ b ∈ marker.data, b ∈ "[bot]-".data := by
    simp only [List.mem_cons, List.mem_singleton, List.not_mem_nil, or_false] at hmem
    rcases hmem with rfl | rfl | rfl <;> decide
  refine ⟨marker, ?_, ?_⟩
  · simp only [List.mem_cons, List.mem_singleton, List.not_mem_nil, or_false] at hmem
    rcases hmem with rfl | rfl | rfl <;> decide
  · rw [← ToLower_casing tbl hchars hv]
    exact ToLower_infix tbl hinf

/-- The login `Renovate-BoT` contains `-bot` in another casing. -/
theorem IsBot_spec_witness :
    CasingOf "-BoT".data "-bot".data ∧ "-BoT".data <:+: "Renovate-BoT".data ∧
    IsBot id "Renovate-BoT" = true :=
  ⟨.cons (.inl rfl) (.cons (.inr rfl) (.cons (.inl rfl) (.cons (.inr rfl) .nil))),
   ⟨"Renovate".data, [], rfl⟩,
   (IsBot_spec id).2.1 "Renovate-BoT" "-BoT".data "-bot" (by decide)
     (.cons (.inl rfl) (.cons (.inr rfl) (.cons (.inl rfl) (.cons (.inr rfl) .nil))))
     ⟨"Renovate".data, [], rfl⟩⟩

/-- C4: `HasPositiveEmoji` holds exactly when the text contains one of the ten strings of
the literal `positiveEmojis`, the fixed set of the code; the empty text and every text
without such a string give `false`. -/
theorem HasPositiveEmoji_spec :
    positiveEmojis.length = 10 ∧
    (∀ text : String, HasPositiveEmoji text = true ↔
      ∃ glyph ∈ positiveEmojis, glyph.data <:+: text.data) ∧
    HasPositiveEmoji "" = false ∧
    (∀ text : String, (∀ glyph ∈ positiveEmojis, ¬ glyph.data <:+: text.data) →
      HasPositiveEmoji text = false) := by
  have hne : ∀ glyph ∈ positiveEmojis, glyph.data ≠ [] := by decide
  have hiff : ∀ text : String, HasPositiveEmoji text = true ↔
      ∃ glyph ∈ positiveEmojis, glyph.data <:+: text.data := by
    intro text
    unfold HasPositiveEmoji
    by_cases ht : text = ""
    · subst ht
      simp only [if_true, Bool.false_eq_true, false_iff, not_exists, not_and]
      intro glyph hmem hinf
      exact hne glyph hmem (List.infix_nil.mp hinf)
    · simp only [ht, if_false, List.any_eq_true, Contains_iff]
  refine ⟨rfl, hiff, rfl, ?_⟩
  intro text hnone
  cases hv : HasPositiveEmoji text with
  | false => rfl
  | true =>
    obtain ⟨glyph, hmem, hinf⟩ := (hiff text).mp hv
    exact absurd hinf (hnone glyph hmem)

/-- A sentence of the tests that has none of the ten strings. -/
theorem HasPositiveEmoji_spec_witness :
    (∀ glyph ∈ positiveEmojis, ¬ glyph.data <:+: "This is great but no emoji".data) ∧
    HasPositiveEmoji "This is great but no emoji" = false :=
  ⟨by decide, HasPositiveEmoji_spec.2.2.2 "This is great but no emoji" (by decide)⟩

theorem stripPhrase_eq (text : List Char) (phrase : String) :
    stripPhrase text phrase =
      (specReplacements phrase.data).foldl (fun t r => ReplaceAll t r.1 r.2) text := by
  simp [stripPhrase, specReplacements]

theorem IsConstructiveComment_iff (tbl : Char → Char) (text : String) :
    IsConstructiveComment tbl text = true ↔
      text ≠ "" ∧ (Fields (specStripped tbl text)).length > 10 := by
  have hfold : ∀ (ps : List String) (t : List Char),
      ps.foldl stripPhrase t =
        ps.foldl (fun t p =>
          (specReplacements p.data).foldl (fun t r => ReplaceAll t r.1 r.2) t) t := by
    intro ps
    induction ps with
    | nil => intro t; rfl
    | cons p ps ih => intro t; simp only [List.foldl_cons, stripPhrase_eq, ih]
  have hlist : nonConstructive = specPhrases := rfl
  unfold IsConstructiveComment specStripped
  by_cases ht : text = ""
  · simp [ht]
  · simp only [ht, if_false, hlist, hfold, decide_eq_true_eq, ne_eq, not_false_eq_true,
      true_and]

theorem ToLower_ascii (tbl : Char → Char) (s : List Char) (h : ∀ r ∈ s, r.toNat ≤ 0x7F) :
    ToLower tbl s = ToLower id s := by
  unfold ToLower
  apply List.map_congr_left
  intro r hr
  simp [toLowerRune, h r hr]

/-- C2: `IsConstructiveComment` holds exactly when the text is non-empty and, after
lower-casing and the four replacements for each of the fourteen phrases in order, it
splits on white space into more than 10 words; `""`, `"LGTM"` and the sentence with exactly
10 words left give `false`. -/
theorem IsConstructiveComment_spec (tbl : Char → Char) :
    (∀ text : String, IsConstructiveComment tbl text = true ↔
      text ≠ "" ∧ (Fields (specStripped tbl text)).length > 10) ∧
    IsConstructiveComment tbl "" = false ∧
    IsConstructiveComment tbl "LGTM" = false ∧
    (Fields (specStripped tbl
      "The implementation looks good but we should consider adding more test cases")).length
        = 10 ∧
    IsConstructiveComment tbl
      "The implementation looks good but we should consider adding more test cases" = false := by
  have h1 : ToLower tbl "LGTM".data = ToLower id "LGTM".data :=
    ToLower_ascii tbl _ (by decide)
  have h2 : ToLower tbl
      "The implementation looks good but we should consider adding more test cases".data =
      ToLower id
        "The implementation looks good but we should consider adding more test cases".data :=
    ToLower_ascii tbl _ (by decide)
  refine ⟨IsConstructiveComment_iff tbl, rfl, ?_, ?_, ?_⟩
  · unfold IsConstructiveComment
    rw [if_neg (by decide)]
    simp only [h1]
    decide
  · unfold specStripped
    rw [h2]
    decide
  · unfold IsConstructiveComment
    rw [if_neg (by decide)]
    simp only [h2]
    decide

end Karma

/-! ## Go `int` arithmetic and maps -/

theorem wrapInt_eq_bmod (x : Int) : wrapInt x = Int.bmod x (2 ^ 64) := by
  rw [Int.bmod_def]
  unfold wrapInt
  norm_num
  split <;> omega

theorem wrapInt_add_left (a b : Int) : wrapInt (wrapInt a + b) = wrapInt (a + b) := by
  simp only [wrapInt_eq_bmod, Int.bmod_add_bmod_congr]

theorem wrapInt_idem (a : Int) : wrapInt (wrapInt a) = wrapInt a := by
  simp only [wrapInt_eq_bmod, Int.bmod_bmod]

theorem wrapInt_of_range {x : Int} (h1 : minInt ≤ x) (h2 : x ≤ maxInt) : wrapInt x = x := by
  unfold wrapInt
  unfold minInt at h1
  unfold maxInt at h2
  omega

theorem wrapInt_range (x : Int) : minInt ≤ wrapInt x ∧ wrapInt x ≤ maxInt := by
  unfold wrapInt minInt maxInt
  omega

namespace KarmaMap

theorem get_nil (k : String) : get [] k = 0 := rfl

theorem get_cons (k' : String) (v' : Int) (m : KarmaMap) (k : String) :
    get ((k', v') :: m) k = if k = k' then v' else get m k := by
  unfold get
  by_cases h : k = k'
  · subst h; simp [List.lookup]
  · have : (k == k') = false := by simpa using h
    simp [List.lookup, this, h]

theorem has_cons (k' : String) (v' : Int) (m : KarmaMap) (k : String) :
    has ((k', v') :: m) k = (decide (k = k') || has m k) := by
  unfold has
  by_cases h : k = k'
  · subst h; simp [List.lookup]
  · have : (k == k') = false := by simpa using h
    simp [List.lookup, this, h]

theorem get_add (m : KarmaMap) (k : String) (v : Int) (k' : String) :
    get (add m k v) k' = if k' = k then wrapInt (get m k + v) else get m k' := by
  induction m with
  | nil =>
    simp only [add, get_cons, get_nil]
  | cons e m ih =>
    obtain ⟨a, b⟩ := e
    simp only [add]
    by_cases h : a = k
    · subst h
      simp only [if_true, get_cons]
      by_cases h' : k' = a
      · simp [h']
      · simp [h']
    · simp only [h, if_false, get_cons, ih]
      by_cases h' : k' = k
      · subst h'
        have : ¬ k' = a := fun e => h e.symm
        simp [this]
      · simp [h']

theorem has_add (m : KarmaMap) (k : String) (v : Int) (k' : String) :
    has (add m k v) k' = (decide (k' = k) || has m k') := by
  induction m with
  | nil =>
    have : has [] k' = false := rfl
    simp [add, has_cons, this]
  | cons e m ih =>
    obtain ⟨a, b⟩ := e
    simp only [add]
    by_cases h : a = k
    · subst h
      simp only [if_true, has_cons]
      by_cases h' : k' = a <;> simp [h']
    · simp only [h, if_false, has_cons, ih]
      by_cases h' : k' = k <;> by_cases h'' : k' = a <;> simp [h', h'']

end KarmaMap

/-! ## The accumulator -/

namespace Main

open Karma Storage

/-- The points one review adds to the total of `u`. -/
theorem get_scoreReview (tbl : Char → Char) (cfg : Config) (m : KarmaMap) (ev : Event)
    (u : String) (hu : IsBot tbl u = false) (hm : wrapInt (m.get u) = m.get u) :
    (scoreReview tbl cfg m ev).get u =
      wrapInt (m.get u + (if ev.Login = u then
        cfg.ReviewPoint + (if HasPositiveEmoji ev.Body then cfg.PositiveEmojiPoint else 0)
          + (if IsConstructiveComment tbl ev.Body then cfg.ConstructiveCommentPoint else 0)
        else 0)) := by
  unfold scoreReview
  by_cases hl : ev.Login = u
  · subst hl
    simp only [hu, Bool.false_eq_true, if_false, if_true]
    cases HasPositiveEmoji ev.Body <;> cases IsConstructiveComment tbl ev.Body <;>
      simp only [Bool.false_eq_true, if_false, if_true, KarmaMap.get_add, wrapInt_add_left,
        Int.add_zero, Int.add_assoc]
  · have hne : ¬ u = ev.Login := fun e => hl e.symm
    simp only [hl, if_false, Int.add_zero, hm]
    cases IsBot tbl ev.Login
    · cases HasPositiveEmoji ev.Body <;> cases IsConstructiveComment tbl ev.Body <;>
        simp only [Bool.false_eq_true, if_false, if_true, KarmaMap.get_add, hne]
    · simp only [if_true]

/-- The points one comment adds to the total of `u`. -/
theorem get_scoreComment (tbl : Char → Char) (cfg : Config) (m : KarmaMap) (ev : Event)
    (u : String) (hu : IsBot tbl u = false) (hm : wrapInt (m.get u) = m.get u) :
    (scoreComment tbl cfg m ev).get u =
      wrapInt (m.get u + (if ev.Login = u then
        (if HasPositiveEmoji ev.Body then cfg.PositiveEmojiPoint else 0)
          + (if IsConstructiveComment tbl ev.Body then cfg.ConstructiveCommentPoint else 0)
        else 0)) := by
  unfold scoreComment
  by_cases hl : ev.Login = u
  · subst hl
    simp only [hu, Bool.false_eq_true, if_false, if_true]
    cases HasPositiveEmoji ev.Body <;> cases IsConstructiveComment tbl ev.Body <;>
      simp only [Bool.false_eq_true, if_false, if_true, KarmaMap.get_add, wrapInt_add_left,
        Int.add_zero, Int.zero_add, Int.add_assoc, hm]
  · have hne : ¬ u = ev.Login := fun e => hl e.symm
    simp only [hl, if_false, Int.add_zero, hm]
    cases IsBot tbl ev.Login
    · cases HasPositiveEmoji ev.Body <;> cases IsConstructiveComment tbl ev.Body <;>
        simp only [Bool.false_eq_true, if_false, if_true, KarmaMap.get_add, hne]
    · simp only [if_true]

/-- A fold whose step adds `g ev` to the total of `u` adds the sum of the `g ev`. -/
theorem get_foldl_gain (step : KarmaMap → Event → KarmaMap) (g : Event → Int) (u : String)
    (hstep : ∀ m ev, wrapInt (m.get u) = m.get u →
      (step m ev).get u = wrapInt (m.get u + g ev)) :
    ∀ (events : List Event) (m : KarmaMap), wrapInt (m.get u) = m.get u →
      (events.foldl step m).get u = wrapInt (m.get u + (events.map g).sum) := by
  intro events
  induction events with
  | nil => intro m hm; simp [hm]
  | cons ev rest ih =>
    intro m hm
    have hm' : wrapInt ((step m ev).get u) = (step m ev).get u := by
      rw [hstep m ev hm, wrapInt_idem]
    simp only [List.foldl_cons, List.map_cons, List.sum_cons]
    rw [ih (step m ev) hm', hstep m ev hm, wrapInt_add_left, Int.add_assoc]

/-- The sum of the per-event gains of `u` is the weighted count of the specification. -/
theorem sum_gain_eq (u : String) (a : Int) (p q : String → Bool) (e c : Int)
    (events : List Event) :
    (events.map (fun ev => if ev.Login = u then
        a + (if p ev.Body then e else 0) + (if q ev.Body then c else 0) else (0 : Int))).sum =
      a * (countBy u (fun _ => true) events : Nat) + e * (countBy u p events : Nat)
        + c * (countBy u q events : Nat) := by
  induction events with
  | nil => simp [countBy]
  | cons ev rest ih =>
    simp only [List.map_cons, List.sum_cons, ih, countBy, List.countP_cons]
    by_cases hl : ev.Login = u <;> cases p ev.Body <;> cases q ev.Body <;>
      simp [hl] <;> ring

theorem countBy_append (u : String) (p : String → Bool) (xs ys : List Event) :
    countBy u p (xs ++ ys) = countBy u p xs + countBy u p ys := by
  simp [countBy, List.countP_append]

theorem has_scoreReview (tbl : Char → Char) (cfg : Config) (m : KarmaMap) (ev : Event)
    (u : String) :
    (scoreReview tbl cfg m ev).has u =
      (m.has u || (decide (ev.Login = u) && !IsBot tbl u)) := by
  unfold scoreReview
  by_cases hl : ev.Login = u
  · subst hl
    cases hb : IsBot tbl ev.Login <;> cases he : HasPositiveEmoji ev.Body <;>
      cases hc : IsConstructiveComment tbl ev.Body <;> simp [KarmaMap.has_add, hb]
  · have hne : ¬ u = ev.Login := fun e => hl e.symm
    cases hb : IsBot tbl ev.Login <;> cases he : HasPositiveEmoji ev.Body <;>
      cases hc : IsConstructiveComment tbl ev.Body <;> simp [KarmaMap.has_add, hl, hne, hb]

theorem has_scoreComment (tbl : Char → Char) (cfg : Config) (m : KarmaMap) (ev : Event)
    (u : String) :
    (scoreComment tbl cfg m ev).has u =
      (m.has u || (decide (ev.Login = u) && !IsBot tbl u &&
        (HasPositiveEmoji ev.Body || IsConstructiveComment tbl ev.Body))) := by
  unfold scoreComment
  by_cases hl : ev.Login = u
  · subst hl
    cases hb : IsBot tbl ev.Login <;> cases he : HasPositiveEmoji ev.Body <;>
      cases hc : IsConstructiveComment tbl ev.Body <;> simp [KarmaMap.has_add, hb]
  · have hne : ¬ u = ev.Login := fun e => hl e.symm
    cases hb : IsBot tbl ev.Login <;> cases he : HasPositiveEmoji ev.Body <;>
      cases hc : IsConstructiveComment tbl ev.Body <;> simp [KarmaMap.has_add, hl, hne, hb]

/-- A fold whose step creates the entry of `u` on the events satisfying `t` has the entry
exactly when the start map has it or some event satisfies `t`. -/
theorem has_foldl_any (step : KarmaMap → Event → KarmaMap) (t : Event → Bool) (u : String)
    (hstep : ∀ m ev, (step m ev).has u = (m.has u || t ev)) :
    ∀ (events : List Event) (m : KarmaMap),
      (events.foldl step m).has u = (m.has u || events.any t) := by
  intro events
  induction events with
  | nil => intro m; simp
  | cons ev rest ih =>
    intro m
    simp only [List.foldl_cons, List.any_cons, ih, hstep, Bool.or_assoc]

theorem get_reviews (tbl : Char → Char) (cfg : Config) (u : String)
    (hu : IsBot tbl u = false) (reviews : List Event) (m : KarmaMap)
    (hm : wrapInt (m.get u) = m.get u) :
    (reviews.foldl (scoreReview tbl cfg) m).get u =
      wrapInt (m.get u + (cfg.ReviewPoint * (countBy u (fun _ => true) reviews : Nat)
        + cfg.PositiveEmojiPoint * (countBy u HasPositiveEmoji reviews : Nat)
        + cfg.ConstructiveCommentPoint *
            (countBy u (IsConstructiveComment tbl) reviews : Nat))) := by
  rw [get_foldl_gain (scoreReview tbl cfg) _ u
    (fun m ev h => get_scoreReview tbl cfg m ev u hu h) reviews m hm, sum_gain_eq]

theorem get_comments (tbl : Char → Char) (cfg : Config) (u : String)
    (hu : IsBot tbl u = false) (comments : List Event) (m : KarmaMap)
    (hm : wrapInt (m.get u) = m.get u) :
    (comments.foldl (scoreComment tbl cfg) m).get u =
      wrapInt (m.get u + (cfg.PositiveEmojiPoint * (countBy u HasPositiveEmoji comments : Nat)
        + cfg.ConstructiveCommentPoint *
            (countBy u (IsConstructiveComment tbl) comments : Nat))) := by
  have h := get_foldl_gain (scoreComment tbl cfg)
    (fun ev => if ev.Login = u then
        (0 : Int) + (if HasPositiveEmoji ev.Body then cfg.PositiveEmojiPoint else 0)
          + (if IsConstructiveComment tbl ev.Body then cfg.ConstructiveCommentPoint else 0)
        else 0) u
    (fun m ev h => by rw [get_scoreComment tbl cfg m ev u hu h]; simp) comments m hm
  rw [h, sum_gain_eq]
  simp

/-- The total `calculatePRKarma` gives a non-bot author, in Go arithmetic. -/
theorem get_calculatePRKarma (tbl : Char → Char) (cfg : Config) (reviews comments : List Event)
    (u : String) (hu : IsBot tbl u = false) :
    (calculatePRKarma tbl cfg (.ok reviews) (.ok comments)).get u =
      wrapInt (specKarma tbl cfg reviews comments u) := by
  have h0 : wrapInt (KarmaMap.get [] u) = KarmaMap.get [] u := by
    rw [KarmaMap.get_nil]; rfl
  have h1 := get_reviews tbl cfg u hu reviews [] h0
  have h1' : wrapInt ((reviews.foldl (scoreReview tbl cfg) []).get u) =
      (reviews.foldl (scoreReview tbl cfg) []).get u := by
    rw [h1, wrapInt_idem]
  have h2 := get_comments tbl cfg u hu comments _ h1'
  simp only [calculatePRKarma]
  rw [h2, h1, wrapInt_add_left, KarmaMap.get_nil]
  simp only [specKarma, countBy_append]
  congr 1
  push_cast
  ring

/-- Whether an author has an entry in the result of `calculatePRKarma`. -/
theorem has_calculatePRKarma (tbl : Char → Char) (cfg : Config) (reviews comments : List Event)
    (u : String) :
    (calculatePRKarma tbl cfg (.ok reviews) (.ok comments)).has u = true ↔
      IsBot tbl u = false ∧
        (0 < countBy u (fun _ => true) reviews ∨
          0 < countBy u (fun b => HasPositiveEmoji b || IsConstructiveComment tbl b)
            comments) := by
  simp only [calculatePRKarma]
  rw [has_foldl_any (scoreComment tbl cfg) _ u (has_scoreComment tbl cfg · · u),
    has_foldl_any (scoreReview tbl cfg) _ u (has_scoreReview tbl cfg · · u)]
  have hnil : KarmaMap.has [] u = false := rfl
  simp only [hnil, Bool.false_or, Bool.or_eq_true, List.any_eq_true, Bool.and_eq_true,
    decide_eq_true_eq, Bool.not_eq_true', countBy, List.countP_pos_iff, Bool.and_true]
  constructor
  · rintro (⟨ev, hmem, hl, hb⟩ | ⟨ev, hmem, ⟨hl, hb⟩, hq⟩)
    · exact ⟨hb, Or.inl ⟨ev, hmem, hl⟩⟩
    · exact ⟨hb, Or.inr ⟨ev, hmem, hl, hq⟩⟩
  · rintro ⟨hb, ⟨ev, hmem, hl⟩ | ⟨ev, hmem, hl, hq⟩⟩
    · exact Or.inl ⟨ev, hmem, hl, hb⟩
    · exact Or.inr ⟨ev, hmem, ⟨hl, hb⟩, hq⟩

/-- C1: for every point schedule and every fetched list of reviews and comments of one pull
request, `calculatePRKarma` gives each non-bot author `r * reviews + e * bodies with a
positive emoji + c * constructive bodies` (reviews and comments both counted for the last
two, comments never for the first), computed in Go's `int`, and gives a bot no entry. -/
theorem calculatePRKarma_spec (tbl : Char → Char) (cfg : Config)
    (reviews comments : List Event) (u : String) :
    (IsBot tbl u = false →
      (calculatePRKarma tbl cfg (.ok reviews) (.ok comments)).get u =
          wrapInt (specKarma tbl cfg reviews comments u) ∧
        (minInt ≤ specKarma tbl cfg reviews comments u →
          specKarma tbl cfg reviews comments u ≤ maxInt →
          (calculatePRKarma tbl cfg (.ok reviews) (.ok comments)).get u =
            specKarma tbl cfg reviews comments u)) ∧
    (IsBot tbl u = true →
      (calculatePRKarma tbl cfg (.ok reviews) (.ok comments)).has u = false) ∧
    ((calculatePRKarma tbl cfg (.ok reviews) (.ok comments)).has u = true ↔
      IsBot tbl u = false ∧
        (0 < countBy u (fun _ => true) reviews ∨
          0 < countBy u (fun b => HasPositiveEmoji b || IsConstructiveComment tbl b)
            comments)) := by
  refine ⟨fun hu => ⟨get_calculatePRKarma tbl cfg reviews comments u hu, fun h1 h2 => ?_⟩,
    fun hu => ?_, has_calculatePRKarma tbl cfg reviews comments u⟩
  · rw [get_calculatePRKarma tbl cfg reviews comments u hu, wrapInt_of_range h1 h2]
  · cases h : (calculatePRKarma tbl cfg (.ok reviews) (.ok comments)).has u with
    | false => rfl
    | true =>
      have := ((has_calculatePRKarma tbl cfg reviews comments u).mp h).1
      rw [hu] at this
      exact absurd this (by decide)

/-- With the default schedule `alice` reviews twice, once with a real thumbs up and once
with the first key of `positiveEmojis`, and comments once with a real fire emoji: she gets
1 + (1 + 2) + 0 = 4, the emoji points only for the key the code holds; the bot that also
reviewed gets no entry. -/
theorem calculatePRKarma_spec_witness :
    (calculatePRKarma id Config.defaultConfig
        (.ok [⟨"alice", "👍"⟩, ⟨"dependabot[bot]", thumbsUpKey⟩, ⟨"alice", thumbsUpKey⟩])
        (.ok [⟨"alice", "so 🔥"⟩])).get "alice" = 4 ∧
    (calculatePRKarma id Config.defaultConfig
        (.ok [⟨"alice", "👍"⟩, ⟨"dependabot[bot]", thumbsUpKey⟩, ⟨"alice", thumbsUpKey⟩])
        (.ok [⟨"alice", "so 🔥"⟩])).has "dependabot[bot]" = false :=
  ⟨((calculatePRKarma_spec id Config.defaultConfig
        [⟨"alice", "👍"⟩, ⟨"dependabot[bot]", thumbsUpKey⟩, ⟨"alice", thumbsUpKey⟩]
        [⟨"alice", "so 🔥"⟩] "alice").1 (by decide)).2 (by decide) (by decide),
   (calculatePRKarma_spec id Config.defaultConfig
        [⟨"alice", "👍"⟩, ⟨"dependabot[bot]", thumbsUpKey⟩, ⟨"alice", thumbsUpKey⟩]
        [⟨"alice", "so 🔥"⟩] "dependabot[bot]").2.1 (by decide)⟩

end Main

/-! ## The store -/

namespace KarmaMap

theorem has_eq_false_of_not_mem_keys (m : KarmaMap) (k : String) (h : k ∉ m.keys) :
    has m k = false := by
  induction m with
  | nil => rfl
  | cons e m ih =>
    obtain ⟨a, b⟩ := e
    simp only [keys, List.map_cons, List.mem_cons, not_or] at h
    have hm : has m k = false := ih h.2
    simp [has_cons, h.1, hm]

theorem has_merge (m delta : KarmaMap) (k : String) :
    has (merge m delta) k = (has m k || has delta k) := by
  unfold merge
  induction delta generalizing m with
  | nil =>
    have : has [] k = false := rfl
    simp [this]
  | cons e delta ih =>
    obtain ⟨a, b⟩ := e
    simp only [List.foldl_cons, ih, has_add, has_cons]
    cases has m k <;> cases has delta k <;> simp

theorem get_merge (m delta : KarmaMap) (hd : delta.keys.Nodup) (k : String) :
    get (merge m delta) k =
      if has delta k = true then wrapInt (get m k + get delta k) else get m k := by
  unfold merge
  induction delta generalizing m with
  | nil =>
    have : has [] k = false := rfl
    simp [this]
  | cons e delta ih =>
    obtain ⟨a, b⟩ := e
    simp only [keys, List.map_cons, List.nodup_cons] at hd
    have hrest := ih (add m a b) hd.2
    simp only [List.foldl_cons, hrest, get_add, has_cons, get_cons]
    by_cases hk : k = a
    · subst hk
      have : has delta k = false := has_eq_false_of_not_mem_keys delta k hd.1
      simp [this]
    · simp [hk]

theorem keys_add (m : KarmaMap) (k : String) (v : Int) :
    keys (add m k v) = if k ∈ keys m then keys m else keys m ++ [k] := by
  induction m with
  | nil => simp [add, keys]
  | cons e m ih =>
    obtain ⟨a, b⟩ := e
    simp only [add]
    by_cases h : a = k
    · subst h
      simp [keys]
    · have hne : ¬ k = a := fun e => h e.symm
      simp only [h, if_false]
      simp only [keys, List.map_cons, List.mem_cons, hne, false_or] at ih ⊢
      rw [ih]
      split <;> simp

theorem nodup_keys_add (m : KarmaMap) (k : String) (v : Int) (h : m.keys.Nodup) :
    (add m k v).keys.Nodup := by
  rw [keys_add]
  split
  · exact h
  · rename_i hk
    exact List.Nodup.append h (List.nodup_singleton k) (by simpa using hk)

end KarmaMap

namespace Storage

theorem mem_keys_setTime (m : List (Int × Time)) (k : Int) (t : Time) (n : Int) :
    n ∈ (setTime m k t).map Prod.fst ↔ n ∈ m.map Prod.fst ∨ n = k := by
  induction m with
  | nil => simp [setTime]
  | cons e m ih =>
    obtain ⟨a, b⟩ := e
    simp only [setTime]
    by_cases h : a = k
    · subst h
      simp only [if_true, List.map_cons, List.mem_cons]
      tauto
    · simp only [h, if_false, List.map_cons, List.mem_cons, ih]
      tauto

theorem mem_processed_foldl (l : List (Int × Time)) (acc : List Int) (n : Int) :
    n ∈ l.foldl
        (fun processed entry =>
          if entry.1 ∈ processed then processed else processed ++ [entry.1]) acc ↔
      n ∈ acc ∨ n ∈ l.map Prod.fst := by
  induction l generalizing acc with
  | nil => simp
  | cons e l ih =>
    simp only [List.foldl_cons, ih, List.map_cons, List.mem_cons]
    by_cases h : e.1 ∈ acc
    · simp only [h, if_true]
      constructor
      · rintro (h1 | h1)
        · exact Or.inl h1
        · exact Or.inr (Or.inr h1)
      · rintro (h1 | h1 | h1)
        · exact Or.inl h1
        · exact Or.inl (h1 ▸ h)
        · exact Or.inr h1
    · simp only [h, if_false, List.mem_append, List.mem_singleton]
      tauto

theorem mem_GetProcessedPRs (file : StoreFile) (data : KarmaData) (hl : Load file = .ok data)
    (ids : List Int) (h : GetProcessedPRs file = .ok ids) (n : Int) :
    n ∈ ids ↔ n ∈ data.ProcessedPRs.map Prod.fst := by
  unfold GetProcessedPRs at h
  rw [hl] at h
  simp only [Except.ok.injEq] at h
  subst h
  rw [mem_processed_foldl]
  simp

theorem GetProcessedPRs_of_Load (file : StoreFile) (data : KarmaData)
    (hl : Load file = .ok data) : ∃ ids, GetProcessedPRs file = .ok ids := by
  unfold GetProcessedPRs
  rw [hl]
  exact ⟨_, rfl⟩

/-- A successful `UpdateKarma` read a record and wrote the merged one. -/
theorem UpdateKarma_ok (file : StoreFile) (prNumber : Int) (delta : KarmaMap)
    (markTime saveTime : Time) (write : WriteOutcome)
    (hok : (UpdateKarma file prNumber delta markTime saveTime write).err = none) :
    ∃ pre, Load file = .ok pre ∧
      (UpdateKarma file prNumber delta markTime saveTime write).file =
        .json (some (pre.Reviewers.merge delta)) saveTime
          (some (setTime pre.ProcessedPRs prNumber markTime)) := by
  unfold UpdateKarma at hok ⊢
  cases hl : Load file with
  | error e => rw [hl] at hok; simp at hok
  | ok pre =>
    rw [hl] at hok
    refine ⟨pre, rfl, ?_⟩
    cases write <;> simp [Save] at hok ⊢

/-- C5: after a successful `UpdateKarma(prNumber, delta)` the set `GetProcessedPRs` returns
is its pre-call value plus `prNumber`, every key of `delta` holds the pre-call total (0 if
absent) plus the delta value, added in Go's `int`, and every other reviewer keeps its
total. -/
theorem UpdateKarma_spec (file : StoreFile) (prNumber : Int) (delta : KarmaMap)
    (markTime saveTime : Time) (write : WriteOutcome) (hd : delta.keys.Nodup)
    (hok : (UpdateKarma file prNumber delta markTime saveTime write).err = none) :
    ∃ pre post preIds postIds,
      Load file = .ok pre ∧
      Load (UpdateKarma file prNumber delta markTime saveTime write).file = .ok post ∧
      GetProcessedPRs file = .ok preIds ∧
      GetProcessedPRs (UpdateKarma file prNumber delta markTime saveTime write).file
        = .ok postIds ∧
      (∀ n, n ∈ postIds ↔ n ∈ preIds ∨ n = prNumber) ∧
      (∀ k, delta.has k = true →
        post.Reviewers.get k = wrapInt (pre.Reviewers.get k + delta.get k) ∧
        (minInt ≤ pre.Reviewers.get k + delta.get k →
          pre.Reviewers.get k + delta.get k ≤ maxInt →
          post.Reviewers.get k = pre.Reviewers.get k + delta.get k)) ∧
      (∀ k, delta.has k = false →
        post.Reviewers.get k = pre.Reviewers.get k ∧
        post.Reviewers.has k = pre.Reviewers.has k) := by
  obtain ⟨pre, hpre, hfile⟩ := UpdateKarma_ok file prNumber delta markTime saveTime write hok
  obtain ⟨preIds, hpreIds⟩ := GetProcessedPRs_of_Load file pre hpre
  have hpost : Load (UpdateKarma file prNumber delta markTime saveTime write).file =
      .ok { Reviewers := pre.Reviewers.merge delta, LastUpdated := saveTime,
            ProcessedPRs := setTime pre.ProcessedPRs prNumber markTime } := by
    rw [hfile]; rfl
  obtain ⟨postIds, hpostIds⟩ := GetProcessedPRs_of_Load _ _ hpost
  refine ⟨pre, _, preIds, postIds, hpre, hpost, hpreIds, hpostIds, ?_, ?_, ?_⟩
  · intro n
    rw [mem_GetProcessedPRs _ _ hpost postIds hpostIds n,
      mem_GetProcessedPRs _ _ hpre preIds hpreIds n]
    exact mem_keys_setTime pre.ProcessedPRs prNumber markTime n
  · intro k hk
    have hget : (pre.Reviewers.merge delta).get k =
        wrapInt (pre.Reviewers.get k + delta.get k) := by
      rw [KarmaMap.get_merge _ _ hd, if_pos hk]
    exact ⟨hget, fun h1 h2 => by rw [hget, wrapInt_of_range h1 h2]⟩
  · intro k hk
    constructor
    · show (pre.Reviewers.merge delta).get k = pre.Reviewers.get k
      rw [KarmaMap.get_merge _ _ hd]
      simp [hk]
    · show (pre.Reviewers.merge delta).has k = pre.Reviewers.has k
      rw [KarmaMap.has_merge]
      simp [hk]

/-- The second update of the test `TestStorage_UpdateKarma`: a store holding alice 5, bob 3
and pull request 1 is updated for pull request 2 with alice 2, carol 4. -/
theorem UpdateKarma_spec_witness :
    testDelta.keys.Nodup ∧
    (UpdateKarma testStore 2 testDelta 8 9 .ok).err = none ∧
    ∃ pre post preIds postIds,
      Load testStore = .ok pre ∧
      Load (UpdateKarma testStore 2 testDelta 8 9 .ok).file = .ok post ∧
      GetProcessedPRs testStore = .ok preIds ∧
      GetProcessedPRs (UpdateKarma testStore 2 testDelta 8 9 .ok).file = .ok postIds ∧
      (∀ n, n ∈ postIds ↔ n ∈ preIds ∨ n = 2) ∧
      (∀ k, testDelta.has k = true →
        post.Reviewers.get k = wrapInt (pre.Reviewers.get k + testDelta.get k) ∧
        (minInt ≤ pre.Reviewers.get k + testDelta.get k →
          pre.Reviewers.get k + testDelta.get k ≤ maxInt →
          post.Reviewers.get k = pre.Reviewers.get k + testDelta.get k)) ∧
      (∀ k, testDelta.has k = false →
        post.Reviewers.get k = pre.Reviewers.get k ∧
        post.Reviewers.has k = pre.Reviewers.has k) :=
  ⟨by decide, by decide, UpdateKarma_spec testStore 2 testDelta 8 9 .ok (by decide) (by decide)⟩

end Storage

/-! ## The leaderboard -/

namespace Karma

theorem insertSlice_perm {α : Type} (less : α → α → Bool) (x : α) (l : List α) :
    (insertSlice less x l).Perm (x :: l) := by
  induction l with
  | nil => exact List.Perm.refl _
  | cons y ys ih =>
    simp only [insertSlice]
    split
    · exact ((List.Perm.cons y ih).trans (List.Perm.swap x y ys))
    · exact List.Perm.refl _

theorem sortSlice_perm {α : Type} (less : α → α → Bool) (l : List α) :
    (sortSlice less l).Perm l := by
  induction l with
  | nil => exact List.Perm.refl _
  | cons x xs ih =>
    exact (insertSlice_perm less x (sortSlice less xs)).trans (List.Perm.cons x ih)

theorem insertSlice_sorted (x : Reviewer) (l : List Reviewer)
    (h : l.Pairwise (fun a b => a.Points ≥ b.Points)) :
    (insertSlice (fun a b => decide (a.Points > b.Points)) x l).Pairwise
      (fun a b => a.Points ≥ b.Points) := by
  induction l with
  | nil => simp [insertSlice]
  | cons y ys ih =>
    rw [List.pairwise_cons] at h
    simp only [insertSlice]
    split
    · rename_i hyx
      simp only [gt_iff_lt, decide_eq_true_eq] at hyx
      refine List.pairwise_cons.mpr ⟨?_, ih h.2⟩
      intro b hb
      have hb' := (insertSlice_perm _ x ys).subset hb
      rcases List.mem_cons.mp hb' with rfl | hb'
      · exact le_of_lt hyx
      · exact h.1 b hb'
    · rename_i hyx
      simp only [gt_iff_lt, decide_eq_true_eq, not_lt] at hyx
      refine List.pairwise_cons.mpr ⟨?_, List.pairwise_cons.mpr h⟩
      intro b hb
      rcases List.mem_cons.mp hb with rfl | hb
      · exact hyx
      · exact le_trans (h.1 b hb) hyx

theorem sortSlice_sorted (l : List Reviewer) :
    (sortSlice (fun a b => decide (a.Points > b.Points)) l).Pairwise
      (fun a b => a.Points ≥ b.Points) := by
  induction l with
  | nil => exact List.Pairwise.nil
  | cons x xs ih => exact insertSlice_sorted x _ ih

theorem foldl_append_singleton {α β : Type} (f : α → β) (l : List α) (init : List β) :
    l.foldl (fun acc e => acc ++ [f e]) init = init ++ l.map f := by
  induction l generalizing init with
  | nil => simp
  | cons x xs ih => simp [ih]

theorem GenerateLeaderboard_perm (m : KarmaMap) :
    (GenerateLeaderboard m).Reviewers.Perm
      (m.map (fun entry => { Username := entry.1, Points := entry.2 })) := by
  unfold GenerateLeaderboard
  simp only
  rw [foldl_append_singleton (fun entry : String × Int =>
    ({ Username := entry.1, Points := entry.2 } : Reviewer))]
  exact sortSlice_perm _ _

theorem GenerateLeaderboard_pairwise (m : KarmaMap) :
    (GenerateLeaderboard m).Reviewers.Pairwise (fun a b => a.Points ≥ b.Points) :=
  sortSlice_sorted _

/-- C6: the sequence `GenerateLeaderboard` returns is ordered by descending points, between
every two adjacent entries and hence between every earlier and later entry; for the map
alice 18, bob 12, carol 10, dave 8, eve 5, visited in any order, it is alice, bob, carol,
dave, eve. -/
theorem GenerateLeaderboard_descending :
    (∀ m : KarmaMap,
      (GenerateLeaderboard m).Reviewers.Chain' (fun a b => a.Points ≥ b.Points) ∧
      (GenerateLeaderboard m).Reviewers.Pairwise (fun a b => a.Points ≥ b.Points)) ∧
    (∀ m : KarmaMap,
      m.Perm [("alice", 18), ("bob", 12), ("carol", 10), ("dave", 8), ("eve", 5)] →
      (GenerateLeaderboard m).Reviewers =
        [⟨"alice", 18⟩, ⟨"bob", 12⟩, ⟨"carol", 10⟩, ⟨"dave", 8⟩, ⟨"eve", 5⟩]) := by
  refine ⟨fun m => ⟨List.Pairwise.chain' (GenerateLeaderboard_pairwise m),
    GenerateLeaderboard_pairwise m⟩, ?_⟩
  intro m hm
  have hperm : (GenerateLeaderboard m).Reviewers.Perm
      [⟨"alice", 18⟩, ⟨"bob", 12⟩, ⟨"carol", 10⟩, ⟨"dave", 8⟩, ⟨"eve", 5⟩] :=
    (GenerateLeaderboard_perm m).trans
      (hm.map (fun entry => ({ Username := entry.1, Points := entry.2 } : Reviewer)))
  refine List.Perm.eq_of_sorted ?_ (GenerateLeaderboard_pairwise m) (by decide) hperm
  intro a b ha hb hab hba
  have ha' := hperm.subset ha
  have hpts : a.Points = b.Points := le_antisymm hba hab
  simp only [List.mem_cons, List.mem_singleton, List.not_mem_nil, or_false] at ha' hb
  rcases ha' with rfl | rfl | rfl | rfl | rfl <;> rcases hb with rfl | rfl | rfl | rfl | rfl <;>
    first
      | rfl
      | exact absurd hpts (by decide)

/-- The map of the test, visited in the order eve, bob, carol, alice, dave. -/
theorem GenerateLeaderboard_descending_witness :
    (GenerateLeaderboard
        [("eve", 5), ("bob", 12), ("carol", 10), ("alice", 18), ("dave", 8)]).Reviewers =
      [⟨"alice", 18⟩, ⟨"bob", 12⟩, ⟨"carol", 10⟩, ⟨"dave", 8⟩, ⟨"eve", 5⟩] :=
  GenerateLeaderboard_descending.2
    [("eve", 5), ("bob", 12), ("carol", 10), ("alice", 18), ("dave", 8)] (by decide)

end Karma

/-! ## The two run modes -/

namespace Main

open Karma Storage

/-- What `UpdateKarma` can leave in the backing file. -/
theorem UpdateKarma_file_cases (file : StoreFile) (prNumber : Int) (delta : KarmaMap)
    (markTime saveTime : Time) (write : WriteOutcome) :
    (UpdateKarma file prNumber delta markTime saveTime write).file = file ∨
    (UpdateKarma file prNumber delta markTime saveTime write).file = .empty ∨
    (UpdateKarma file prNumber delta markTime saveTime write).file = .malformed ∨
    ∃ pre, Load file = .ok pre ∧
      (UpdateKarma file prNumber delta markTime saveTime write).file =
        .json (some (pre.Reviewers.merge delta)) saveTime
          (some (setTime pre.ProcessedPRs prNumber markTime)) := by
  unfold UpdateKarma
  cases hl : Load file with
  | error e => exact Or.inl rfl
  | ok pre =>
    cases write
    · exact Or.inr (Or.inr (Or.inr ⟨pre, rfl, rfl⟩))
    · exact Or.inl rfl
    · exact Or.inr (Or.inl rfl)
    · exact Or.inr (Or.inr (Or.inl rfl))
    · exact Or.inr (Or.inr (Or.inr ⟨pre, rfl, rfl⟩))

/-- The processed set of the store after `UpdateKarma` for `prNumber` holds only numbers it
held before, and `prNumber`. -/
theorem processed_after_UpdateKarma (file : StoreFile) (prNumber : Int) (delta : KarmaMap)
    (markTime saveTime : Time) (write : WriteOutcome) (ids' : List Int)
    (h' : GetProcessedPRs (UpdateKarma file prNumber delta markTime saveTime write).file
      = .ok ids') (n : Int) (hn : n ∈ ids') :
    n = prNumber ∨ ∃ ids, GetProcessedPRs file = .ok ids ∧ n ∈ ids := by
  rcases UpdateKarma_file_cases file prNumber delta markTime saveTime write with
    h | h | h | ⟨pre, hpre, h⟩
  · rw [h] at h'
    exact Or.inr ⟨ids', h', hn⟩
  · rw [h] at h'
    simp only [GetProcessedPRs, Load, List.foldl_nil, Except.ok.injEq] at h'
    subst h'
    simp at hn
  · rw [h] at h'
    simp [GetProcessedPRs, Load] at h'
  · rw [h] at h'
    have hpost : Load (StoreFile.json (some (pre.Reviewers.merge delta)) saveTime
        (some (setTime pre.ProcessedPRs prNumber markTime))) =
        .ok { Reviewers := pre.Reviewers.merge delta, LastUpdated := saveTime,
              ProcessedPRs := setTime pre.ProcessedPRs prNumber markTime } := rfl
    have hmem := (mem_GetProcessedPRs _ _ hpost ids' h' n).mp hn
    rcases (mem_keys_setTime pre.ProcessedPRs prNumber markTime n).mp hmem with hm | hm
    · obtain ⟨ids, hids⟩ := GetProcessedPRs_of_Load file pre hpre
      exact Or.inr ⟨ids, hids, (mem_GetProcessedPRs _ _ hpre ids hids n).mpr hm⟩
    · exact Or.inl hm

/-- Every number in the processed set of the store during the loop was there when the loop
started or is the number of a unit the loop has visited. -/
theorem processed_during_loop (tbl : Char → Char) (cfg : Config) (processedPRs : List Int)
    (start : List Int) (pre : List WorkUnit) :
    ∀ (s : IncrState) (seen : List Int),
      (∀ ids, GetProcessedPRs s.file = .ok ids → ∀ n ∈ ids, n ∈ start ∨ n ∈ seen) →
      ∀ ids, GetProcessedPRs (incrLoop tbl cfg processedPRs s pre).file = .ok ids →
        ∀ n ∈ ids, n ∈ start ∨ n ∈ seen ++ pre.map (fun pr => pr.Number) := by
  induction pre with
  | nil =>
    intro s seen hs ids hids n hn
    simpa using hs ids hids n hn
  | cons pr rest ih =>
    intro s seen hs ids hids n hn
    have hstep : ∀ ids, GetProcessedPRs (incrStep tbl cfg processedPRs s pr).file = .ok ids →
        ∀ n ∈ ids, n ∈ start ∨ n ∈ seen ++ [pr.Number] := by
      intro ids1 hids1 k hk
      unfold incrStep at hids1
      by_cases hskip : pr.Number ∈ processedPRs
      · rw [if_pos hskip] at hids1
        rcases hs ids1 hids1 k hk with h | h
        · exact Or.inl h
        · exact Or.inr (List.mem_append_left _ h)
      · rw [if_neg hskip] at hids1
        have hfile : GetProcessedPRs (UpdateKarma s.file pr.Number
            (calculatePRKarma tbl cfg pr.reviews pr.comments) pr.markTime pr.saveTime
            pr.write).file = .ok ids1 := by
          revert hids1
          simp only
          split <;> exact fun h => h
        rcases processed_after_UpdateKarma _ _ _ _ _ _ _ hfile k hk with h | ⟨ids0, h0, hk0⟩
        · exact Or.inr (by simp [h])
        · rcases hs ids0 h0 k hk0 with h | h
          · exact Or.inl h
          · exact Or.inr (List.mem_append_left _ h)
    have := ih (incrStep tbl cfg processedPRs s pr) (seen ++ [pr.Number]) hstep ids
      (by simpa [incrLoop] using hids) n hn
    simpa [List.append_assoc] using this

/-- C7, as the code has it: the gate is the processed set read before the loop.  When no
earlier element of the fetched list has the number of `pr` and that number is in the
processed set of the store when the loop reaches `pr`, the number is in the set read before
the loop and the loop body leaves everything as it is: `pr` is not scored and `UpdateKarma`
is not called. -/
theorem processed_not_rescored (tbl : Char → Char) (cfg : Config) (file : StoreFile)
    (reviewers : KarmaMap) (count : Nat) (pre : List WorkUnit) (pr : WorkUnit)
    (ids : List Int) (hfresh : pr.Number ∉ pre.map (fun p => p.Number))
    (hids : GetProcessedPRs (incrLoop tbl cfg (initialProcessed file)
      { Reviewers := reviewers, file := file, newPRsCount := count } pre).file = .ok ids)
    (hmem : pr.Number ∈ ids) :
    pr.Number ∈ initialProcessed file ∧
    incrStep tbl cfg (initialProcessed file)
        (incrLoop tbl cfg (initialProcessed file)
          { Reviewers := reviewers, file := file, newPRsCount := count } pre) pr =
      incrLoop tbl cfg (initialProcessed file)
        { Reviewers := reviewers, file := file, newPRsCount := count } pre := by
  have hbase : ∀ ids0, GetProcessedPRs file = .ok ids0 →
      ∀ n ∈ ids0, n ∈ initialProcessed file ∨ n ∈ ([] : List Int) := by
    intro ids0 h0 n hn
    left
    unfold initialProcessed
    rw [h0]
    exact hn
  have hinv := processed_during_loop tbl cfg (initialProcessed file) (initialProcessed file) pre
    { Reviewers := reviewers, file := file, newPRsCount := count } [] hbase ids hids
    pr.Number hmem
  have hsnap : pr.Number ∈ initialProcessed file := by
    rcases hinv with h | h
    · exact h
    · exact absurd (by simpa using h) hfresh
  refine ⟨hsnap, ?_⟩
  unfold incrStep
  rw [if_pos hsnap]

/-- A store that has processed pull request 1; the fetched list is pull request 2, then
pull request 1. -/
theorem processed_not_rescored_witness :
    (1 : Int) ∉ [aliceUnit 2].map (fun p => p.Number) ∧
    GetProcessedPRs (incrLoop id Config.defaultConfig (initialProcessed testStore)
      { Reviewers := [("alice", 5), ("bob", 3)], file := testStore, newPRsCount := 0 }
      [aliceUnit 2]).file = .ok [1, 2] ∧
    (1 : Int) ∈ [(1 : Int), 2] ∧
    (aliceUnit 1).Number ∈ initialProcessed testStore ∧
    incrStep id Config.defaultConfig (initialProcessed testStore)
        (incrLoop id Config.defaultConfig (initialProcessed testStore)
          { Reviewers := [("alice", 5), ("bob", 3)], file := testStore, newPRsCount := 0 }
          [aliceUnit 2]) (aliceUnit 1) =
      incrLoop id Config.defaultConfig (initialProcessed testStore)
        { Reviewers := [("alice", 5), ("bob", 3)], file := testStore, newPRsCount := 0 }
        [aliceUnit 2] :=
  ⟨by decide, rfl, by decide,
    processed_not_rescored id Config.defaultConfig testStore [("alice", 5), ("bob", 3)] 0
      [aliceUnit 2] (aliceUnit 1) [1, 2] (by decide) rfl (by decide)⟩

/-- C7 fails when the fetched list holds a number twice: on a missing store file and the
list pull request 1, pull request 1, the store has 1 in its processed set when the loop
reaches the second element, and the loop scores it and calls `UpdateKarma` again, so that
alice ends with 2 in memory and in the store for her single review. -/
theorem duplicate_number_rescored :
    GetProcessedPRs (incrLoop id Config.defaultConfig (initialProcessed .notExist) freshState
      [aliceUnit 1]).file = .ok [1] ∧
    (aliceUnit 1).Number ∈ [(1 : Int)] ∧
    (incrLoop id Config.defaultConfig (initialProcessed .notExist) freshState
      [aliceUnit 1]).Reviewers = [("alice", 1)] ∧
    incrStep id Config.defaultConfig (initialProcessed .notExist)
        (incrLoop id Config.defaultConfig (initialProcessed .notExist) freshState [aliceUnit 1])
        (aliceUnit 1) ≠
      incrLoop id Config.defaultConfig (initialProcessed .notExist) freshState [aliceUnit 1] ∧
    (incrLoop id Config.defaultConfig (initialProcessed .notExist) freshState
      [aliceUnit 1, aliceUnit 1]).Reviewers = [("alice", 2)] ∧
    (incrLoop id Config.defaultConfig (initialProcessed .notExist) freshState
      [aliceUnit 1, aliceUnit 1]).file =
        .json (some [("alice", 2)]) 2 (some [(1, 1)]) :=
  ⟨rfl, by decide, by decide, by decide, by decide, by decide⟩

theorem merge_nil (m : KarmaMap) : m.merge [] = m := rfl

/-- C8, as the code has it: a unit whose reviews cannot be fetched contributes nothing; a
unit whose reviews are fetched and whose comments cannot be contributes what its reviews
earn and nothing for comments; in both run modes the loop goes on with the next unit. -/
theorem fetch_failure_contribution (tbl : Char → Char) (cfg : Config) (pr : WorkUnit)
    (reviewerKarma : KarmaMap) (pre post : List WorkUnit) :
    (∀ e, pr.reviews = .error e →
      calculatePRKarma tbl cfg pr.reviews pr.comments = [] ∧
      fullStep tbl cfg reviewerKarma pr = reviewerKarma ∧
      ∀ processedPRs s, (incrStep tbl cfg processedPRs s pr).Reviewers = s.Reviewers) ∧
    (∀ e reviews, pr.reviews = .ok reviews → pr.comments = .error e →
      calculatePRKarma tbl cfg pr.reviews pr.comments =
        calculatePRKarma tbl cfg (.ok reviews) (.ok []) ∧
      fullStep tbl cfg reviewerKarma pr = reviews.foldl (scoreReview tbl cfg) reviewerKarma) ∧
    fullTotals tbl cfg (pre ++ pr :: post) =
      post.foldl (fullStep tbl cfg) (fullStep tbl cfg (fullTotals tbl cfg pre) pr) ∧
    (∀ processedPRs s, incrLoop tbl cfg processedPRs s (pre ++ pr :: post) =
      incrLoop tbl cfg processedPRs
        (incrStep tbl cfg processedPRs (incrLoop tbl cfg processedPRs s pre) pr) post) := by
  refine ⟨?_, ?_, ?_, ?_⟩
  · intro e he
    have hcalc : calculatePRKarma tbl cfg pr.reviews pr.comments = [] := by
      rw [he]; rfl
    refine ⟨hcalc, ?_, ?_⟩
    · unfold fullStep; rw [he]
    · intro processedPRs s
      unfold incrStep
      split
      · rfl
      · simp only [hcalc]
        split <;> rfl
  · intro e reviews hr hc
    constructor
    · rw [hr, hc]; rfl
    · unfold fullStep; rw [hr, hc]
  · simp [fullTotals, List.foldl_append]
  · intro processedPRs s
    simp [incrLoop, List.foldl_append]

/-- A unit whose reviews cannot be fetched, between two units that score. -/
theorem fetch_failure_contribution_witness :
    reviewsFailUnit.reviews = .error "reviews unavailable" ∧
    calculatePRKarma id Config.defaultConfig reviewsFailUnit.reviews reviewsFailUnit.comments
      = [] ∧
    fullStep id Config.defaultConfig [("bob", 4)] reviewsFailUnit = [("bob", 4)] ∧
    fullTotals id Config.defaultConfig ([aliceUnit 5] ++ reviewsFailUnit :: [aliceUnit 7])
      = [("alice", 2)] :=
  ⟨rfl,
   ((fetch_failure_contribution id Config.defaultConfig reviewsFailUnit [("bob", 4)]
      [aliceUnit 5] [aliceUnit 7]).1 "reviews unavailable" rfl).1,
   ((fetch_failure_contribution id Config.defaultConfig reviewsFailUnit [("bob", 4)]
      [aliceUnit 5] [aliceUnit 7]).1 "reviews unavailable" rfl).2.1,
   (fetch_failure_contribution id Config.defaultConfig reviewsFailUnit [("bob", 4)]
      [aliceUnit 5] [aliceUnit 7]).2.2.1.trans (by decide)⟩

/-- C8 fails when only the comments cannot be fetched: the review of `alice` has been scored
by then, so the unit contributes alice 1 in both run modes, not the empty delta. -/
theorem comments_failure_keeps_review_points :
    commentsFailUnit.comments = .error "comments unavailable" ∧
    calculatePRKarma id Config.defaultConfig commentsFailUnit.reviews commentsFailUnit.comments
      = [("alice", 1)] ∧
    fullTotals id Config.defaultConfig [commentsFailUnit] = [("alice", 1)] ∧
    (incrLoop id Config.defaultConfig (initialProcessed .notExist) freshState
      [commentsFailUnit]).Reviewers = [("alice", 1)] :=
  ⟨rfl, by decide, by decide, by decide⟩

/-- C9, as the code has it: when `UpdateKarma` fails for a unit that is not in the processed
set read before the loop, the in-memory totals stay as they were, the store file is what
the failed call left, and the loop goes on with the next unit. -/
theorem failed_update_skips_unit (tbl : Char → Char) (cfg : Config) (processedPRs : List Int)
    (s : IncrState) (pr : WorkUnit) (post : List WorkUnit)
    (hnew : pr.Number ∉ processedPRs)
    (hfail : (UpdateKarma s.file pr.Number (calculatePRKarma tbl cfg pr.reviews pr.comments)
      pr.markTime pr.saveTime pr.write).err ≠ none) :
    (incrStep tbl cfg processedPRs s pr).Reviewers = s.Reviewers ∧
    (incrStep tbl cfg processedPRs s pr).file =
      (UpdateKarma s.file pr.Number (calculatePRKarma tbl cfg pr.reviews pr.comments)
        pr.markTime pr.saveTime pr.write).file ∧
    incrLoop tbl cfg processedPRs s (pr :: post) =
      incrLoop tbl cfg processedPRs (incrStep tbl cfg processedPRs s pr) post := by
  refine ⟨?_, ?_, rfl⟩
  · unfold incrStep
    rw [if_neg hnew]
    simp only
    split
    · rfl
    · rename_i h; exact absurd h hfail
  · unfold incrStep
    rw [if_neg hnew]
    simp only
    split <;> rfl

/-- The write of the store fails for pull request 1; pull request 2 follows. -/
theorem failed_update_skips_unit_witness :
    writeFailUnit.Number ∉ initialProcessed .notExist ∧
    (UpdateKarma freshState.file writeFailUnit.Number
      (calculatePRKarma id Config.defaultConfig writeFailUnit.reviews writeFailUnit.comments)
      writeFailUnit.markTime writeFailUnit.saveTime writeFailUnit.write).err ≠ none ∧
    (incrStep id Config.defaultConfig (initialProcessed .notExist) freshState
      writeFailUnit).Reviewers = [] ∧
    (incrLoop id Config.defaultConfig (initialProcessed .notExist) freshState
      [writeFailUnit, aliceUnit 2]).Reviewers = [("alice", 1)] :=
  ⟨by decide, by decide,
   (failed_update_skips_unit id Config.defaultConfig (initialProcessed .notExist) freshState
      writeFailUnit [aliceUnit 2] (by decide) (by decide)).1,
   (congrArg IncrState.Reviewers
     (failed_update_skips_unit id Config.defaultConfig (initialProcessed .notExist) freshState
      writeFailUnit [aliceUnit 2] (by decide) (by decide)).2.2).trans (by decide)⟩

/-- C9 fails: on a missing store file whose write fails, the delta of pull request 1 is
alice 1, `UpdateKarma` returns an error, and the totals from which the leaderboard is built
stay empty. -/
theorem failed_update_drops_delta :
    calculatePRKarma id Config.defaultConfig writeFailUnit.reviews writeFailUnit.comments
      = [("alice", 1)] ∧
    (UpdateKarma .notExist 1 [("alice", 1)] 1 2 .failUnchanged).err ≠ none ∧
    (incrLoop id Config.defaultConfig (initialProcessed .notExist) freshState
      [writeFailUnit]).Reviewers = [] ∧
    runIncrementalUpdate id Config.defaultConfig .notExist (.ok [writeFailUnit]) true =
      .ok { Reviewers := [], leaderboard := { Reviewers := [] }, file := .notExist } :=
  ⟨by decide, by decide, by decide, rfl⟩

theorem nodup_scoreReview (tbl : Char → Char) (cfg : Config) (m : KarmaMap) (ev : Event)
    (h : m.keys.Nodup) : (scoreReview tbl cfg m ev).keys.Nodup := by
  unfold scoreReview
  simp only
  split
  · exact h
  · split <;> split <;>
      first
        | exact KarmaMap.nodup_keys_add _ _ _ (KarmaMap.nodup_keys_add _ _ _
            (KarmaMap.nodup_keys_add _ _ _ h))
        | exact KarmaMap.nodup_keys_add _ _ _ (KarmaMap.nodup_keys_add _ _ _ h)
        | exact KarmaMap.nodup_keys_add _ _ _ h

theorem nodup_scoreComment (tbl : Char → Char) (cfg : Config) (m : KarmaMap) (ev : Event)
    (h : m.keys.Nodup) : (scoreComment tbl cfg m ev).keys.Nodup := by
  unfold scoreComment
  simp only
  split
  · exact h
  · split <;> split <;>
      first
        | exact KarmaMap.nodup_keys_add _ _ _ (KarmaMap.nodup_keys_add _ _ _ h)
        | exact KarmaMap.nodup_keys_add _ _ _ h
        | exact h

theorem nodup_foldl (step : KarmaMap → Event → KarmaMap)
    (hstep : ∀ m ev, m.keys.Nodup → (step m ev).keys.Nodup) :
    ∀ (events : List Event) (m : KarmaMap), m.keys.Nodup → (events.foldl step m).keys.Nodup := by
  intro events
  induction events with
  | nil => intro m h; exact h
  | cons ev rest ih => intro m h; exact ih _ (hstep m ev h)

/-- The map `calculatePRKarma` returns has each author once. -/
theorem nodup_calculatePRKarma (tbl : Char → Char) (cfg : Config)
    (reviews comments : FetchResult) :
    (calculatePRKarma tbl cfg reviews comments).keys.Nodup := by
  have h0 : KarmaMap.keys [] |>.Nodup := List.nodup_nil
  unfold calculatePRKarma
  cases reviews with
  | error e => exact h0
  | ok reviews =>
    have h1 := nodup_foldl (scoreReview tbl cfg) (nodup_scoreReview tbl cfg) reviews [] h0
    cases comments with
    | error e => exact h1
    | ok comments =>
      exact nodup_foldl (scoreComment tbl cfg) (nodup_scoreComment tbl cfg) comments _ h1

theorem get_eq_zero_of_has_eq_false (m : KarmaMap) (k : String) (h : m.has k = false) :
    m.get k = 0 := by
  unfold KarmaMap.has at h
  unfold KarmaMap.get
  cases hl : m.lookup k with
  | none => rfl
  | some v => rw [hl] at h; simp at h

theorem get_of_mem (m : KarmaMap) (hm : m.keys.Nodup) (entry : String × Int)
    (h : entry ∈ m) : m.get entry.1 = entry.2 := by
  induction m with
  | nil => simp at h
  | cons e m ih =>
    obtain ⟨a, b⟩ := e
    simp only [KarmaMap.keys, List.map_cons, List.nodup_cons] at hm
    rw [KarmaMap.get_cons]
    rcases List.mem_cons.mp h with rfl | h
    · simp
    · have hne : ¬ entry.1 = a := by
        intro heq
        exact hm.1 (heq ▸ List.mem_map_of_mem Prod.fst h)
      rw [if_neg hne]
      exact ih hm.2 h

theorem countBy_le_length (u : String) (p : String → Bool) (events : List Event) :
    countBy u p events ≤ events.length :=
  List.countP_le_length _

/-- With non-negative points the karma of the specification lies between 0 and the three
points times the number of events. -/
theorem specKarma_bounds (tbl : Char → Char) (cfg : Config) (reviews comments : List Event)
    (u : String) (hr : 0 ≤ cfg.ReviewPoint) (he : 0 ≤ cfg.PositiveEmojiPoint)
    (hc : 0 ≤ cfg.ConstructiveCommentPoint) :
    0 ≤ specKarma tbl cfg reviews comments u ∧
    specKarma tbl cfg reviews comments u ≤
      (cfg.ReviewPoint + cfg.PositiveEmojiPoint + cfg.ConstructiveCommentPoint) *
        ((reviews.length + comments.length : Nat) : Int) := by
  unfold specKarma
  have h1 : ((countBy u (fun _ => true) reviews : Nat) : Int) ≤
      ((reviews.length + comments.length : Nat) : Int) := by
    have := countBy_le_length u (fun _ => true) reviews
    omega
  have h2 : ((countBy u HasPositiveEmoji (reviews ++ comments) : Nat) : Int) ≤
      ((reviews.length + comments.length : Nat) : Int) := by
    have := countBy_le_length u HasPositiveEmoji (reviews ++ comments)
    simp only [List.length_append] at this
    omega
  have h3 : ((countBy u (IsConstructiveComment tbl) (reviews ++ comments) : Nat) : Int) ≤
      ((reviews.length + comments.length : Nat) : Int) := by
    have := countBy_le_length u (IsConstructiveComment tbl) (reviews ++ comments)
    simp only [List.length_append] at this
    omega
  constructor
  · positivity
  · have e1 := mul_le_mul_of_nonneg_left h1 hr
    have e2 := mul_le_mul_of_nonneg_left h2 he
    have e3 := mul_le_mul_of_nonneg_left h3 hc
    linarith

/-- With non-negative points that fit, every total of the delta is non-negative. -/
theorem get_calculatePRKarma_nonneg (tbl : Char → Char) (cfg : Config)
    (reviews comments : List Event) (u : String)
    (hr : 0 ≤ cfg.ReviewPoint) (he : 0 ≤ cfg.PositiveEmojiPoint)
    (hc : 0 ≤ cfg.ConstructiveCommentPoint)
    (hfit : (cfg.ReviewPoint + cfg.PositiveEmojiPoint + cfg.ConstructiveCommentPoint) *
      ((reviews.length + comments.length : Nat) : Int) ≤ maxInt) :
    0 ≤ (calculatePRKarma tbl cfg (.ok reviews) (.ok comments)).get u := by
  cases hb : IsBot tbl u with
  | true =>
    have hno : (calculatePRKarma tbl cfg (.ok reviews) (.ok comments)).has u = false := by
      cases h : (calculatePRKarma tbl cfg (.ok reviews) (.ok comments)).has u with
      | false => rfl
      | true =>
        have := ((has_calculatePRKarma tbl cfg reviews comments u).mp h).1
        rw [hb] at this
        exact absurd this (by decide)
    rw [get_eq_zero_of_has_eq_false _ _ hno]
  | false =>
    have hbd := specKarma_bounds tbl cfg reviews comments u hr he hc
    have hmin : minInt ≤ specKarma tbl cfg reviews comments u :=
      le_trans (by decide) hbd.1
    rw [get_calculatePRKarma tbl cfg reviews comments u hb,
      wrapInt_of_range hmin (le_trans hbd.2 hfit)]
    exact hbd.1

/-- C10, as the code has it: when the three points are non-negative and the three points
times the number of events of the unit fit in an `int`, every value of the delta is
non-negative, and a reviewer whose stored total is an `int` that stays one after adding the
delta has, after a successful `UpdateKarma`, a total that is not lower than before. -/
theorem nonneg_schedule_nondecreasing (tbl : Char → Char) (cfg : Config)
    (reviews comments : List Event)
    (hr : 0 ≤ cfg.ReviewPoint) (he : 0 ≤ cfg.PositiveEmojiPoint)
    (hc : 0 ≤ cfg.ConstructiveCommentPoint)
    (hfit : (cfg.ReviewPoint + cfg.PositiveEmojiPoint + cfg.ConstructiveCommentPoint) *
      ((reviews.length + comments.length : Nat) : Int) ≤ maxInt) :
    (∀ entry ∈ calculatePRKarma tbl cfg (.ok reviews) (.ok comments), 0 ≤ entry.2) ∧
    (∀ (file : StoreFile) (prNumber : Int) (markTime saveTime : Time) (write : WriteOutcome)
        (pre post : KarmaData) (u : String),
      Load file = .ok pre →
      (UpdateKarma file prNumber (calculatePRKarma tbl cfg (.ok reviews) (.ok comments))
        markTime saveTime write).err = none →
      Load (UpdateKarma file prNumber (calculatePRKarma tbl cfg (.ok reviews) (.ok comments))
        markTime saveTime write).file = .ok post →
      minInt ≤ pre.Reviewers.get u →
      pre.Reviewers.get u + (calculatePRKarma tbl cfg (.ok reviews) (.ok comments)).get u
        ≤ maxInt →
      pre.Reviewers.get u ≤ post.Reviewers.get u) := by
  have hnodup := nodup_calculatePRKarma tbl cfg (.ok reviews) (.ok comments)
  have hnonneg := fun u => get_calculatePRKarma_nonneg tbl cfg reviews comments u hr he hc hfit
  constructor
  · intro entry hmem
    rw [← get_of_mem _ hnodup entry hmem]
    exact hnonneg entry.1
  · intro file prNumber markTime saveTime write pre post u hpre hok hpost hmin hmax
    obtain ⟨pre', hpre', hfile⟩ := UpdateKarma_ok file prNumber _ markTime saveTime write hok
    rw [hpre] at hpre'
    cases hpre'
    rw [hfile] at hpost
    simp only [Load, Except.ok.injEq] at hpost
    subst hpost
    show pre.Reviewers.get u ≤ (pre.Reviewers.merge _).get u
    rw [KarmaMap.get_merge _ _ hnodup]
    split
    · have hd := hnonneg u
      rw [wrapInt_of_range (le_trans hmin (by linarith)) hmax]
      linarith
    · exact le_refl _

/-- The default schedule, one review by alice whose body is the first key of
`positiveEmojis`, and the store of the test: the delta is alice 3 and her stored total goes
from 5 to 8. -/
theorem nonneg_schedule_nondecreasing_witness :
    (0 : Int) ≤ Config.defaultConfig.ReviewPoint ∧
    (0 : Int) ≤ Config.defaultConfig.PositiveEmojiPoint ∧
    (0 : Int) ≤ Config.defaultConfig.ConstructiveCommentPoint ∧
    (Config.defaultConfig.ReviewPoint + Config.defaultConfig.PositiveEmojiPoint +
      Config.defaultConfig.ConstructiveCommentPoint) *
        ((([⟨"alice", thumbsUpKey⟩] : List Event).length + ([] : List Event).length : Nat) : Int)
      ≤ maxInt ∧
    (∀ entry ∈ calculatePRKarma id Config.defaultConfig (.ok [⟨"alice", thumbsUpKey⟩]) (.ok []),
      0 ≤ entry.2) ∧
    KarmaMap.get [("alice", 5), ("bob", 3)] "alice" ≤
      KarmaMap.get [("alice", 8), ("bob", 3)] "alice" :=
  ⟨by decide, by decide, by decide, by decide,
   (nonneg_schedule_nondecreasing id Config.defaultConfig [⟨"alice", thumbsUpKey⟩] []
      (by decide) (by decide) (by decide) (by decide)).1,
   (nonneg_schedule_nondecreasing id Config.defaultConfig [⟨"alice", thumbsUpKey⟩] []
      (by decide) (by decide) (by decide) (by decide)).2 testStore 2 8 9 .ok
      { Reviewers := [("alice", 5), ("bob", 3)], LastUpdated := 7, ProcessedPRs := [(1, 7)] }
      { Reviewers := [("alice", 8), ("bob", 3)], LastUpdated := 9,
        ProcessedPRs := [(1, 7), (2, 8)] }
      "alice" rfl (by decide) rfl (by decide) (by decide)⟩

/-- C10 fails: `Load` accepts `REVIEW_POINT=-5`, one review then gives alice -5 and
`UpdateKarma` lowers her stored total from 10 to 5; and with the non-negative
`REVIEW_POINT=9223372036854775807` two reviews by alice wrap around to a delta of -2. -/
theorem negative_delta_lowers_total :
    (Config.Load id (reviewPointEnv "-5")).ReviewPoint = -5 ∧
    calculatePRKarma id (Config.Load id (reviewPointEnv "-5")) (.ok [⟨"alice", ""⟩]) (.ok [])
      = [("alice", -5)] ∧
    (UpdateKarma (.json (some [("alice", 10)]) 0 (some [])) 1 [("alice", -5)] 1 2 .ok).err
      = none ∧
    (UpdateKarma (.json (some [("alice", 10)]) 0 (some [])) 1 [("alice", -5)] 1 2 .ok).file
      = .json (some [("alice", 5)]) 2 (some [(1, 1)]) ∧
    (Config.Load id (reviewPointEnv "9223372036854775807")).ReviewPoint
      = 9223372036854775807 ∧
    calculatePRKarma id (Config.Load id (reviewPointEnv "9223372036854775807"))
      (.ok [⟨"alice", ""⟩, ⟨"alice", ""⟩]) (.ok []) = [("alice", -2)] :=
  ⟨by decide, by decide, by decide, by decide, by decide, by decide⟩

end Main

/-! ## Accumulation over event lists -/

namespace Main

open Karma Storage

theorem has_calculatePRKarma_bot (tbl : Char → Char) (cfg : Config)
    (reviews comments : List Event) (u : String) (hb : IsBot tbl u = true) :
    (calculatePRKarma tbl cfg (.ok reviews) (.ok comments)).has u = false := by
  cases h : (calculatePRKarma tbl cfg (.ok reviews) (.ok comments)).has u with
  | false => rfl
  | true =>
    have := ((has_calculatePRKarma tbl cfg reviews comments u).mp h).1
    rw [hb] at this
    exact absurd this (by decide)

/-- The total of any author in the result of `calculatePRKarma`. -/
theorem get_calculatePRKarma_all (tbl : Char → Char) (cfg : Config)
    (reviews comments : List Event) (u : String) :
    (calculatePRKarma tbl cfg (.ok reviews) (.ok comments)).get u =
      if IsBot tbl u = true then 0 else wrapInt (specKarma tbl cfg reviews comments u) := by
  cases hb : IsBot tbl u with
  | true =>
    rw [get_eq_zero_of_has_eq_false _ _ (has_calculatePRKarma_bot tbl cfg reviews comments u hb)]
    simp
  | false =>
    rw [get_calculatePRKarma tbl cfg reviews comments u hb]
    simp

theorem reviewsOf_append (xs ys : List ReviewEvent) :
    reviewsOf (xs ++ ys) = reviewsOf xs ++ reviewsOf ys := by
  simp [reviewsOf, List.filterMap_append]

theorem commentsOf_append (xs ys : List ReviewEvent) :
    commentsOf (xs ++ ys) = commentsOf xs ++ commentsOf ys := by
  simp [commentsOf, List.filterMap_append]

theorem countBy_perm (u : String) (p : String → Bool) {xs ys : List Event}
    (h : xs.Perm ys) : countBy u p xs = countBy u p ys :=
  h.countP_eq _

theorem specKarma_append (tbl : Char → Char) (cfg : Config) (r1 c1 r2 c2 : List Event)
    (u : String) :
    specKarma tbl cfg (r1 ++ r2) (c1 ++ c2) u =
      specKarma tbl cfg r1 c1 u + specKarma tbl cfg r2 c2 u := by
  simp only [specKarma, countBy_append]
  push_cast
  ring

theorem specKarma_perm (tbl : Char → Char) (cfg : Config) {r1 c1 r2 c2 : List Event}
    (hr : r1.Perm r2) (hc : c1.Perm c2) (u : String) :
    specKarma tbl cfg r1 c1 u = specKarma tbl cfg r2 c2 u := by
  simp only [specKarma, countBy_perm u _ hr, countBy_perm u _ (hr.append hc)]

/-- The value a merge leaves for a key, when the values of the first map are `int`s. -/
theorem get_merge_wrapped (m delta : KarmaMap) (hd : delta.keys.Nodup) (k : String)
    (hm : wrapInt (m.get k) = m.get k) :
    (m.merge delta).get k = wrapInt (m.get k + delta.get k) := by
  rw [KarmaMap.get_merge m delta hd]
  split
  · rfl
  · rename_i h
    have h' : delta.has k = false := by simpa using h
    rw [get_eq_zero_of_has_eq_false _ _ h', Int.add_zero, hm]

theorem wrapInt_add_both (a b : Int) : wrapInt (wrapInt a + wrapInt b) = wrapInt (a + b) := by
  rw [wrapInt_add_left, Int.add_comm, wrapInt_add_left, Int.add_comm]

theorem has_calculatePRKarma_perm (tbl : Char → Char) (cfg : Config)
    {r1 c1 r2 c2 : List Event} (hr : r1.Perm r2) (hc : c1.Perm c2) (u : String) :
    (calculatePRKarma tbl cfg (.ok r1) (.ok c1)).has u =
      (calculatePRKarma tbl cfg (.ok r2) (.ok c2)).has u := by
  rw [Bool.eq_iff_iff, has_calculatePRKarma, has_calculatePRKarma,
    countBy_perm u _ hr, countBy_perm u _ hc]

theorem has_calculatePRKarma_append (tbl : Char → Char) (cfg : Config)
    (r1 c1 r2 c2 : List Event) (u : String) :
    (calculatePRKarma tbl cfg (.ok (r1 ++ r2)) (.ok (c1 ++ c2))).has u =
      ((calculatePRKarma tbl cfg (.ok r1) (.ok c1)).has u ||
        (calculatePRKarma tbl cfg (.ok r2) (.ok c2)).has u) := by
  rw [Bool.eq_iff_iff, Bool.or_eq_true, has_calculatePRKarma, has_calculatePRKarma,
    has_calculatePRKarma, countBy_append, countBy_append]
  constructor
  · rintro ⟨hb, h | h⟩
    · rcases Nat.add_pos_iff_pos_or_pos.mp h with h | h
      · exact Or.inl ⟨hb, Or.inl h⟩
      · exact Or.inr ⟨hb, Or.inl h⟩
    · rcases Nat.add_pos_iff_pos_or_pos.mp h with h | h
      · exact Or.inl ⟨hb, Or.inr h⟩
      · exact Or.inr ⟨hb, Or.inr h⟩
  · rintro (⟨hb, h | h⟩ | ⟨hb, h | h⟩)
    · exact ⟨hb, Or.inl (Nat.add_pos_left h _)⟩
    · exact ⟨hb, Or.inr (Nat.add_pos_left h _)⟩
    · exact ⟨hb, Or.inl (Nat.add_pos_right _ h)⟩
    · exact ⟨hb, Or.inr (Nat.add_pos_right _ h)⟩

/-- C11: accumulation is additive and commutative across events.  For every point schedule
and event lists `xs`, `ys`, merging the totals scored for `ys` into the totals scored for
`xs` (the per-key sum of `UpdateKarma`) gives the same keys and values as scoring
`xs ++ ys` in one pass, and scoring a permutation of a list gives the same keys and values
as scoring the list. -/
theorem accumulation_additive_commutative (tbl : Char → Char) (cfg : Config) :
    (∀ xs ys : List ReviewEvent,
      SameTotals ((scoreEvents tbl cfg xs).merge (scoreEvents tbl cfg ys))
        (scoreEvents tbl cfg (xs ++ ys))) ∧
    (∀ (xs ys : List ReviewEvent) (k : String),
      (scoreEvents tbl cfg (xs ++ ys)).get k =
        wrapInt ((scoreEvents tbl cfg xs).get k + (scoreEvents tbl cfg ys).get k)) ∧
    (∀ xs ys : List ReviewEvent, xs.Perm ys →
      SameTotals (scoreEvents tbl cfg xs) (scoreEvents tbl cfg ys)) := by
  refine ⟨?_, ?_, ?_⟩
  · intro xs ys k
    unfold scoreEvents
    rw [reviewsOf_append, commentsOf_append]
    constructor
    · rw [KarmaMap.has_merge, has_calculatePRKarma_append]
    · have hwrapped : wrapInt ((calculatePRKarma tbl cfg (.ok (reviewsOf xs))
          (.ok (commentsOf xs))).get k) =
          (calculatePRKarma tbl cfg (.ok (reviewsOf xs)) (.ok (commentsOf xs))).get k := by
        rw [get_calculatePRKarma_all]
        split
        · rfl
        · exact wrapInt_idem _
      rw [get_merge_wrapped _ _ (nodup_calculatePRKarma tbl cfg _ _) k hwrapped,
        get_calculatePRKarma_all, get_calculatePRKarma_all, get_calculatePRKarma_all]
      split
      · rfl
      · rw [specKarma_append, wrapInt_add_left, Int.add_comm (specKarma tbl cfg _ _ k),
          wrapInt_add_left, Int.add_comm]
  · intro xs ys k
    unfold scoreEvents
    rw [reviewsOf_append, commentsOf_append, get_calculatePRKarma_all,
      get_calculatePRKarma_all, get_calculatePRKarma_all]
    split
    · rfl
    · rw [specKarma_append, wrapInt_add_both]
  · intro xs ys hperm k
    unfold scoreEvents
    have hr : (reviewsOf xs).Perm (reviewsOf ys) := hperm.filterMap _
    have hc : (commentsOf xs).Perm (commentsOf ys) := hperm.filterMap _
    constructor
    · exact has_calculatePRKarma_perm tbl cfg hr hc k
    · rw [get_calculatePRKarma_all, get_calculatePRKarma_all, specKarma_perm tbl cfg hr hc]

/-- The events `[A, B]` then `[C]` against `[A, B, C]`, and `[C, A, B]` against it: alice
reviews with the first key of `positiveEmojis` as body, bob comments with the second key,
alice reviews again. -/
theorem accumulation_additive_commutative_witness :
    SameTotals
      ((scoreEvents id Config.defaultConfig
          [.Review ⟨"alice", thumbsUpKey⟩, .Comment ⟨"bob", fireKey⟩]).merge
        (scoreEvents id Config.defaultConfig [.Review ⟨"alice", ""⟩]))
      (scoreEvents id Config.defaultConfig
        ([.Review ⟨"alice", thumbsUpKey⟩, .Comment ⟨"bob", fireKey⟩] ++ [.Review ⟨"alice", ""⟩])) ∧
    SameTotals
      (scoreEvents id Config.defaultConfig
        [.Review ⟨"alice", ""⟩, .Review ⟨"alice", thumbsUpKey⟩, .Comment ⟨"bob", fireKey⟩])
      (scoreEvents id Config.defaultConfig
        [.Review ⟨"alice", thumbsUpKey⟩, .Comment ⟨"bob", fireKey⟩, .Review ⟨"alice", ""⟩]) ∧
    scoreEvents id Config.defaultConfig
        [.Review ⟨"alice", thumbsUpKey⟩, .Comment ⟨"bob", fireKey⟩, .Review ⟨"alice", ""⟩]
      = [("alice", 4), ("bob", 2)] :=
  ⟨(accumulation_additive_commutative id Config.defaultConfig).1 _ _,
   (accumulation_additive_commutative id Config.defaultConfig).2.2 _ _ (by decide),
   by decide⟩

end Main

/-! ## Round trip, loading and clearing of the store -/

namespace Storage

/-- A successful `Save` left the record, stamped with `now`, in the file. -/
theorem Save_ok (file : StoreFile) (data : KarmaData) (now : Time) (write : WriteOutcome)
    (hok : (Save file data now write).err = none) :
    (Save file data now write).file =
      .json (some data.Reviewers) now (some data.ProcessedPRs) := by
  cases write <;> simp [Save] at hok ⊢

/-- C12: a successful `Save` of a record followed by `Load` returns a record with the same
reviewers map (same keys, same totals) and the same processed work ids. -/
theorem Save_Load_roundtrip (file : StoreFile) (data : KarmaData) (now : Time)
    (write : WriteOutcome) (hok : (Save file data now write).err = none) :
    ∃ loaded, Load (Save file data now write).file = .ok loaded ∧
      loaded.Reviewers = data.Reviewers ∧
      SameTotals loaded.Reviewers data.Reviewers ∧
      loaded.ProcessedPRs = data.ProcessedPRs ∧
      (∀ n, n ∈ loaded.ProcessedPRs.map Prod.fst ↔ n ∈ data.ProcessedPRs.map Prod.fst) ∧
      loaded.LastUpdated = now := by
  rw [Save_ok file data now write hok]
  exact ⟨{ Reviewers := data.Reviewers, LastUpdated := now, ProcessedPRs := data.ProcessedPRs },
    rfl, rfl, fun _ => ⟨rfl, rfl⟩, rfl, fun _ => Iff.rfl, rfl⟩

/-- The record of `TestStorage_LoadSave` saved at time 9 over an empty file. -/
theorem Save_Load_roundtrip_witness :
    (Save .empty testData 9 .ok).err = none ∧
    ∃ loaded, Load (Save .empty testData 9 .ok).file = .ok loaded ∧
      loaded.Reviewers = testData.Reviewers ∧
      SameTotals loaded.Reviewers testData.Reviewers ∧
      loaded.ProcessedPRs = testData.ProcessedPRs ∧
      (∀ n, n ∈ loaded.ProcessedPRs.map Prod.fst ↔ n ∈ testData.ProcessedPRs.map Prod.fst) ∧
      loaded.LastUpdated = 9 :=
  ⟨by decide, Save_Load_roundtrip .empty testData 9 .ok (by decide)⟩

/-- C17: `Load` returns a record with empty maps and no error when the file is missing or
has length 0, returns maps (empty ones for absent members) when the file is a JSON object,
and returns an error and no record when the file cannot be decoded. -/
theorem Load_cases :
    Load .notExist = .ok { Reviewers := [], LastUpdated := 0, ProcessedPRs := [] } ∧
    Load .empty = .ok { Reviewers := [], LastUpdated := 0, ProcessedPRs := [] } ∧
    (∀ t, Load (.json none t none) =
      .ok { Reviewers := [], LastUpdated := t, ProcessedPRs := [] }) ∧
    (∀ t reviewers, Load (.json (some reviewers) t none) =
      .ok { Reviewers := reviewers, LastUpdated := t, ProcessedPRs := [] }) ∧
    (∀ t processed, Load (.json none t (some processed)) =
      .ok { Reviewers := [], LastUpdated := t, ProcessedPRs := processed }) ∧
    (∀ t reviewers processed, Load (.json (some reviewers) t (some processed)) =
      .ok { Reviewers := reviewers, LastUpdated := t, ProcessedPRs := processed }) ∧
    (∃ err, Load .malformed = .error err) ∧
    (∀ file, (∃ data, Load file = .ok data) ↔ file ≠ .malformed ∧ file ≠ .unreadable) := by
  refine ⟨rfl, rfl, fun _ => rfl, fun _ _ => rfl, fun _ _ => rfl, fun _ _ _ => rfl,
    ⟨_, rfl⟩, ?_⟩
  intro file
  cases file <;> simp [Load]

/-- C18: after a successful `Clear`, `Load` returns a record with no reviewers and no
processed work ids, whatever the store held before. -/
theorem Clear_then_Load (file : StoreFile) (now saveTime : Time) (write : WriteOutcome)
    (hok : (Clear file now saveTime write).err = none) :
    Load (Clear file now saveTime write).file =
      .ok { Reviewers := [], LastUpdated := saveTime, ProcessedPRs := [] } ∧
    GetProcessedPRs (Clear file now saveTime write).file = .ok [] := by
  unfold Clear at hok ⊢
  rw [Save_ok _ _ _ _ hok]
  exact ⟨rfl, rfl⟩

/-- The test `TestStorage_Clear`: `UpdateKarma(1, {alice: 5})`, then `Clear`. -/
theorem Clear_then_Load_witness :
    (Clear (UpdateKarma .empty 1 [("alice", 5)] 1 2 .ok).file 3 4 .ok).err = none ∧
    Load (UpdateKarma .empty 1 [("alice", 5)] 1 2 .ok).file =
      .ok { Reviewers := [("alice", 5)], LastUpdated := 2, ProcessedPRs := [(1, 1)] } ∧
    Load (Clear (UpdateKarma .empty 1 [("alice", 5)] 1 2 .ok).file 3 4 .ok).file =
      .ok { Reviewers := [], LastUpdated := 4, ProcessedPRs := [] } ∧
    GetProcessedPRs (Clear (UpdateKarma .empty 1 [("alice", 5)] 1 2 .ok).file 3 4 .ok).file
      = .ok [] :=
  ⟨by decide, rfl,
   Clear_then_Load (UpdateKarma .empty 1 [("alice", 5)] 1 2 .ok).file 3 4 .ok (by decide)⟩

/-- C19: the store does not de-duplicate.  `UpdateKarma(w, {u: n})` twice on an empty store
leaves `u` with `n + n` (Go addition, `2 * n` whenever that is an `int`) and `w` once in
the processed set. -/
theorem UpdateKarma_twice (file : StoreFile) (t0 : Time) (w : Int) (u : String) (n : Int)
    (t1 t2 t3 t4 : Time)
    (hempty : Load file = .ok { Reviewers := [], LastUpdated := t0, ProcessedPRs := [] }) :
    (UpdateKarma file w [(u, n)] t1 t2 .ok).err = none ∧
    (UpdateKarma (UpdateKarma file w [(u, n)] t1 t2 .ok).file w [(u, n)] t3 t4 .ok).err
      = none ∧
    (∃ total, Load (UpdateKarma (UpdateKarma file w [(u, n)] t1 t2 .ok).file w [(u, n)]
        t3 t4 .ok).file =
        .ok { Reviewers := [(u, total)], LastUpdated := t4, ProcessedPRs := [(w, t3)] } ∧
      total = wrapInt (2 * n) ∧
      (minInt ≤ 2 * n → 2 * n ≤ maxInt → total = 2 * n)) ∧
    GetProcessedPRs (UpdateKarma (UpdateKarma file w [(u, n)] t1 t2 .ok).file w [(u, n)]
      t3 t4 .ok).file = .ok [w] := by
  have h1 : UpdateKarma file w [(u, n)] t1 t2 .ok =
      { file := .json (some [(u, wrapInt (0 + n))]) t2 (some [(w, t1)]), err := none } := by
    unfold UpdateKarma
    rw [hempty]
    rfl
  have h2 : UpdateKarma (.json (some [(u, wrapInt (0 + n))]) t2 (some [(w, t1)])) w [(u, n)]
      t3 t4 .ok =
      { file := .json (some [(u, wrapInt (wrapInt (0 + n) + n))]) t4 (some [(w, t3)]),
        err := none } := by
    simp [UpdateKarma, Load, Save, KarmaMap.merge, KarmaMap.add, setTime]
  have htotal : wrapInt (wrapInt (0 + n) + n) = wrapInt (2 * n) := by
    rw [wrapInt_add_left]
    congr 1
    ring
  rw [h1]
  simp only [h2]
  refine ⟨trivial, trivial, ⟨_, rfl, htotal, fun hlo hhi => ?_⟩, ?_⟩
  · rw [htotal, wrapInt_of_range hlo hhi]
  · simp [GetProcessedPRs, Load]

/-- `UpdateKarma(1, {alice: 5})` twice on a missing store file: alice has 10. -/
theorem UpdateKarma_twice_witness :
    Load .notExist = .ok { Reviewers := [], LastUpdated := 0, ProcessedPRs := [] } ∧
    Load (UpdateKarma (UpdateKarma .notExist 1 [("alice", 5)] 1 2 .ok).file 1 [("alice", 5)]
      3 4 .ok).file =
      .ok { Reviewers := [("alice", 10)], LastUpdated := 4, ProcessedPRs := [(1, 3)] } ∧
    GetProcessedPRs (UpdateKarma (UpdateKarma .notExist 1 [("alice", 5)] 1 2 .ok).file 1
      [("alice", 5)] 3 4 .ok).file = .ok [1] :=
  ⟨rfl,
   by
     obtain ⟨total, hload, _, hexact⟩ :=
       (UpdateKarma_twice .notExist 0 1 "alice" 5 1 2 3 4 rfl).2.2.1
     rw [hload, hexact (by decide) (by decide)]
     rfl,
   (UpdateKarma_twice .notExist 0 1 "alice" 5 1 2 3 4 rfl).2.2.2⟩

end Storage

/-! ## The leaderboard: entries and dependence on the iteration order -/

namespace Karma

theorem has_eq_true_iff_mem_keys (m : KarmaMap) (k : String) :
    m.has k = true ↔ k ∈ m.keys := by
  induction m with
  | nil => simp [KarmaMap.has, KarmaMap.keys]
  | cons e m ih =>
    obtain ⟨a, b⟩ := e
    rw [KarmaMap.has_cons]
    simp only [Bool.or_eq_true, decide_eq_true_eq, ih, KarmaMap.keys, List.map_cons,
      List.mem_cons]

theorem GenerateLeaderboard_usernames_perm (m : KarmaMap) :
    ((GenerateLeaderboard m).Reviewers.map (fun r => r.Username)).Perm m.keys := by
  have h := (GenerateLeaderboard_perm m).map (fun r => r.Username)
  simpa [KarmaMap.keys, List.map_map, Function.comp_def] using h

theorem GenerateLeaderboard_points_perm (m : KarmaMap) :
    ((GenerateLeaderboard m).Reviewers.map (fun r => r.Points)).Perm (m.map Prod.snd) := by
  have h := (GenerateLeaderboard_perm m).map (fun r => r.Points)
  simpa [List.map_map, Function.comp_def] using h

/-- C14: `GenerateLeaderboard` returns exactly the entries of the map: as many entries as
the map has keys, every username of the map once and no other username, each with the
value the map holds for it. -/
theorem GenerateLeaderboard_entries (m : KarmaMap) (hm : m.keys.Nodup) :
    (GenerateLeaderboard m).Reviewers.length = m.keys.length ∧
    (∀ u, m.has u = true →
      ((GenerateLeaderboard m).Reviewers.map (fun r => r.Username)).count u = 1) ∧
    (∀ u, m.has u = false →
      ((GenerateLeaderboard m).Reviewers.map (fun r => r.Username)).count u = 0) ∧
    (∀ r ∈ (GenerateLeaderboard m).Reviewers,
      m.has r.Username = true ∧ r.Points = m.get r.Username) := by
  have hu := GenerateLeaderboard_usernames_perm m
  refine ⟨?_, ?_, ?_, ?_⟩
  · have := hu.length_eq
    simpa using this
  · intro u h
    rw [hu.count_eq]
    exact List.count_eq_one_of_mem hm ((has_eq_true_iff_mem_keys m u).mp h)
  · intro u h
    rw [hu.count_eq]
    apply List.count_eq_zero_of_not_mem
    intro hmem
    rw [(has_eq_true_iff_mem_keys m u).mpr hmem] at h
    exact absurd h (by decide)
  · intro r hr
    have hr' := (GenerateLeaderboard_perm m).subset hr
    obtain ⟨e, he, rfl⟩ := List.mem_map.mp hr'
    refine ⟨(has_eq_true_iff_mem_keys m e.1).mpr (List.mem_map_of_mem Prod.fst he), ?_⟩
    exact (Main.get_of_mem m hm e he).symm

/-- The map of the test `TestGenerateLeaderboard`: five entries, alice once with 18. -/
theorem GenerateLeaderboard_entries_witness :
    (KarmaMap.keys
      [("alice", 18), ("bob", 12), ("carol", 10), ("dave", 8), ("eve", 5)]).Nodup ∧
    (GenerateLeaderboard
      [("alice", 18), ("bob", 12), ("carol", 10), ("dave", 8), ("eve", 5)]).Reviewers.length
      = 5 ∧
    ((GenerateLeaderboard
      [("alice", 18), ("bob", 12), ("carol", 10), ("dave", 8), ("eve", 5)]).Reviewers.map
        (fun r => r.Username)).count "alice" = 1 :=
  ⟨by decide,
   (GenerateLeaderboard_entries
      [("alice", 18), ("bob", 12), ("carol", 10), ("dave", 8), ("eve", 5)] (by decide)).1,
   (GenerateLeaderboard_entries
      [("alice", 18), ("bob", 12), ("carol", 10), ("dave", 8), ("eve", 5)] (by decide)).2.1
      "alice" (by decide)⟩

/-- C13, as the code has it: for two iteration orders of one map the returned sequences
have the same points in the same positions, and they are equal when no two users have the
same points; the order among users with equal points is not determined. -/
theorem leaderboard_order_determined (m m' : KarmaMap) (hperm : m.Perm m') :
    (GenerateLeaderboard m).Reviewers.map (fun r => r.Points) =
      (GenerateLeaderboard m').Reviewers.map (fun r => r.Points) ∧
    ((m.map Prod.snd).Nodup → GenerateLeaderboard m = GenerateLeaderboard m') := by
  have hout : (GenerateLeaderboard m).Reviewers.Perm (GenerateLeaderboard m').Reviewers :=
    (GenerateLeaderboard_perm m).trans
      ((hperm.map _).trans (GenerateLeaderboard_perm m').symm)
  constructor
  · refine @List.Perm.eq_of_sorted Int (fun a b => a ≥ b) _ _ ?_ ?_ ?_
      (hout.map (fun r => r.Points))
    · intro a b _ _ hab hba
      exact le_antisymm hba hab
    · exact List.pairwise_map.mpr (GenerateLeaderboard_pairwise m)
    · exact List.pairwise_map.mpr (GenerateLeaderboard_pairwise m')
  · intro hnodup
    have hinj : ((m.map (fun entry => ({ Username := entry.1, Points := entry.2 } : Reviewer))).map
        (fun r => r.Points)).Nodup := by
      simpa [List.map_map, Function.comp_def] using hnodup
    have heq : (GenerateLeaderboard m).Reviewers = (GenerateLeaderboard m').Reviewers := by
      refine @List.Perm.eq_of_sorted Reviewer (fun a b => a.Points ≥ b.Points) _ _ ?_
        (GenerateLeaderboard_pairwise m) (GenerateLeaderboard_pairwise m') hout
      intro a b ha hb hab hba
      have ha' := (GenerateLeaderboard_perm m).subset ha
      have hb' := (GenerateLeaderboard_perm m).subset (hout.symm.subset hb)
      exact List.inj_on_of_nodup_map hinj ha' hb' (le_antisymm hba hab)
    cases hl : GenerateLeaderboard m
    cases hr : GenerateLeaderboard m'
    rw [hl, hr] at heq
    simp only at heq
    rw [heq]

/-- Two iteration orders of the map alice 3, bob 7: both give bob, alice. -/
theorem leaderboard_order_determined_witness :
    List.Perm [("alice", (3 : Int)), ("bob", 7)] [("bob", 7), ("alice", 3)] ∧
    ([("alice", (3 : Int)), ("bob", 7)].map Prod.snd).Nodup ∧
    GenerateLeaderboard [("alice", 3), ("bob", 7)] =
      GenerateLeaderboard [("bob", 7), ("alice", 3)] :=
  ⟨by decide, by decide,
   (leaderboard_order_determined [("alice", 3), ("bob", 7)] [("bob", 7), ("alice", 3)]
      (by decide)).2 (by decide)⟩

/-- C13 fails on ties: the map alice 1, bob 1 visited as alice, bob gives alice, bob, and
visited as bob, alice gives bob, alice. -/
theorem leaderboard_depends_on_iteration_order :
    List.Perm [("alice", (1 : Int)), ("bob", 1)] [("bob", 1), ("alice", 1)] ∧
    (GenerateLeaderboard [("alice", 1), ("bob", 1)]).Reviewers =
      [⟨"alice", 1⟩, ⟨"bob", 1⟩] ∧
    (GenerateLeaderboard [("bob", 1), ("alice", 1)]).Reviewers =
      [⟨"bob", 1⟩, ⟨"alice", 1⟩] ∧
    GenerateLeaderboard [("alice", 1), ("bob", 1)] ≠
      GenerateLeaderboard [("bob", 1), ("alice", 1)] :=
  ⟨by decide, by decide, by decide, by decide⟩

end Karma

/-! ## The incremental run and the store -/

namespace Main

open Karma Storage

/-- One loop body keeps the in-memory totals equal to the stored ones when its write
succeeds or leaves the file as it was. -/
theorem incrStep_memory_store (tbl : Char → Char) (cfg : Config) (processedPRs : List Int)
    (s : IncrState) (pr : WorkUnit)
    (hw : pr.write = .ok ∨ pr.write = .failUnchanged)
    (hs : ∃ data, Load s.file = .ok data ∧ data.Reviewers = s.Reviewers) :
    ∃ data, Load (incrStep tbl cfg processedPRs s pr).file = .ok data ∧
      data.Reviewers = (incrStep tbl cfg processedPRs s pr).Reviewers := by
  obtain ⟨data, hload, hrev⟩ := hs
  unfold incrStep
  split
  · exact ⟨data, hload, hrev⟩
  · rcases hw with hw | hw
    · simp only [UpdateKarma, hload, hw, Save]
      exact ⟨_, rfl, by simp [hrev]⟩
    · simp only [UpdateKarma, hload, hw, Save]
      exact ⟨data, rfl, hrev⟩

theorem incrLoop_memory_store (tbl : Char → Char) (cfg : Config) (processedPRs : List Int)
    (prs : List WorkUnit) :
    ∀ s : IncrState, (∀ pr ∈ prs, pr.write = .ok ∨ pr.write = .failUnchanged) →
      (∃ data, Load s.file = .ok data ∧ data.Reviewers = s.Reviewers) →
      ∃ data, Load (incrLoop tbl cfg processedPRs s prs).file = .ok data ∧
        data.Reviewers = (incrLoop tbl cfg processedPRs s prs).Reviewers := by
  induction prs with
  | nil => intro s _ hs; exact hs
  | cons pr rest ih =>
    intro s hw hs
    exact ih (incrStep tbl cfg processedPRs s pr)
      (fun p hp => hw p (List.mem_cons_of_mem _ hp))
      (incrStep_memory_store tbl cfg processedPRs s pr (hw pr (List.mem_cons_self _ _)) hs)

/-- C15, as the code has it: when every write of the store either succeeds or fails leaving
the file as it was, whatever the fetches do, the map handed to `GenerateLeaderboard` at the
end of `runIncrementalUpdate` is the reviewers map `Load` returns for the store then. -/
theorem memory_matches_store (tbl : Char → Char) (cfg : Config) (file : StoreFile)
    (prs : List WorkUnit) (reportWritten : Bool) (res : IncrResult)
    (hwrites : ∀ pr ∈ prs, pr.write = .ok ∨ pr.write = .failUnchanged)
    (hrun : runIncrementalUpdate tbl cfg file (.ok prs) reportWritten = .ok res) :
    res.leaderboard = GenerateLeaderboard res.Reviewers ∧
    ∃ data, Load res.file = .ok data ∧ data.Reviewers = res.Reviewers := by
  unfold runIncrementalUpdate GetKarmaData at hrun
  cases hload : Load file with
  | error e =>
    rw [hload] at hrun
    simp at hrun
  | ok karmaData =>
    rw [hload] at hrun
    simp only at hrun
    have hinv := incrLoop_memory_store tbl cfg (initialProcessed file) prs
      { Reviewers := karmaData.Reviewers, file := file, newPRsCount := 0 } hwrites
      ⟨karmaData, hload, rfl⟩
    cases reportWritten with
    | false => simp at hrun
    | true =>
      simp only [if_true, Except.ok.injEq] at hrun
      subst hrun
      exact ⟨rfl, hinv⟩

/-- The store of the test, pull request 2 scored and stored, pull request 3 not stored
because its write fails leaving the file as it was. -/
theorem memory_matches_store_witness :
    (∀ pr ∈ [aliceUnit 2, { aliceUnit 3 with write := .failUnchanged }],
      pr.write = .ok ∨ pr.write = .failUnchanged) ∧
    runIncrementalUpdate id Config.defaultConfig testStore
        (.ok [aliceUnit 2, { aliceUnit 3 with write := .failUnchanged }]) true =
      .ok { Reviewers := [("alice", 6), ("bob", 3)],
            leaderboard := { Reviewers := [⟨"alice", 6⟩, ⟨"bob", 3⟩] },
            file := .json (some [("alice", 6), ("bob", 3)]) 2 (some [(1, 7), (2, 1)]) } ∧
    ∃ data, Load (.json (some [("alice", 6), ("bob", 3)]) 2 (some [(1, 7), (2, 1)]))
        = .ok data ∧
      data.Reviewers = [("alice", 6), ("bob", 3)] :=
  ⟨by decide, rfl,
   (memory_matches_store id Config.defaultConfig testStore
      [aliceUnit 2, { aliceUnit 3 with write := .failUnchanged }] true
      { Reviewers := [("alice", 6), ("bob", 3)],
        leaderboard := { Reviewers := [⟨"alice", 6⟩, ⟨"bob", 3⟩] },
        file := .json (some [("alice", 6), ("bob", 3)]) 2 (some [(1, 7), (2, 1)]) }
      (by decide) rfl).2⟩

/-- C15 fails when a write fails after truncating the file: the store of the test holds
alice 5, bob 3; the update for pull request 2 fails and leaves a file of length 0; the
leaderboard is built from alice 5, bob 3 while `Load` of the store returns no reviewer. -/
theorem truncated_store_differs_from_memory :
    runIncrementalUpdate id Config.defaultConfig testStore (.ok [truncatingUnit]) true =
      .ok { Reviewers := [("alice", 5), ("bob", 3)],
            leaderboard := { Reviewers := [⟨"alice", 5⟩, ⟨"bob", 3⟩] },
            file := .empty } ∧
    Load .empty = .ok { Reviewers := [], LastUpdated := 0, ProcessedPRs := [] } ∧
    ([("alice", 5), ("bob", 3)] : KarmaMap) ≠ [] :=
  ⟨rfl, rfl, by decide⟩

/-- C16: the code does not fall back.  When the first load of the store fails, the run
prints that it starts fresh and calls `Load` again on the same file, which fails again, and
the run ends with `os.Exit(1)` before any pull request is fetched or scored. -/
theorem corrupt_store_exits (tbl : Char → Char) (cfg : Config)
    (fetched : Except String (List WorkUnit)) (reportWritten : Bool) :
    runIncrementalUpdate tbl cfg .malformed fetched reportWritten = .error 1 ∧
    runIncrementalUpdate tbl cfg .unreadable fetched reportWritten = .error 1 :=
  ⟨rfl, rfl⟩

end Main

/-! ## Short bodies and the end-to-end scenario -/

namespace GoStrings

theorem replaceScan_length_le (old new : List Char) (h : new.length ≤ old.length) :
    ∀ (s : List Char) (k : Nat), (replaceScan old new k s).length ≤ s.length - k := by
  intro s
  induction s with
  | nil => intro k; simp [replaceScan]
  | cons c s ih =>
    intro k
    cases k with
    | succ k =>
      simp only [replaceScan, List.length_cons]
      have := ih k
      omega
    | zero =>
      simp only [replaceScan]
      split
      · rename_i hp
        have hlen := ((HasPrefix_iff (c :: s) old).mp hp).length_le
        have := ih (old.length - 1)
        simp only [List.length_append, List.length_cons] at hlen ⊢
        omega
      · have := ih 0
        simp only [List.length_cons]
        omega

theorem ReplaceAll_length_le (s old new : List Char) (h : new.length ≤ old.length) :
    (ReplaceAll s old new).length ≤ s.length := by
  unfold ReplaceAll
  split
  · rename_i hold
    have hold' : old = [] := by simpa using hold
    have hnew : new = [] := by
      rw [hold'] at h
      exact List.length_eq_zero.mp (Nat.le_zero.mp h)
    subst hnew
    have : ∀ l : List Char, (l.flatMap (fun c => [c])).length = l.length := by
      intro l
      induction l with
      | nil => rfl
      | cons a l ih => simp [List.flatMap_cons, ih]
    simp [this]
  · have := replaceScan_length_le old new h s 0
    omega

theorem fieldsScan_length_le (s : List Char) :
    ∀ cur : List Char,
      (fieldsScan cur s).length ≤ s.length + (if cur.isEmpty then 0 else 1) := by
  induction s with
  | nil =>
    intro cur
    simp only [fieldsScan]
    split <;> simp
  | cons c s ih =>
    intro cur
    simp only [fieldsScan]
    split
    · split
      · have := ih []
        simp only [List.length_cons, List.isEmpty_nil, if_true] at this ⊢
        omega
      · have := ih []
        simp only [List.length_cons, List.isEmpty_nil, if_true] at this ⊢
        omega
    · have := ih (c :: cur)
      simp only [List.length_cons, List.isEmpty_cons] at this ⊢
      split <;> simp at this ⊢ <;> omega

theorem Fields_length_le (s : List Char) : (Fields s).length ≤ s.length := by
  have := fieldsScan_length_le s []
  simpa [Fields] using this

end GoStrings

namespace Karma

open GoStrings

theorem stripPhrase_length_le (text : List Char) (phrase : String) :
    (stripPhrase text phrase).length ≤ text.length := by
  unfold stripPhrase
  have h1 := ReplaceAll_length_le text (' ' :: phrase.data ++ [' ']) [' '] (by simp)
  have h2 := ReplaceAll_length_le (ReplaceAll text (' ' :: phrase.data ++ [' ']) [' '])
    (phrase.data ++ [' ']) [' '] (by simp)
  have h3 := ReplaceAll_length_le
    (ReplaceAll (ReplaceAll text (' ' :: phrase.data ++ [' ']) [' ']) (phrase.data ++ [' '])
      [' ']) (' ' :: phrase.data) [' '] (by simp)
  have h4 := ReplaceAll_length_le
    (ReplaceAll (ReplaceAll (ReplaceAll text (' ' :: phrase.data ++ [' ']) [' '])
      (phrase.data ++ [' ']) [' ']) (' ' :: phrase.data) [' ']) phrase.data [] (by simp)
  simp only
  omega

theorem foldl_stripPhrase_length_le (phrases : List String) :
    ∀ text : List Char, (phrases.foldl stripPhrase text).length ≤ text.length := by
  induction phrases with
  | nil => intro text; exact le_refl _
  | cons p ps ih =>
    intro text
    exact le_trans (ih (stripPhrase text p)) (stripPhrase_length_le text p)

/-- A body of at most 10 runes is never constructive. -/
theorem IsConstructiveComment_short (tbl : Char → Char) (text : String)
    (h : text.data.length ≤ 10) : IsConstructiveComment tbl text = false := by
  unfold IsConstructiveComment
  split
  · rfl
  · have h1 := foldl_stripPhrase_length_le nonConstructive (ToLower tbl text.data)
    have h2 := Fields_length_le (nonConstructive.foldl stripPhrase (ToLower tbl text.data))
    have h3 : (ToLower tbl text.data).length = text.data.length := by simp [ToLower]
    simp only [gt_iff_lt, decide_eq_false_iff_not, not_lt]
    omega

end Karma

namespace Main

open Karma Storage

/-- One review whose body is the thumbs-up emoji U+1F44D, by a non-bot author, gives that
author the review points alone: the emoji is not a key of `positiveEmojis`. -/
theorem calculatePRKarma_thumbs_up (tbl : Char → Char) (cfg : Config) (author : String)
    (hb : IsBot tbl author = false) :
    calculatePRKarma tbl cfg (.ok [⟨author, "👍"⟩]) (.ok []) =
      [(author, wrapInt (0 + cfg.ReviewPoint))] := by
  have he : HasPositiveEmoji "👍" = false := by decide
  have hc : IsConstructiveComment tbl "👍" = false :=
    IsConstructiveComment_short tbl "👍" (by decide)
  simp [calculatePRKarma, scoreReview, hb, he, hc, KarmaMap.add]

/-- One review whose body is the first key of `positiveEmojis`, by a non-bot author, gives
that author the review points plus the emoji points. -/
theorem calculatePRKarma_thumbsUpKey (tbl : Char → Char) (cfg : Config) (author : String)
    (hb : IsBot tbl author = false) :
    calculatePRKarma tbl cfg (.ok [⟨author, thumbsUpKey⟩]) (.ok []) =
      [(author, wrapInt (wrapInt (0 + cfg.ReviewPoint) + cfg.PositiveEmojiPoint))] := by
  have he : HasPositiveEmoji thumbsUpKey = true := by decide
  have hc : IsConstructiveComment tbl thumbsUpKey = false :=
    IsConstructiveComment_short tbl thumbsUpKey (by decide)
  simp [calculatePRKarma, scoreReview, hb, he, hc, KarmaMap.add]

/-- On the empty map the loop body of `runFullRecreation` computes what `calculatePRKarma`
returns. -/
theorem fullStep_nil (tbl : Char → Char) (cfg : Config) (pr : WorkUnit) :
    fullStep tbl cfg [] pr = calculatePRKarma tbl cfg pr.reviews pr.comments := by
  unfold fullStep calculatePRKarma
  rfl

/-- C20: the end-to-end scenario diverges from the code.  The keys of `positiveEmojis` in
karma.go are not emoji, so the thumbs-up emoji U+1F44D is not a positive emoji for the
code: one pull request with one review by `alice` whose body is the thumbs up, no comments,
schedule 1, 2, 1, gives alice 1 and the leaderboard with the single entry alice 1 in both
run modes, and for any schedule and non-bot author the total is the review points alone.
The total 3 comes out only when the body is the key that the file holds. -/
theorem end_to_end_thumbs_up (tbl : Char → Char) :
    HasPositiveEmoji "👍" = false ∧
    IsConstructiveComment tbl "👍" = false ∧
    (∀ (cfg : Config) (author : String), IsBot tbl author = false →
      (calculatePRKarma tbl cfg (.ok [⟨author, "👍"⟩]) (.ok [])).keys = [author] ∧
      (calculatePRKarma tbl cfg (.ok [⟨author, "👍"⟩]) (.ok [])).get author =
        wrapInt cfg.ReviewPoint ∧
      (minInt ≤ cfg.ReviewPoint → cfg.ReviewPoint ≤ maxInt →
        (calculatePRKarma tbl cfg (.ok [⟨author, "👍"⟩]) (.ok [])).get author =
          cfg.ReviewPoint)) ∧
    calculatePRKarma tbl Config.defaultConfig (.ok [⟨"alice", "👍"⟩]) (.ok [])
      = [("alice", 1)] ∧
    fullTotals tbl Config.defaultConfig [thumbsUpUnit] = [("alice", 1)] ∧
    GenerateLeaderboard [("alice", 1)] = { Reviewers := [⟨"alice", 1⟩] } ∧
    runFullRecreation tbl Config.defaultConfig (.ok [thumbsUpUnit]) true =
      .ok { Reviewers := [⟨"alice", 1⟩] } ∧
    runIncrementalUpdate tbl Config.defaultConfig .notExist (.ok [thumbsUpUnit]) true =
      .ok { Reviewers := [("alice", 1)], leaderboard := { Reviewers := [⟨"alice", 1⟩] },
            file := .json (some [("alice", 1)]) 2 (some [(1, 1)]) } ∧
    HasPositiveEmoji thumbsUpKey = true ∧
    calculatePRKarma tbl Config.defaultConfig (.ok [⟨"alice", thumbsUpKey⟩]) (.ok [])
      = [("alice", 3)] := by
  have halice : calculatePRKarma tbl Config.defaultConfig (.ok [⟨"alice", "👍"⟩]) (.ok [])
      = [("alice", 1)] := by
    rw [calculatePRKarma_thumbs_up tbl Config.defaultConfig "alice" rfl]
    decide
  have hkey : calculatePRKarma tbl Config.defaultConfig (.ok [⟨"alice", thumbsUpKey⟩])
      (.ok []) = [("alice", 3)] := by
    rw [calculatePRKarma_thumbsUpKey tbl Config.defaultConfig "alice" rfl]
    decide
  have hfull : fullTotals tbl Config.defaultConfig [thumbsUpUnit] = [("alice", 1)] := by
    simp only [fullTotals, List.foldl_cons, List.foldl_nil, fullStep_nil]
    exact halice
  refine ⟨by decide, IsConstructiveComment_short tbl "👍" (by decide), ?_, halice, hfull,
    by decide, ?_, ?_, by decide, hkey⟩
  · intro cfg author hb
    rw [calculatePRKarma_thumbs_up tbl cfg author hb]
    have hget : KarmaMap.get [(author, wrapInt (0 + cfg.ReviewPoint))] author =
        wrapInt cfg.ReviewPoint := by
      rw [KarmaMap.get_cons, if_pos rfl, Int.zero_add]
    exact ⟨rfl, hget, fun h1 h2 => by rw [hget, wrapInt_of_range h1 h2]⟩
  · simp only [runFullRecreation, hfull]
    rfl
  · have hstep : incrLoop tbl Config.defaultConfig (initialProcessed .notExist)
        { Reviewers := [], file := .notExist, newPRsCount := 0 } [thumbsUpUnit] =
        { Reviewers := [("alice", 1)], file := .json (some [("alice", 1)]) 2 (some [(1, 1)]),
          newPRsCount := 1 } := by
      have hcalc : calculatePRKarma tbl Config.defaultConfig thumbsUpUnit.reviews
          thumbsUpUnit.comments = [("alice", 1)] := halice
      simp only [incrLoop, List.foldl_cons, List.foldl_nil, incrStep, hcalc]
      decide
    simp only [runIncrementalUpdate, GetKarmaData, Load, hstep]
    rfl

/-- The schedule 3, 5, 2 and the author `bob`: a review with the thumbs up gives 3, the
review points alone. -/
theorem end_to_end_thumbs_up_witness :
    IsBot id "bob" = false ∧
    (calculatePRKarma id
      { ReviewPoint := 3, PositiveEmojiPoint := 5, ConstructiveCommentPoint := 2,
        IncrementalUpdate := false } (.ok [⟨"bob", "👍"⟩]) (.ok [])).get "bob" = 3 :=
  ⟨by decide,
   ((end_to_end_thumbs_up id).2.2.1
      { ReviewPoint := 3, PositiveEmojiPoint := 5, ConstructiveCommentPoint := 2,
        IncrementalUpdate := false } "bob" (by decide)).2.2 (by decide) (by decide)⟩

end Main

/-! ## The configuration -/

namespace Config

open GoStrconv

theorem Atoi_empty : Atoi "" = none := by decide

/-- The three points `Load` returns: each is the integer its own variable parses to, or
the default. -/
theorem Load_points (tbl : Char → Char) (getenv : String → String) :
    (Load tbl getenv).ReviewPoint = (Atoi (getenv "REVIEW_POINT")).getD 1 ∧
    (Load tbl getenv).PositiveEmojiPoint = (Atoi (getenv "POSITIVE_EMOJI_POINT")).getD 2 ∧
    (Load tbl getenv).ConstructiveCommentPoint =
      (Atoi (getenv "CONSTRUCTIVE_COMMENT_POINT")).getD 1 := by
  unfold Load
  refine ⟨?_, ?_, ?_⟩
  · by_cases h : getenv "REVIEW_POINT" = ""
    · simp only [h, ne_eq, not_true_eq_false, if_false, Atoi_empty]
      split <;> split <;> split <;> (try split) <;> (try split) <;> rfl
    · cases ha : Atoi (getenv "REVIEW_POINT") <;>
        simp only [ne_eq, h, not_false_eq_true, if_true, ha] <;>
        split <;> split <;> split <;> (try split) <;> (try split) <;> rfl
  · by_cases h : getenv "POSITIVE_EMOJI_POINT" = ""
    · simp only [h, ne_eq, not_true_eq_false, if_false, Atoi_empty]
      split <;> split <;> split <;> (try split) <;> (try split) <;> rfl
    · cases ha : Atoi (getenv "POSITIVE_EMOJI_POINT") <;>
        simp only [ne_eq, h, not_false_eq_true, if_true, ha] <;>
        split <;> split <;> split <;> (try split) <;> (try split) <;> rfl
  · by_cases h : getenv "CONSTRUCTIVE_COMMENT_POINT" = ""
    · simp only [h, ne_eq, not_true_eq_false, if_false, Atoi_empty]
      split <;> split <;> split <;> (try split) <;> (try split) <;> rfl
    · cases ha : Atoi (getenv "CONSTRUCTIVE_COMMENT_POINT") <;>
        simp only [ne_eq, h, not_false_eq_true, if_true, ha] <;>
        split <;> split <;> split <;> (try split) <;> (try split) <;> rfl

/-- C21: `Load` returns the schedule 1, 2, 1 when none of the three variables is set; for
each variable on its own, a value that `strconv.Atoi` parses replaces the field and an
empty or malformed value leaves the field at its default, whatever the other variables
hold; `"3"`, `"5"`, `"2"` give 3, 5, 2. -/
theorem Load_schedule (tbl : Char → Char) :
    (∀ getenv : String → String,
      getenv "REVIEW_POINT" = "" → getenv "POSITIVE_EMOJI_POINT" = "" →
      getenv "CONSTRUCTIVE_COMMENT_POINT" = "" →
      (Load tbl getenv).ReviewPoint = 1 ∧ (Load tbl getenv).PositiveEmojiPoint = 2 ∧
        (Load tbl getenv).ConstructiveCommentPoint = 1) ∧
    (∀ (getenv : String → String) (points : Int),
      (Atoi (getenv "REVIEW_POINT") = some points →
        (Load tbl getenv).ReviewPoint = points) ∧
      (Atoi (getenv "POSITIVE_EMOJI_POINT") = some points →
        (Load tbl getenv).PositiveEmojiPoint = points) ∧
      (Atoi (getenv "CONSTRUCTIVE_COMMENT_POINT") = some points →
        (Load tbl getenv).ConstructiveCommentPoint = points)) ∧
    (∀ getenv : String → String,
      (Atoi (getenv "REVIEW_POINT") = none → (Load tbl getenv).ReviewPoint = 1) ∧
      (Atoi (getenv "POSITIVE_EMOJI_POINT") = none →
        (Load tbl getenv).PositiveEmojiPoint = 2) ∧
      (Atoi (getenv "CONSTRUCTIVE_COMMENT_POINT") = none →
        (Load tbl getenv).ConstructiveCommentPoint = 1)) ∧
    Atoi "" = none ∧ Atoi "abc" = none ∧ Atoi "1.5" = none ∧
    Atoi "3" = some 3 ∧ Atoi "5" = some 5 ∧ Atoi "2" = some 2 ∧
    ((Load tbl (scheduleEnv "3" "5" "2")).ReviewPoint = 3 ∧
      (Load tbl (scheduleEnv "3" "5" "2")).PositiveEmojiPoint = 5 ∧
      (Load tbl (scheduleEnv "3" "5" "2")).ConstructiveCommentPoint = 2) ∧
    ((Load tbl (scheduleEnv "abc" "" "7")).ReviewPoint = 1 ∧
      (Load tbl (scheduleEnv "abc" "" "7")).PositiveEmojiPoint = 2 ∧
      (Load tbl (scheduleEnv "abc" "" "7")).ConstructiveCommentPoint = 7) := by
  refine ⟨?_, ?_, ?_, by decide, by decide, by decide, by decide, by decide, by decide,
    ?_, ?_⟩
  · intro getenv h1 h2 h3
    obtain ⟨p1, p2, p3⟩ := Load_points tbl getenv
    rw [p1, p2, p3, h1, h2, h3, Atoi_empty]
    exact ⟨rfl, rfl, rfl⟩
  · intro getenv points
    obtain ⟨p1, p2, p3⟩ := Load_points tbl getenv
    exact ⟨fun h => by rw [p1, h]; rfl, fun h => by rw [p2, h]; rfl,
      fun h => by rw [p3, h]; rfl⟩
  · intro getenv
    obtain ⟨p1, p2, p3⟩ := Load_points tbl getenv
    exact ⟨fun h => by rw [p1, h]; rfl, fun h => by rw [p2, h]; rfl,
      fun h => by rw [p3, h]; rfl⟩
  · obtain ⟨p1, p2, p3⟩ := Load_points tbl (scheduleEnv "3" "5" "2")
    rw [p1, p2, p3]
    decide
  · obtain ⟨p1, p2, p3⟩ := Load_points tbl (scheduleEnv "abc" "" "7")
    rw [p1, p2, p3]
    decide

/-- The environment of `TestLoadConfigWithEnvironment`, read through the general
statement: `REVIEW_POINT=3` parses to 3 and replaces the review points. -/
theorem Load_schedule_witness :
    Atoi (scheduleEnv "3" "5" "2" "REVIEW_POINT") = some 3 ∧
    (Load id (scheduleEnv "3" "5" "2")).ReviewPoint = 3 ∧
    Atoi (scheduleEnv "3" "oops" "2" "POSITIVE_EMOJI_POINT") = none ∧
    (Load id (scheduleEnv "3" "oops" "2")).PositiveEmojiPoint = 2 :=
  ⟨by decide,
   ((Load_schedule id).2.1 (scheduleEnv "3" "5" "2") 3).1 (by decide),
   by decide,
   ((Load_schedule id).2.2.1 (scheduleEnv "3" "oops" "2")).2.1 (by decide)⟩

end Config

/-! ## What the phrase stripping removes -/

namespace Karma

open GoStrings

/-- C23: the stripping removes phrases inside longer words, against the comment "Only
remove exact matches or standalone words": the last of the four replacements deletes every
occurrence of the phrase, so `goodness` becomes `ness`, `nicely` becomes `ly`, the word
`nicegood` disappears, and an 11-word comment holding that word is not constructive. -/
theorem stripping_removes_substrings (tbl : Char → Char) :
    nonConstructive.foldl stripPhrase (ToLower tbl "goodness".data) = "ness".data ∧
    nonConstructive.foldl stripPhrase (ToLower tbl "nicely".data) = "ly".data ∧
    (Fields (nonConstructive.foldl stripPhrase
        (ToLower tbl "such goodness and nicely done".data))).map String.mk =
      ["such", "ness", "and", "ly", "done"] ∧
    (Fields (nonConstructive.foldl stripPhrase
        (ToLower tbl "these nicegood helpers".data))).map String.mk =
      ["these", "helpers"] ∧
    (Fields
      "we should really rename these nicegood helpers before merging this change".data).length
      = 11 ∧
    IsConstructiveComment tbl
      "we should really rename these nicegood helpers before merging this change" = false := by
  have h1 : ToLower tbl "goodness".data = ToLower id "goodness".data :=
    ToLower_ascii tbl _ (by decide)
  have h2 : ToLower tbl "nicely".data = ToLower id "nicely".data :=
    ToLower_ascii tbl _ (by decide)
  have h3 : ToLower tbl "such goodness and nicely done".data =
      ToLower id "such goodness and nicely done".data := ToLower_ascii tbl _ (by decide)
  have h4 : ToLower tbl "these nicegood helpers".data =
      ToLower id "these nicegood helpers".data := ToLower_ascii tbl _ (by decide)
  have h5 : ToLower tbl
      "we should really rename these nicegood helpers before merging this change".data =
      ToLower id
        "we should really rename these nicegood helpers before merging this change".data :=
    ToLower_ascii tbl _ (by decide)
  refine ⟨?_, ?_, ?_, ?_, by decide, ?_⟩
  · rw [h1]; decide
  · rw [h2]; decide
  · rw [h3]; decide
  · rw [h4]; decide
  · unfold IsConstructiveComment
    rw [if_neg (by decide)]
    simp only [h5]
    decide

end Karma

/-! ## A failed fetch still marks the pull request processed -/

namespace Main

open Karma Storage

theorem mem_initialProcessed (file : StoreFile) (n : Int) :
    n ∈ initialProcessed file ↔
      ∃ data, Load file = .ok data ∧ n ∈ data.ProcessedPRs.map Prod.fst := by
  unfold initialProcessed
  cases hl : Load file with
  | error e =>
    have : GetProcessedPRs file = .error e := by unfold GetProcessedPRs; rw [hl]
    rw [this]
    simp
  | ok data =>
    obtain ⟨ids, hids⟩ := GetProcessedPRs_of_Load file data hl
    rw [hids]
    simp only [Except.ok.injEq, exists_eq_left']
    exact mem_GetProcessedPRs file data hl ids hids n

/-- A loop body whose write succeeds or leaves the file as it was keeps every number that
is in the processed set of the store. -/
theorem incrStep_keeps_processed (tbl : Char → Char) (cfg : Config) (processedPRs : List Int)
    (s : IncrState) (pr : WorkUnit) (n : Int)
    (hw : pr.write = .ok ∨ pr.write = .failUnchanged)
    (hn : n ∈ initialProcessed s.file) :
    n ∈ initialProcessed (incrStep tbl cfg processedPRs s pr).file := by
  obtain ⟨data, hload, hmem⟩ := (mem_initialProcessed s.file n).mp hn
  unfold incrStep
  split
  · exact hn
  · rcases hw with hw | hw
    · simp only [UpdateKarma, hload, hw, Save]
      rw [mem_initialProcessed]
      exact ⟨_, rfl, (mem_keys_setTime _ _ _ n).mpr (Or.inl hmem)⟩
    · simp only [UpdateKarma, hload, hw, Save]
      exact hn

theorem incrLoop_keeps_processed (tbl : Char → Char) (cfg : Config) (processedPRs : List Int)
    (n : Int) (post : List WorkUnit) :
    ∀ s : IncrState, (∀ p ∈ post, p.write = .ok ∨ p.write = .failUnchanged) →
      n ∈ initialProcessed s.file →
      n ∈ initialProcessed (incrLoop tbl cfg processedPRs s post).file := by
  induction post with
  | nil => intro s _ hn; exact hn
  | cons p rest ih =>
    intro s hw hn
    exact ih (incrStep tbl cfg processedPRs s p)
      (fun q hq => hw q (List.mem_cons_of_mem _ hq))
      (incrStep_keeps_processed tbl cfg processedPRs s p n (hw p (List.mem_cons_self _ _)) hn)

/-- C25, amended: in incremental mode a pull request that is not in the processed set read
before the loop and whose review fetch fails gets the empty delta and is passed to
`UpdateKarma`; when that update succeeds no reviewer total changes, in memory or in the
store, and its number is in the processed set of the store; it stays there to the end of
the run provided every later write of the run succeeds or leaves the file as it was, and a
later run that reads such a store skips every pull request with that number, whatever its
fetches would return. -/
theorem failed_fetch_marks_processed (tbl : Char → Char) (cfg : Config)
    (processedPRs : List Int) (s : IncrState) (pr : WorkUnit) (e : String)
    (hnew : pr.Number ∉ processedPRs) (hfetch : pr.reviews = .error e)
    (hok : (UpdateKarma s.file pr.Number [] pr.markTime pr.saveTime pr.write).err = none) :
    calculatePRKarma tbl cfg pr.reviews pr.comments = [] ∧
    (incrStep tbl cfg processedPRs s pr).Reviewers = s.Reviewers ∧
    (incrStep tbl cfg processedPRs s pr).file =
      (UpdateKarma s.file pr.Number [] pr.markTime pr.saveTime pr.write).file ∧
    (∃ before after, Load s.file = .ok before ∧
      Load (incrStep tbl cfg processedPRs s pr).file = .ok after ∧
      after.Reviewers = before.Reviewers) ∧
    pr.Number ∈ initialProcessed (incrStep tbl cfg processedPRs s pr).file ∧
    (∀ post : List WorkUnit, (∀ p ∈ post, p.write = .ok ∨ p.write = .failUnchanged) →
      pr.Number ∈ initialProcessed
        (incrLoop tbl cfg processedPRs (incrStep tbl cfg processedPRs s pr) post).file) ∧
    (∀ (file : StoreFile) (s2 : IncrState) (later : WorkUnit),
      pr.Number ∈ initialProcessed file → later.Number = pr.Number →
      incrStep tbl cfg (initialProcessed file) s2 later = s2) := by
  have hcalc : calculatePRKarma tbl cfg pr.reviews pr.comments = [] := by
    rw [hfetch]; rfl
  obtain ⟨before, hbefore, hfile⟩ :=
    UpdateKarma_ok s.file pr.Number [] pr.markTime pr.saveTime pr.write hok
  have hstep : incrStep tbl cfg processedPRs s pr =
      { s with newPRsCount := s.newPRsCount + 1,
               file := (UpdateKarma s.file pr.Number [] pr.markTime pr.saveTime pr.write).file }
      := by
    unfold incrStep
    rw [if_neg hnew]
    simp only [hcalc, hok, merge_nil]
  have hmem : pr.Number ∈ initialProcessed (incrStep tbl cfg processedPRs s pr).file := by
    rw [hstep]
    simp only [hfile]
    rw [mem_initialProcessed]
    exact ⟨_, rfl, (mem_keys_setTime _ _ _ _).mpr (Or.inr rfl)⟩
  refine ⟨hcalc, by rw [hstep], by rw [hstep], ?_, hmem, ?_, ?_⟩
  · refine Exists.intro before (Exists.intro
      (KarmaData.mk before.Reviewers pr.saveTime
        (setTime before.ProcessedPRs pr.Number pr.markTime)) ⟨hbefore, ?_, rfl⟩)
    rw [hstep]
    simp only [hfile]
    rfl
  · intro post hpost
    exact incrLoop_keeps_processed tbl cfg processedPRs pr.Number post _ hpost hmem
  · intro file s2 later hin hnum
    unfold incrStep
    rw [if_pos (hnum ▸ hin)]

/-- The store of the test, then pull request 4 whose reviews cannot be fetched, then pull
request 2: 4 is marked processed, alice and bob keep 5 and 3 until pull request 2 is
scored, and a later run skips pull request 4 although its review could now be fetched. -/
theorem failed_fetch_marks_processed_witness :
    unfetchedUnit.Number ∉ initialProcessed testStore ∧
    unfetchedUnit.reviews = .error "reviews unavailable" ∧
    (UpdateKarma testStore unfetchedUnit.Number [] unfetchedUnit.markTime
      unfetchedUnit.saveTime unfetchedUnit.write).err = none ∧
    (incrStep id Config.defaultConfig (initialProcessed testStore)
      { Reviewers := [("alice", 5), ("bob", 3)], file := testStore, newPRsCount := 0 }
      unfetchedUnit).Reviewers = [("alice", 5), ("bob", 3)] ∧
    (4 : Int) ∈ initialProcessed
      (incrLoop id Config.defaultConfig (initialProcessed testStore)
        (incrStep id Config.defaultConfig (initialProcessed testStore)
          { Reviewers := [("alice", 5), ("bob", 3)], file := testStore, newPRsCount := 0 }
          unfetchedUnit) [aliceUnit 2]).file ∧
    incrStep id Config.defaultConfig
        (initialProcessed (.json (some [("alice", 5), ("bob", 3)]) 4 (some [(1, 7), (4, 3)])))
        freshState laterUnit = freshState :=
  ⟨by decide, rfl, by decide,
   (failed_fetch_marks_processed id Config.defaultConfig (initialProcessed testStore)
      { Reviewers := [("alice", 5), ("bob", 3)], file := testStore, newPRsCount := 0 }
      unfetchedUnit "reviews unavailable" (by decide) rfl (by decide)).2.1,
   (failed_fetch_marks_processed id Config.defaultConfig (initialProcessed testStore)
      { Reviewers := [("alice", 5), ("bob", 3)], file := testStore, newPRsCount := 0 }
      unfetchedUnit "reviews unavailable" (by decide) rfl (by decide)).2.2.2.2.2.1
      [aliceUnit 2] (by decide),
   (failed_fetch_marks_processed id Config.defaultConfig (initialProcessed testStore)
      { Reviewers := [("alice", 5), ("bob", 3)], file := testStore, newPRsCount := 0 }
      unfetchedUnit "reviews unavailable" (by decide) rfl (by decide)).2.2.2.2.2.2
      (.json (some [("alice", 5), ("bob", 3)]) 4 (some [(1, 7), (4, 3)])) freshState laterUnit
      (by decide) rfl⟩

/-- C25 fails when a later write of the same run fails after truncating the file: on the
store of the test, pull request 4 (review fetch fails, store update succeeds) is recorded
as processed, then the update for pull request 5 leaves a file of length 0; after the run
the processed set of the store is empty, and the next run fetches pull request 4 and
scores its review. -/
theorem later_truncation_forgets_processed :
    unfetchedUnit.reviews = .error "reviews unavailable" ∧
    (UpdateKarma testStore unfetchedUnit.Number [] unfetchedUnit.markTime
      unfetchedUnit.saveTime unfetchedUnit.write).err = none ∧
    initialProcessed (incrStep id Config.defaultConfig (initialProcessed testStore)
      { Reviewers := [("alice", 5), ("bob", 3)], file := testStore, newPRsCount := 0 }
      unfetchedUnit).file = [1, 4] ∧
    runIncrementalUpdate id Config.defaultConfig testStore
        (.ok [unfetchedUnit, laterTruncatingUnit]) true =
      .ok { Reviewers := [("alice", 5), ("bob", 3)],
            leaderboard := { Reviewers := [⟨"alice", 5⟩, ⟨"bob", 3⟩] },
            file := .empty } ∧
    initialProcessed .empty = [] ∧
    runIncrementalUpdate id Config.defaultConfig .empty (.ok [laterUnit]) true =
      .ok { Reviewers := [("alice", 1)],
            leaderboard := { Reviewers := [⟨"alice", 1⟩] },
            file := .json (some [("alice", 1)]) 6 (some [(4, 5)]) } :=
  ⟨rfl, by decide, by decide, rfl, rfl, rfl⟩

end Main

/-! ## Full recreation against incremental update on a fresh store -/

namespace Main

open Karma Storage

theorem wrapInt_add_right (a b : Int) : wrapInt (a + wrapInt b) = wrapInt (a + b) := by
  rw [Int.add_comm, wrapInt_add_left, Int.add_comm]

theorem get_scoreReview_bot (tbl : Char → Char) (cfg : Config) (m : KarmaMap) (ev : Event)
    (u : String) (hu : IsBot tbl u = true) : (scoreReview tbl cfg m ev).get u = m.get u := by
  unfold scoreReview
  by_cases hl : ev.Login = u
  · subst hl
    simp [hu]
  · have hne : ¬ u = ev.Login := fun e => hl e.symm
    cases hb : IsBot tbl ev.Login <;> cases he : HasPositiveEmoji ev.Body <;>
      cases hc : IsConstructiveComment tbl ev.Body <;> simp [KarmaMap.get_add, hne, hb]

theorem get_scoreComment_bot (tbl : Char → Char) (cfg : Config) (m : KarmaMap) (ev : Event)
    (u : String) (hu : IsBot tbl u = true) : (scoreComment tbl cfg m ev).get u = m.get u := by
  unfold scoreComment
  by_cases hl : ev.Login = u
  · subst hl
    simp [hu]
  · have hne : ¬ u = ev.Login := fun e => hl e.symm
    cases hb : IsBot tbl ev.Login <;> cases he : HasPositiveEmoji ev.Body <;>
      cases hc : IsConstructiveComment tbl ev.Body <;> simp [KarmaMap.get_add, hne, hb]

/-- A fold whose step adds a gain that does not depend on the map gives, from any map with
`int` values, the start value plus what the fold gives from the empty map. -/
theorem get_foldl_from (step : KarmaMap → Event → KarmaMap) (g : Event → Int) (u : String)
    (hstep : ∀ m ev, wrapInt (m.get u) = m.get u →
      (step m ev).get u = wrapInt (m.get u + g ev))
    (events : List Event) (m : KarmaMap) (hm : wrapInt (m.get u) = m.get u) :
    (events.foldl step m).get u = wrapInt (m.get u + (events.foldl step []).get u) := by
  have h0 : wrapInt (KarmaMap.get [] u) = KarmaMap.get [] u := by
    rw [KarmaMap.get_nil]; rfl
  rw [get_foldl_gain step g u hstep events m hm, get_foldl_gain step g u hstep events [] h0,
    KarmaMap.get_nil, Int.zero_add, wrapInt_add_right]

theorem get_foldl_scoreReview_from (tbl : Char → Char) (cfg : Config) (u : String)
    (events : List Event) (m : KarmaMap) (hm : wrapInt (m.get u) = m.get u) :
    (events.foldl (scoreReview tbl cfg) m).get u =
      wrapInt (m.get u + (events.foldl (scoreReview tbl cfg) []).get u) := by
  cases hb : IsBot tbl u with
  | true =>
    exact get_foldl_from (scoreReview tbl cfg) (fun _ => 0) u
      (fun m ev h => by rw [get_scoreReview_bot tbl cfg m ev u hb, Int.add_zero, h]) events m hm
  | false =>
    exact get_foldl_from (scoreReview tbl cfg) _ u
      (fun m ev h => get_scoreReview tbl cfg m ev u hb h) events m hm

theorem get_foldl_scoreComment_from (tbl : Char → Char) (cfg : Config) (u : String)
    (events : List Event) (m : KarmaMap) (hm : wrapInt (m.get u) = m.get u) :
    (events.foldl (scoreComment tbl cfg) m).get u =
      wrapInt (m.get u + (events.foldl (scoreComment tbl cfg) []).get u) := by
  cases hb : IsBot tbl u with
  | true =>
    exact get_foldl_from (scoreComment tbl cfg) (fun _ => 0) u
      (fun m ev h => by rw [get_scoreComment_bot tbl cfg m ev u hb, Int.add_zero, h]) events m hm
  | false =>
    exact get_foldl_from (scoreComment tbl cfg) _ u
      (fun m ev h => get_scoreComment tbl cfg m ev u hb h) events m hm

theorem has_foldl_from (step : KarmaMap → Event → KarmaMap) (t : Event → Bool) (u : String)
    (hstep : ∀ m ev, (step m ev).has u = (m.has u || t ev))
    (events : List Event) (m : KarmaMap) :
    (events.foldl step m).has u = (m.has u || (events.foldl step []).has u) := by
  have hnil : KarmaMap.has [] u = false := rfl
  rw [has_foldl_any step t u hstep events m, has_foldl_any step t u hstep events [], hnil,
    Bool.false_or]

theorem wrapped_nil (u : String) : wrapInt (KarmaMap.get [] u) = KarmaMap.get [] u := by
  rw [KarmaMap.get_nil]; rfl

/-- The loop body of `runFullRecreation` adds to each total what `calculatePRKarma` returns
for the unit. -/
theorem get_fullStep (tbl : Char → Char) (cfg : Config) (m : KarmaMap) (pr : WorkUnit)
    (u : String) (hm : wrapInt (m.get u) = m.get u) :
    (fullStep tbl cfg m pr).get u =
      wrapInt (m.get u + (calculatePRKarma tbl cfg pr.reviews pr.comments).get u) := by
  unfold fullStep calculatePRKarma
  cases pr.reviews with
  | error e => simp only [KarmaMap.get_nil, Int.add_zero, hm]
  | ok reviews =>
    cases pr.comments with
    | error e => exact get_foldl_scoreReview_from tbl cfg u reviews m hm
    | ok comments =>
      simp only
      have h1 := get_foldl_scoreReview_from tbl cfg u reviews m hm
      have hw1 : wrapInt ((reviews.foldl (scoreReview tbl cfg) m).get u) =
          (reviews.foldl (scoreReview tbl cfg) m).get u := by rw [h1, wrapInt_idem]
      have hw0 : wrapInt ((reviews.foldl (scoreReview tbl cfg) []).get u) =
          (reviews.foldl (scoreReview tbl cfg) []).get u := by
        rw [get_foldl_scoreReview_from tbl cfg u reviews [] (wrapped_nil u), wrapInt_idem]
      rw [get_foldl_scoreComment_from tbl cfg u comments _ hw1,
        get_foldl_scoreComment_from tbl cfg u comments
          (reviews.foldl (scoreReview tbl cfg) []) hw0, h1, wrapInt_add_left,
        wrapInt_add_right, Int.add_assoc]

theorem has_fullStep (tbl : Char → Char) (cfg : Config) (m : KarmaMap) (pr : WorkUnit)
    (u : String) :
    (fullStep tbl cfg m pr).has u =
      (m.has u || (calculatePRKarma tbl cfg pr.reviews pr.comments).has u) := by
  have hnil : KarmaMap.has [] u = false := rfl
  unfold fullStep calculatePRKarma
  cases pr.reviews with
  | error e => simp only [hnil, Bool.or_false]
  | ok reviews =>
    have hr := has_foldl_from (scoreReview tbl cfg) _ u (has_scoreReview tbl cfg · · u) reviews
    cases pr.comments with
    | error e => exact hr m
    | ok comments =>
      simp only
      have hc := has_foldl_from (scoreComment tbl cfg) _ u (has_scoreComment tbl cfg · · u)
        comments
      rw [hc (reviews.foldl (scoreReview tbl cfg) m),
        hc (reviews.foldl (scoreReview tbl cfg) []), hr m, Bool.or_assoc]

/-- With an empty processed set and writes that succeed, the loop of
`runIncrementalUpdate` keeps its in-memory totals equal, as a map, to the totals the loop
of `runFullRecreation` has after the same units. -/
theorem incrLoop_matches_full (tbl : Char → Char) (cfg : Config) (prs : List WorkUnit) :
    ∀ (s : IncrState) (m : KarmaMap), (∀ pr ∈ prs, pr.write = .ok) →
      (∃ data, Load s.file = .ok data) → SameTotals s.Reviewers m →
      (∀ u, wrapInt (m.get u) = m.get u) →
      SameTotals (incrLoop tbl cfg [] s prs).Reviewers (prs.foldl (fullStep tbl cfg) m) := by
  induction prs with
  | nil => intro s m _ _ hsame _; exact hsame
  | cons pr rest ih =>
    intro s m hw hload hsame hwrapped
    obtain ⟨data, hdata⟩ := hload
    have hwrite : pr.write = .ok := hw pr (List.mem_cons_self _ _)
    have hstep : incrStep tbl cfg [] s pr =
        { Reviewers := s.Reviewers.merge (calculatePRKarma tbl cfg pr.reviews pr.comments),
          file := .json
            (some (data.Reviewers.merge (calculatePRKarma tbl cfg pr.reviews pr.comments)))
            pr.saveTime (some (setTime data.ProcessedPRs pr.Number pr.markTime)),
          newPRsCount := s.newPRsCount + 1 } := by
      unfold incrStep
      rw [if_neg (List.not_mem_nil _)]
      simp only [UpdateKarma, hdata, hwrite, Save]
    simp only [incrLoop, List.foldl_cons] at ih ⊢
    rw [hstep]
    refine ih _ (fullStep tbl cfg m pr) (fun p hp => hw p (List.mem_cons_of_mem _ hp))
      ⟨_, rfl⟩ ?_ ?_
    · intro k
      constructor
      · rw [KarmaMap.has_merge, has_fullStep, (hsame k).1]
      · have hk : wrapInt (s.Reviewers.get k) = s.Reviewers.get k := by
          rw [(hsame k).2]; exact hwrapped k
        rw [get_merge_wrapped _ _ (nodup_calculatePRKarma tbl cfg _ _) k hk,
          get_fullStep tbl cfg m pr k (hwrapped k), (hsame k).2]
    · intro u
      rw [get_fullStep tbl cfg m pr u (hwrapped u), wrapInt_idem]

/-- C26: on a store that starts empty and with every store update succeeding,
`runIncrementalUpdate` builds its leaderboard from totals with the same usernames and the
same points as the totals `runFullRecreation` builds its leaderboard from, for every
schedule, every fetched list and every outcome of the review and comment fetches. -/
theorem incremental_agrees_with_full (tbl : Char → Char) (cfg : Config) (file : StoreFile)
    (t0 : Time) (prs : List WorkUnit)
    (hfresh : Load file = .ok { Reviewers := [], LastUpdated := t0, ProcessedPRs := [] })
    (hwrites : ∀ pr ∈ prs, pr.write = .ok) :
    ∃ res, runIncrementalUpdate tbl cfg file (.ok prs) true = .ok res ∧
      res.leaderboard = GenerateLeaderboard res.Reviewers ∧
      runFullRecreation tbl cfg (.ok prs) true =
        .ok (GenerateLeaderboard (fullTotals tbl cfg prs)) ∧
      SameTotals res.Reviewers (fullTotals tbl cfg prs) := by
  have hproc : initialProcessed file = [] := by
    unfold initialProcessed GetProcessedPRs
    rw [hfresh]
    rfl
  have hrun : runIncrementalUpdate tbl cfg file (.ok prs) true =
      .ok { Reviewers := (incrLoop tbl cfg []
              { Reviewers := [], file := file, newPRsCount := 0 } prs).Reviewers,
            leaderboard := GenerateLeaderboard (incrLoop tbl cfg []
              { Reviewers := [], file := file, newPRsCount := 0 } prs).Reviewers,
            file := (incrLoop tbl cfg []
              { Reviewers := [], file := file, newPRsCount := 0 } prs).file } := by
    unfold runIncrementalUpdate GetKarmaData
    rw [hfresh, hproc]
    rfl
  refine ⟨_, hrun, rfl, rfl, ?_⟩
  exact incrLoop_matches_full tbl cfg prs { Reviewers := [], file := file, newPRsCount := 0 } []
    hwrites ⟨_, hfresh⟩ (fun _ => ⟨rfl, rfl⟩) wrapped_nil

/-- A missing store file and four units: a review by alice with a thumbs up (review points
only), a review by bob with the first key of `positiveEmojis` (review and emoji points), a
unit whose comments cannot be fetched, and a unit whose reviews cannot be fetched. -/
theorem incremental_agrees_with_full_witness :
    Load .notExist = .ok { Reviewers := [], LastUpdated := 0, ProcessedPRs := [] } ∧
    (∀ pr ∈ [thumbsUpUnit, keyedUnit, commentsFailUnit, reviewsFailUnit], pr.write = .ok) ∧
    fullTotals id Config.defaultConfig
        [thumbsUpUnit, keyedUnit, commentsFailUnit, reviewsFailUnit]
      = [("alice", 2), ("bob", 3)] ∧
    ∃ res, runIncrementalUpdate id Config.defaultConfig .notExist
        (.ok [thumbsUpUnit, keyedUnit, commentsFailUnit, reviewsFailUnit]) true = .ok res ∧
      res.leaderboard = GenerateLeaderboard res.Reviewers ∧
      runFullRecreation id Config.defaultConfig
          (.ok [thumbsUpUnit, keyedUnit, commentsFailUnit, reviewsFailUnit]) true =
        .ok (GenerateLeaderboard
          (fullTotals id Config.defaultConfig
            [thumbsUpUnit, keyedUnit, commentsFailUnit, reviewsFailUnit])) ∧
      SameTotals res.Reviewers
        (fullTotals id Config.defaultConfig
          [thumbsUpUnit, keyedUnit, commentsFailUnit, reviewsFailUnit]) :=
  ⟨rfl, by decide, by decide,
   incremental_agrees_with_full id Config.defaultConfig .notExist 0
     [thumbsUpUnit, keyedUnit, commentsFailUnit, reviewsFailUnit] rfl (by decide)⟩

end Main

/-! ## Word counts under lower-casing and stripping -/

namespace GoStrings

theorem wordStarts_append (x y : List Char) :
    ∀ b, wordStarts b (x ++ y) = wordStarts b x + wordStarts (inWordAfter b x) y := by
  induction x with
  | nil => intro b; simp [wordStarts, inWordAfter]
  | cons c x ih =>
    intro b
    show wordStarts b (c :: (x ++ y)) = _
    simp only [wordStarts, inWordAfter]
    split
    · rename_i h
      rw [ih false]
      simp [h]
    · rename_i h
      rw [ih true]
      simp [h, Nat.add_assoc]

theorem wordStarts_true_le_false (s : List Char) : wordStarts true s ≤ wordStarts false s := by
  cases s with
  | nil => exact le_refl _
  | cons c s =>
    simp only [wordStarts]
    split <;> simp

theorem wordStarts_false_le_true (s : List Char) :
    wordStarts false s ≤ wordStarts true s + 1 := by
  cases s with
  | nil => simp [wordStarts]
  | cons c s =>
    simp only [wordStarts]
    split
    · omega
    · simp
      omega

theorem wordStarts_pos_of_inWordAfter (p : List Char) :
    ∀ b, inWordAfter b p = true → b = true ∨ 1 ≤ wordStarts b p := by
  induction p with
  | nil => intro b h; exact Or.inl h
  | cons c p ih =>
    intro b h
    simp only [inWordAfter] at h
    simp only [wordStarts]
    cases hc : isSpace c with
    | true =>
      rw [hc] at h
      rcases ih false h with h' | h'
      · exact absurd h' (by decide)
      · right
        simpa using h'
    | false =>
      cases b with
      | true => exact Or.inl rfl
      | false =>
        right
        simp

theorem inWordAfter_cons (b : Bool) (c : Char) (p : List Char) :
    inWordAfter b (c :: p) = inWordAfter (!isSpace c) p := rfl

/-- `strings.Fields` returns as many words as there are word starts. -/
theorem length_fieldsScan (s : List Char) :
    ∀ cur : List Char,
      (fieldsScan cur s).length =
        wordStarts (!cur.isEmpty) s + (if cur.isEmpty then 0 else 1) := by
  induction s with
  | nil =>
    intro cur
    simp only [fieldsScan, wordStarts]
    split <;> simp
  | cons c s ih =>
    intro cur
    simp only [fieldsScan, wordStarts]
    cases hc : isSpace c with
    | true =>
      simp only [if_true]
      cases hcur : cur.isEmpty with
      | true => simp [ih []]
      | false => simp [ih []]
    | false =>
      simp only [Bool.false_eq_true, if_false]
      rw [ih (c :: cur)]
      cases hcur : cur.isEmpty with
      | true => simp [Nat.add_comm]
      | false => simp

theorem length_Fields (s : List Char) : (Fields s).length = wordStarts false s := by
  have := length_fieldsScan s []
  simpa [Fields] using this

end GoStrings

namespace GoStrings

/-- One replacement is harmless when putting `new` for `old` in front of texts `x`, `y`
with no more word starts in `x` than in `y` gives no more word starts. -/
theorem wordStarts_replaceScan (old new : List Char) (hne : old ≠ [])
    (hok : ∀ b x y, (∀ c, wordStarts c x ≤ wordStarts c y) →
      wordStarts b (new ++ x) ≤ wordStarts b (old ++ y)) :
    ∀ (s : List Char) (k : Nat) (b : Bool),
      wordStarts b (replaceScan old new k s) ≤ wordStarts b (s.drop k) := by
  intro s
  induction s with
  | nil => intro k b; simp [replaceScan, wordStarts]
  | cons c s ih =>
    intro k b
    cases k with
    | succ k => simpa [replaceScan] using ih k b
    | zero =>
      simp only [replaceScan, List.drop_zero]
      split
      · rename_i hp
        obtain ⟨o, os, rfl⟩ := List.exists_cons_of_ne_nil hne
        have hpre := (HasPrefix_iff (c :: s) (o :: os)).mp hp
        rw [List.cons_prefix_cons] at hpre
        obtain ⟨hco, t, ht⟩ := hpre
        have hdrop : s.drop os.length = t := by
          rw [← ht]; simp
        have hs : c :: s = (o :: os) ++ s.drop os.length := by
          rw [hdrop, ← ht, hco]; rfl
        have hlen : (o :: os).length - 1 = os.length := by simp
        rw [hlen]
        conv => rhs; rw [hs]
        exact hok b _ _ (fun c' => ih os.length c')
      · have := ih 0 b
        simp only [List.drop_zero] at this
        simp only [wordStarts]
        split
        · exact (ih 0 false)
        · have h2 := ih 0 true
          simp only [List.drop_zero] at h2
          omega

theorem wordStarts_ReplaceAll (s old new : List Char) (hempty : old = [] → new = [])
    (hok : ∀ b x y, (∀ c, wordStarts c x ≤ wordStarts c y) →
      wordStarts b (new ++ x) ≤ wordStarts b (old ++ y)) (b : Bool) :
    wordStarts b (ReplaceAll s old new) ≤ wordStarts b s := by
  unfold ReplaceAll
  split
  · rename_i hold
    have hold' : old = [] := by simpa using hold
    have hnew := hempty hold'
    subst hnew
    have : ∀ l : List Char, l.flatMap (fun c => [c]) = l := by
      intro l
      induction l with
      | nil => rfl
      | cons a l ih => simp [List.flatMap_cons, ih]
    simp [this]
  · rename_i hold
    have hne : old ≠ [] := by simpa using hold
    have := wordStarts_replaceScan old new hne hok s 0 b
    simpa using this

theorem isSpace_space : isSpace ' ' = true := by decide

theorem replace_harmless_both (p : List Char) :
    ∀ b x y, (∀ c, wordStarts c x ≤ wordStarts c y) →
      wordStarts b ([' '] ++ x) ≤ wordStarts b ((' ' :: p ++ [' ']) ++ y) := by
  intro b x y h
  have e1 : wordStarts b ([' '] ++ x) = wordStarts false x := by
    simp [wordStarts, isSpace_space]
  have e2 : wordStarts b ((' ' :: p ++ [' ']) ++ y) =
      wordStarts false p + wordStarts false y := by
    have : (' ' :: p ++ [' ']) ++ y = ' ' :: (p ++ (' ' :: y)) := by simp
    rw [this]
    simp only [wordStarts, isSpace_space, if_true]
    rw [wordStarts_append]
    simp [wordStarts, isSpace_space]
  rw [e1, e2]
  have := h false
  omega

theorem replace_harmless_after (p : List Char) :
    ∀ b x y, (∀ c, wordStarts c x ≤ wordStarts c y) →
      wordStarts b ([' '] ++ x) ≤ wordStarts b ((p ++ [' ']) ++ y) := by
  intro b x y h
  have e1 : wordStarts b ([' '] ++ x) = wordStarts false x := by
    simp [wordStarts, isSpace_space]
  have e2 : wordStarts b ((p ++ [' ']) ++ y) = wordStarts b p + wordStarts false y := by
    have : (p ++ [' ']) ++ y = p ++ (' ' :: y) := by simp
    rw [this, wordStarts_append]
    simp [wordStarts, isSpace_space]
  rw [e1, e2]
  have := h false
  omega

theorem replace_harmless_plain (p : List Char) :
    ∀ b x y, (∀ c, wordStarts c x ≤ wordStarts c y) →
      wordStarts b ([] ++ x) ≤ wordStarts b (p ++ y) := by
  intro b x y h
  rw [List.nil_append, wordStarts_append]
  cases b with
  | true =>
    cases ha : inWordAfter true p with
    | true => have := h true; omega
    | false =>
      have h1 := h true
      have h2 := wordStarts_true_le_false y
      omega
  | false =>
    cases ha : inWordAfter false p with
    | false => have := h false; omega
    | true =>
      have h1 := h true
      have h2 := wordStarts_false_le_true x
      rcases wordStarts_pos_of_inWordAfter p false ha with h3 | h3
      · exact absurd h3 (by decide)
      · omega

theorem replace_harmless_before (p : List Char) :
    ∀ b x y, (∀ c, wordStarts c x ≤ wordStarts c y) →
      wordStarts b ([' '] ++ x) ≤ wordStarts b ((' ' :: p) ++ y) := by
  intro b x y h
  have e1 : wordStarts b ([' '] ++ x) = wordStarts false x := by
    simp [wordStarts, isSpace_space]
  have e2 : wordStarts b ((' ' :: p) ++ y) = wordStarts false (p ++ y) := by
    simp [wordStarts, isSpace_space]
  rw [e1, e2]
  have := replace_harmless_plain p false x y h
  simpa using this

end GoStrings

namespace Karma

open GoStrings

theorem wordStarts_stripPhrase (text : List Char) (phrase : String) (b : Bool) :
    wordStarts b (stripPhrase text phrase) ≤ wordStarts b text := by
  unfold stripPhrase
  have h1 := wordStarts_ReplaceAll text (' ' :: phrase.data ++ [' ']) [' ']
    (fun h => by simp at h) (replace_harmless_both phrase.data) b
  have h2 := wordStarts_ReplaceAll (ReplaceAll text (' ' :: phrase.data ++ [' ']) [' '])
    (phrase.data ++ [' ']) [' '] (fun h => by simp at h)
    (replace_harmless_after phrase.data) b
  have h3 := wordStarts_ReplaceAll
    (ReplaceAll (ReplaceAll text (' ' :: phrase.data ++ [' ']) [' ']) (phrase.data ++ [' '])
      [' ']) (' ' :: phrase.data) [' '] (fun h => by simp at h)
    (replace_harmless_before phrase.data) b
  have h4 := wordStarts_ReplaceAll
    (ReplaceAll (ReplaceAll (ReplaceAll text (' ' :: phrase.data ++ [' ']) [' '])
      (phrase.data ++ [' ']) [' ']) (' ' :: phrase.data) [' ']) phrase.data []
    (fun _ => rfl) (replace_harmless_plain phrase.data) b
  simp only
  omega

theorem wordStarts_foldl_stripPhrase (phrases : List String) (b : Bool) :
    ∀ text : List Char, wordStarts b (phrases.foldl stripPhrase text) ≤ wordStarts b text := by
  induction phrases with
  | nil => intro text; exact le_refl _
  | cons p ps ih =>
    intro text
    exact le_trans (ih (stripPhrase text p)) (wordStarts_stripPhrase text p b)

theorem isSpace_upper (n : Fin 26) :
    isSpace (Char.ofNat (n.val + 65)) = false ∧
      isSpace (Char.ofNat (n.val + 65 + 32)) = false := by
  revert n
  decide

/-- Lower-casing keeps white space white space and the other runes other runes, when the
case table does. -/
theorem isSpace_toLowerRune (tbl : Char → Char) (htbl : ∀ c, isSpace (tbl c) = isSpace c)
    (r : Char) : isSpace (toLowerRune tbl r) = isSpace r := by
  unfold toLowerRune
  split
  · split
    · rename_i h
      have hlo : 65 ≤ r.toNat := h.1
      have hhi : r.toNat ≤ 90 := h.2
      have hr : r = Char.ofNat ((⟨r.toNat - 65, by omega⟩ : Fin 26).val + 65) := by
        have : r.toNat - 65 + 65 = r.toNat := by omega
        simp only [this, Char.ofNat_toNat]
      have h1 := isSpace_upper ⟨r.toNat - 65, by omega⟩
      have e : 'a'.toNat - 'A'.toNat = 32 := by decide
      have e2 : r.toNat + 32 = r.toNat - 65 + 65 + 32 := by omega
      rw [e, e2, h1.2]
      rw [hr]
      simp only
      exact h1.1.symm
    · rfl
  · exact htbl r

theorem wordStarts_ToLower (tbl : Char → Char) (htbl : ∀ c, isSpace (tbl c) = isSpace c)
    (s : List Char) : ∀ b, wordStarts b (ToLower tbl s) = wordStarts b s := by
  induction s with
  | nil => intro b; rfl
  | cons c s ih =>
    intro b
    simp only [ToLower, List.map_cons, wordStarts, isSpace_toLowerRune tbl htbl c]
    simp only [ToLower] at ih
    rw [ih false, ih true]

/-- C24: phrase stripping never increases the word count.  With a case table that keeps
white space apart from the other runes, the text left after lower-casing and all strip
passes of `IsConstructiveComment` splits into at most as many words as the original text;
a constructive text has more than 10 words and a text of at most 10 words is not
constructive. -/
theorem stripping_keeps_word_count (tbl : Char → Char)
    (htbl : ∀ c, isSpace (tbl c) = isSpace c) :
    (∀ text : String,
      (Fields (nonConstructive.foldl stripPhrase (ToLower tbl text.data))).length ≤
        (Fields text.data).length) ∧
    (∀ text : String, IsConstructiveComment tbl text = true →
      (Fields text.data).length > 10) ∧
    (∀ text : String, (Fields text.data).length ≤ 10 →
      IsConstructiveComment tbl text = false) := by
  have hle : ∀ text : String,
      (Fields (nonConstructive.foldl stripPhrase (ToLower tbl text.data))).length ≤
        (Fields text.data).length := by
    intro text
    rw [length_Fields, length_Fields]
    exact le_trans (wordStarts_foldl_stripPhrase nonConstructive false _)
      (le_of_eq (wordStarts_ToLower tbl htbl text.data false))
  refine ⟨hle, ?_, ?_⟩
  · intro text h
    unfold IsConstructiveComment at h
    split at h
    · exact absurd h (by decide)
    · simp only [gt_iff_lt, decide_eq_true_eq] at h
      exact lt_of_lt_of_le h (hle text)
  · intro text h
    unfold IsConstructiveComment
    split
    · rfl
    · simp only [gt_iff_lt, decide_eq_false_iff_not, not_lt]
      exact le_trans (hle text) h

/-- The 10-word sentence "looks good to me and nice work on these tests" under the
identity case table: 4 words are left and the sentence is not constructive. -/
theorem stripping_keeps_word_count_witness :
    (∀ c, isSpace (id c) = isSpace c) ∧
    (Fields "Looks good to me and nice work on these tests".data).length = 10 ∧
    (Fields (nonConstructive.foldl stripPhrase
      (ToLower id "Looks good to me and nice work on these tests".data))).length ≤
        (Fields "Looks good to me and nice work on these tests".data).length ∧
    IsConstructiveComment id "Looks good to me and nice work on these tests" = false :=
  ⟨fun _ => rfl, by decide,
   (stripping_keeps_word_count id (fun _ => rfl)).1 _,
   (stripping_keeps_word_count id (fun _ => rfl)).2.2 _ (by decide)⟩

end Karma

/-! ## The rendered report -/

namespace Karma

theorem renderRow_eq (i : Nat) (reviewer : Reviewer) :
    renderRow i reviewer = some (specRow (i + 1) reviewer) := by
  match i with
  | 0 => rfl
  | 1 => rfl
  | 2 => rfl
  | n + 3 =>
    have h : ¬ (n + 3 + 1 ≤ 3) := by omega
    simp [renderRow, specRow, specMedal, h]

theorem renderRows_eq (entries : List Reviewer) (i : Nat) (sb : String) :
    renderRows i entries sb = some (sb ++ concatAll (specRows (i + 1) entries)) := by
  induction entries generalizing i sb with
  | nil => simp [renderRows, specRows, concatAll]
  | cons reviewer rest ih =>
    simp [renderRows, specRows, concatAll, renderRow_eq, ih, String.append_assoc]

theorem length_specRows (entries : List Reviewer) (rank : Nat) :
    (specRows rank entries).length = entries.length := by
  induction entries generalizing rank with
  | nil => rfl
  | cons reviewer rest ih => simp [specRows, ih]

theorem getElem_specRows (entries : List Reviewer) (rank i : Nat) :
    (specRows rank entries)[i]? = (entries[i]?).map (specRow (rank + i)) := by
  induction entries generalizing rank i with
  | nil => simp [specRows]
  | cons reviewer rest ih =>
    cases i with
    | zero => simp [specRows]
    | succ j =>
      simp only [specRows, List.getElem?_cons_succ, ih]
      have h : rank + 1 + j = rank + (j + 1) := by omega
      rw [h]

/-- C22: the rendered report is total (the medal lookup never leaves the three-element
slice) and is the header showing the three configured point values, then exactly one table
row per leaderboard entry in leaderboard order, then the footer; the row of the entry at
index `i` shows rank `i + 1`, the medal marker of that rank, `@` followed by the username,
and the points; ranks 1, 2 and 3 carry three pairwise different medals and every rank from
4 on carries none. -/
theorem generateLeaderboardMarkdownWithConfig_layout (leaderboard : Leaderboard)
    (reviewPoint emojiPoint commentPoint : Int) (stamp : String) :
    generateLeaderboardMarkdownWithConfig leaderboard reviewPoint emojiPoint commentPoint stamp
        = some (specHeader reviewPoint emojiPoint commentPoint
            ++ concatAll (specRows 1 leaderboard.Reviewers) ++ specFooter stamp) ∧
      (specRows 1 leaderboard.Reviewers).length = leaderboard.Reviewers.length ∧
      (∀ i : Nat, (specRows 1 leaderboard.Reviewers)[i]?
        = (leaderboard.Reviewers[i]?).map (specRow (i + 1))) ∧
      (∀ (rank : Nat) (reviewer : Reviewer), specRow rank reviewer
        = "| " ++ Nat.repr rank ++ " | " ++ specMedal rank ++ "@" ++ reviewer.Username
            ++ " | " ++ formatInt reviewer.Points ++ " |\n") ∧
      specMedal 1 = "\u011f\u0178\u00a5\u2021 " ∧ specMedal 2 = "\u011f\u0178\u00a5\u02c6 " ∧
      specMedal 3 = "\u011f\u0178\u00a5\u2030 " ∧
      specMedal 1 ≠ specMedal 2 ∧ specMedal 1 ≠ specMedal 3 ∧ specMedal 2 ≠ specMedal 3 ∧
      (∀ rank : Nat, 4 ≤ rank → specMedal rank = "") := by
  refine ⟨?_, length_specRows _ _, ?_, fun _ _ => rfl, rfl, rfl, rfl, by decide, by decide,
    by decide, ?_⟩
  · simp only [generateLeaderboardMarkdownWithConfig, renderRows_eq, specHeader, specFooter,
      concatAll]
    apply congrArg some
    apply String.ext
    simp only [String.data_append, List.append_assoc]
    rfl
  · intro i
    rw [getElem_specRows, Nat.add_comm]
  · intro rank h
    have h1 : rank ≠ 1 := by omega
    have h2 : rank ≠ 2 := by omega
    have h3 : rank ≠ 3 := by omega
    simp [specMedal, h1, h2, h3]

set_option maxRecDepth 8000 in
theorem generateLeaderboardMarkdownWithConfig_layout_witness :
    generateLeaderboardMarkdownWithConfig medalBoard 1 2 1 "2024-01-01 00:00:00 UTC"
        = some (specHeader 1 2 1 ++ concatAll (specRows 1 medalBoard.Reviewers)
            ++ specFooter "2024-01-01 00:00:00 UTC") ∧
      concatAll (specRows 1 medalBoard.Reviewers)
        = "| 1 | \u011f\u0178\u00a5\u2021 @alice | 18 |\n"
            ++ "| 2 | \u011f\u0178\u00a5\u02c6 @bob | 12 |\n"
            ++ "| 3 | \u011f\u0178\u00a5\u2030 @carol | 10 |\n"
            ++ "| 4 | @dave | 8 |\n" ∧
      specHeader 1 2 1
        = "# Reviewer Karma Leaderboard\n\nThis leaderboard tracks reviewer engagement and "
            ++ "contributions to the repository.\n\n## Scoring System\n\n"
            ++ "- \u00e2\u0153\u2026 Giving a code review: +1 point(s)\n"
            ++ "- \u00e2\u0153\u2026 Review includes a positive emoji (\u011f\u0178\u2018, \u011f\u0178\u201d\u00a5, \u011f\u0178\u02dc\u201e, etc.): +2 point(s)\n"
            ++ "- \u00e2\u0153\u2026 Review comment contains a constructive message (>10 words): +1 point(s)\n"
            ++ "\n## Current Rankings\n\n| Rank | Reviewer | Points |\n"
            ++ "|------|----------|--------|\n" :=
  ⟨(generateLeaderboardMarkdownWithConfig_layout medalBoard 1 2 1
      "2024-01-01 00:00:00 UTC").1, by decide, by rfl⟩

end Karma
